import Mathlib

/-!
# JIT compilation broker of MFEM (`general/jit/jit.cpp`)

A shallow embedding of the `JIT` singleton of `general/jit/jit.cpp`:

* the mailbox primitives `Ack`, `AckEQ`, `AckNE`, `Send`, `Wait`, `Acknowledge`;
* the body of the worker loop of `JIT::Child`;
* `JIT::Call`, `MPI::Sync`, and `JIT::Lookup` with its two lambdas
  `RootCompile` and `WorldCompile`;
* the life cycle `JIT::Init`, `JIT::Child`, `JIT::Handler`, `JIT::Finalize`.

The namespace `mfem` holds the embedding of two further files: the overloads of
`Determinant` of `linalg/tensor/determinant.hpp`, and of `fem/complex_blockstaticcond.cpp`
the functions `GetReduceElementIndicesAndOffsets`, `FillEssTdofLists`,
`GetLocalShurComplement`, the interior part of `ComputeSolution`, and the statements that
select the faces of an element.

Conventions.

* The C++ `int` is an `Int`; `void*` is a `Nat` whose value `0` is `nullptr`.
* A polling loop `while (OP()(*Ack(), xx)) sleep` reads the shared cell once per
  iteration.  The values it reads are a list of observations; `none` means that
  the loop has not left within the observations given.
* Everything outside the process (file system, loader, `std::system`, the other
  ranks of the job) is an oracle of an `Env` over an arbitrary world type.
* The side effects of a run are recorded, in order, in a trace of `Event`s.
-/

namespace jit_internal

/-! ## Processes, oracles and traces -/

/-- One side effect of a run, as seen from outside the process. -/
inductive Event where
  /-- The call `std::system(cmd)` ran, in this process or in the helper, and gave `status`. -/
  | command (cmd : String) (status : Int)
  /-- The stream `std::ofstream(path)` was opened; `good` is the value of `good()`. -/
  | ofstream (path : String) (good : Bool)
  /-- The text `text` was written to the open stream of `path`. -/
  | write (path : String) (text : String)
  /-- The call `std::remove(path)`. -/
  | remove (path : String)
  /-- The call `MPI_Allreduce` with `MPI_LOR`: this rank gave `status` and received `reduced`. -/
  | allreduce (status : Bool) (reduced : Bool)
  /-- The call `::dlopen(path, RTLD_LAZY|RTLD_LOCAL)` returned `handle`. -/
  | dlopen (path : String) (handle : Nat)
  /-- The call `::dlsym(handle, symbol)` returned `addr`. -/
  | dlsym (handle : Nat) (symbol : String) (addr : Nat)
  deriving DecidableEq

/-- Everything outside the process, over a world of type `W`. -/
structure Env (W : Type) where
  /-- Value of `std::fstream(path)` converted to `bool`. -/
  fstream : W → String → Bool
  /-- Result of `::dlopen(path, RTLD_LAZY|RTLD_LOCAL)`, `0` for `nullptr`. -/
  dlopen : W → String → W × Nat
  /-- Result of `::dlsym(handle, symbol)`, `0` for `nullptr`. -/
  dlsym : W → Nat → String → Nat
  /-- Result of `std::system(cmd)`. -/
  system : W → String → W × Int
  /-- Opening `std::ofstream(path)`: the world after and the value of `good()`. -/
  ofstream : W → String → W × Bool
  /-- Writing `text` to the open stream of `path` and closing it. -/
  write : W → String → String → W
  /-- The call `std::remove(path)`. -/
  remove : W → String → W
  /-- One `MPI_Allreduce` with `MPI_LOR`, seen from this rank: the world when the
  reduction completes and the disjunction of the values of all other ranks. -/
  allreduce : W → W × Bool

/-- Build and job configuration: the preprocessor symbols and the state of MPI. -/
structure Config where
  /-- Whether `MFEM_USE_MPI` is defined. -/
  MFEM_USE_MPI : Bool
  /-- Value of `Mpi::IsInitialized()`. -/
  initialized : Bool
  /-- Value of `Mpi::WorldRank()`. -/
  worldRank : Nat
  /-- Value of `Size()`, the size of the shared command buffer. -/
  size : Nat
  /-- Whether `MFEM_USE_CUDA` or `MFEM_USE_HIP` is defined. -/
  device : Bool
  /-- Whether `__APPLE__` is defined. -/
  apple : Bool
  /-- Value of the configuration string `MFEM_JIT_CXX`. -/
  CXX : String
  /-- Value of the configuration string `MFEM_JIT_BUILD_FLAGS`. -/
  FLAGS : String

/-- State of a run: the world, the shared mailbox `*s_ack`, the shared buffer `s_mem`,
whether the helper is in its worker loop, and the trace so far. -/
structure State (W : Type) where
  world : W
  ack : Int
  mem : String
  helper : Bool
  trace : List Event

/-- How a call ends: it returns, `MFEM_VERIFY`/`MFEM_ABORT` aborts the process, or it
is still inside a polling loop after every observation allowed. -/
inductive Res (α : Type) where
  | ret (a : α)
  | abort (msg : String)
  | blocked
  deriving DecidableEq

/-- A piece of the program: from a state to how it ends and the state then. -/
def Prog (W : Type) (α : Type) : Type := State W → Res α × State W

/-- Return `a` without effect. -/
def Prog.pure {W α : Type} (a : α) : Prog W α := fun s => (Res.ret a, s)

/-- Sequencing: `f` runs only when `m` returns. -/
def Prog.bind {W α β : Type} (m : Prog W α) (f : α → Prog W β) : Prog W β := fun s =>
  match m s with
  | (Res.ret a, s1) => f a s1
  | (Res.abort msg, s1) => (Res.abort msg, s1)
  | (Res.blocked, s1) => (Res.blocked, s1)

/-- The macro `MFEM_VERIFY(cond, msg)`, active in every build. -/
def MFEM_VERIFY {W : Type} (cond : Bool) (msg : String) : Prog W Unit := fun s =>
  if cond then (Res.ret (), s) else (Res.abort msg, s)

/-- Two's complement reading of a 32-bit pattern as a C++ `int`. -/
def toInt32 (n : Int) : Int := (n + 2 ^ 31) % 2 ^ 32 - 2 ^ 31

/-- Status `EXIT_SUCCESS` of `<cstdlib>`. -/
def EXIT_SUCCESS : Int := 0

/-- Status `EXIT_FAILURE` of `<cstdlib>`. -/
def EXIT_FAILURE : Int := 1

/-- Conversion of an `int` to `bool`. -/
def intToBool (i : Int) : Bool := i != 0

/-- Promotion of a `bool` to `int`. -/
def boolToInt (b : Bool) : Int := if b then 1 else 0

/-- The commands a trace contains, in order. -/
def commands : List Event → List String
  | [] => []
  | Event.command cmd _ :: rest => cmd :: commands rest
  | _ :: rest => commands rest

/-! ## `struct MPI` -/

/-- The function `MPI::Rank()`: the world rank, `0` unless MPI is compiled in and
initialized. -/
def MPI.Rank (cfg : Config) : Nat :=
  if cfg.MFEM_USE_MPI then (if cfg.initialized then cfg.worldRank else 0) else 0

/-- The function `MPI::IsInitialized()`. -/
def MPI.IsInitialized (cfg : Config) : Bool :=
  if cfg.MFEM_USE_MPI then cfg.initialized else false

/-- The function `MPI::Root()`: `Rank() == 0`. -/
def MPI.Root (cfg : Config) : Bool := MPI.Rank cfg == 0

/-- The call `MPI_Allreduce(MPI_IN_PLACE, &status, 1, MPI_C_BOOL, MPI_LOR, ...)` on one
rank: `status` becomes the disjunction of the values of all ranks. -/
def MPI.Allreduce {W : Type} (env : Env W) (status : Bool) : Prog W Bool := fun s =>
  let r := env.allreduce s.world
  let reduced := status || r.2
  (Res.ret reduced, { s with world := r.1, trace := s.trace ++ [Event.allreduce status reduced] })

/-- The function `MPI::Sync(status)`: with MPI compiled in and initialized, reduce the
status over all ranks and verify `status == EXIT_SUCCESS`; otherwise nothing. -/
def MPI.Sync {W : Type} (cfg : Config) (env : Env W) (status : Bool) : Prog W Unit :=
  if cfg.MFEM_USE_MPI then
    if cfg.initialized then
      Prog.bind (MPI.Allreduce env status) fun reduced =>
      MFEM_VERIFY (boolToInt reduced == EXIT_SUCCESS) "[JIT] Synchronization error!"
    else Prog.pure ()
  else Prog.pure ()

/-- The value every rank of a job holds after the `MPI_LOR` reduction of `statuses`
(one entry per rank). -/
def MPI.reduceLOR (statuses : List Bool) : Bool := statuses.any id

/-- The verdict of `MPI::Sync` on one rank of an initialized job whose ranks gave
`statuses`: `true` when the verification `status == EXIT_SUCCESS` passes, `false`
when it aborts.  The rank index plays no part: `MPI_Allreduce` hands every rank the
same reduced value. -/
def MPI.SyncVerdict (statuses : List Bool) (_rank : Nat) : Bool :=
  boolToInt (MPI.reduceLOR statuses) == EXIT_SUCCESS

/-! ## `struct JIT::Command`, option tables, file names -/

/-- The operator `Command::operator<<`: `cmd << c << ' '`. -/
def JIT.Command.shl (cmd : String) (c : String) : String := cmd ++ c ++ " "

/-- The conversion `Command::operator const char *()`: the text streamed so far and the
flushed builder. -/
def JIT.Command.cstr (cmd : String) : String × String := (cmd, "")

/-- The function `Xdevice()`: `options.Device()`. -/
def JIT.Xdevice (cfg : Config) : String := if cfg.device then "--device-c" else ""

/-- The function `Xlinker()`: `options.Linker()`. -/
def JIT.Xlinker (cfg : Config) : String := if cfg.device then "-Xlinker=" else "-Wl,"

/-- The function `Xcompiler()`: `options.Compiler()`. -/
def JIT.Xcompiler (cfg : Config) : String := if cfg.device then "-Xcompiler=" else ""

/-- The function `ARprefix()`: `archive.Prefix()`. -/
def JIT.ARprefix (cfg : Config) : String :=
  if cfg.apple then "-all_load" else JIT.Xlinker cfg ++ "--whole-archive"

/-- The function `ARpostfix()`: `archive.Postfix()`. -/
def JIT.ARpostfix (cfg : Config) : String :=
  if cfg.apple then "" else JIT.Xlinker cfg ++ "--no-whole-archive"

/-- The function `ARbackup()`: `archive.Backup()`. -/
def JIT.ARbackup (cfg : Config) : String := if cfg.apple then "" else "--backup=none"

/-- The function `ar()`. -/
def JIT.ar : String := "libmjit.a"

/-- The function `so()`. -/
def JIT.so : String := "./libmjit.so"

/-- The lambda `FileNameFromHash64(h, ext)`: `'k'`, then `h` as a `size_t` in lowercase
hexadecimal, right-aligned in 16 columns filled with `'0'`, then `ext`. -/
def JIT.FileNameFromHash64 (h : Nat) (ext : String) : String :=
  let digits := Nat.toDigits 16 (h % 2 ^ 64)
  "k" ++ String.mk (List.replicate (16 - digits.length) '0' ++ digits) ++ ext

/-! ## Mailbox -/

/-- Mailbox sentinel `ACK = ~0`. -/
def JIT.ACK : Int := -1

/-- Mailbox sentinel `CALL = 0x3243F6A8`. -/
def JIT.CALL : Int := 0x3243F6A8

/-- Mailbox sentinel `EXIT = 0x9e3779b9`, narrowed to `int`. -/
def JIT.EXIT : Int := toInt32 0x9e3779b9

/-- The functor `std::equal_to<int>`. -/
def equal_to (a b : Int) : Bool := a == b

/-- The functor `std::not_equal_to<int>`. -/
def not_equal_to (a b : Int) : Bool := a != b

/-- The loop `template <typename OP> Ack(xx)`: `while (OP()(*Ack(), xx)) sleep`.
Each element of the list is the value one evaluation of `*Ack()` reads.  The result
is the number of sleeps before the loop is left, `none` when the loop is still
running after the last observation. -/
def JIT.Ack (OP : Int → Int → Bool) (xx : Int) : List Int → Option Nat
  | [] => none
  | m :: rest => if OP m xx then (Ack OP xx rest).map (· + 1) else some 0

/-- The call `AckEQ(xx)`: poll while the cell equals `xx`.  The C++ default argument
`ACK` is passed explicitly. -/
def JIT.AckEQ (xx : Int) (obs : List Int) : Option Nat := Ack equal_to xx obs

/-- The call `AckNE(xx)`: poll while the cell differs from `xx`.  The C++ default
argument `ACK` is passed explicitly. -/
def JIT.AckNE (xx : Int) (obs : List Int) : Option Nat := Ack not_equal_to xx obs

/-- The call `Write(xx)`: `*Ack() = xx`; the result is the new content of the cell. -/
def JIT.Write (xx : Int) : Int := xx

/-- The call `Acknowledge()`: `Write(ACK)`. -/
def JIT.Acknowledge : Int := Write ACK

/-- The call `Send(xx)`: `AckNE(*Ack() = xx)`.  The first component is the content of
the cell after the store, the second the outcome of the polling loop on the
observations `obs` made after the store. -/
def JIT.Send (xx : Int) (obs : List Int) : Int × Option Nat :=
  let stored := Write xx
  (stored, AckNE stored obs)

/-- The call `Wait(eq)`: `eq ? AckEQ() : AckNE()`.  The C++ default argument `true`
is passed explicitly. -/
def JIT.Wait (eq : Bool) (obs : List Int) : Option Nat :=
  if eq then AckEQ ACK obs else AckNE ACK obs

/-- The test `IsCall()` on the content of the cell. -/
def JIT.IsCall (cell : Int) : Bool := cell == CALL

/-- The test `IsExit()` on the content of the cell. -/
def JIT.IsExit (cell : Int) : Bool := cell == EXIT

/-- The test `IsAck()` on the content of the cell. -/
def JIT.IsAck (cell : Int) : Bool := cell == ACK

/-! ## Calls into the world -/

/-- The call `std::system(command)`. -/
def system {W : Type} (env : Env W) (command : String) : Prog W Int := fun s =>
  let r := env.system s.world command
  (Res.ret r.2, { s with world := r.1, trace := s.trace ++ [Event.command command r.2] })

/-- The conversion of `std::fstream(path)` to `bool`. -/
def fstream {W : Type} (env : Env W) (path : String) : Prog W Bool := fun s =>
  (Res.ret (env.fstream s.world path), s)

/-- The call `std::remove(path)`. -/
def remove {W : Type} (env : Env W) (path : String) : Prog W Unit := fun s =>
  (Res.ret (), { s with world := env.remove s.world path, trace := s.trace ++ [Event.remove path] })

/-- The declaration `std::ofstream input_src_file(path)` and the value of `good()`. -/
def ofstream {W : Type} (env : Env W) (path : String) : Prog W Bool := fun s =>
  let r := env.ofstream s.world path
  (Res.ret r.2, { s with world := r.1, trace := s.trace ++ [Event.ofstream path r.2] })

/-- The statements `input_src_file << text; input_src_file.close();`. -/
def write {W : Type} (env : Env W) (path text : String) : Prog W Unit := fun s =>
  (Res.ret (), { s with world := env.write s.world path text,
                        trace := s.trace ++ [Event.write path text] })

/-- The call `::dlsym(handle, symbol)`. -/
def dlsym {W : Type} (env : Env W) (handle : Nat) (symbol : String) : Prog W Nat := fun s =>
  let k := env.dlsym s.world handle symbol
  (Res.ret k, { s with trace := s.trace ++ [Event.dlsym handle symbol k] })

/-- The function `DLopen(path)`: `::dlopen(path, RTLD_LAZY|RTLD_LOCAL)`. -/
def JIT.DLopen {W : Type} (env : Env W) (path : String) : Prog W Nat := fun s =>
  let r := env.dlopen s.world path
  (Res.ret r.2, { s with world := r.1, trace := s.trace ++ [Event.dlopen path r.2] })

/-! ## Handshake between the parent and its helper

The parent and the helper run in turn: while one of them polls, the other does not
store, so a polling loop reads the same content of the cell at each of its `polls + 1`
reads. -/

/-- The parent or the helper runs `Send(xx)` while the other side does not store. -/
def JIT.doSend {W : Type} (polls : Nat) (xx : Int) : Prog W Unit := fun s =>
  let r := JIT.Send xx (List.replicate (polls + 1) (JIT.Write xx))
  match r.2 with
  | some _ => (Res.ret (), { s with ack := r.1 })
  | none => (Res.blocked, { s with ack := r.1 })

/-- The parent or the helper runs `Wait(eq)` while the other side does not store. -/
def JIT.doWait {W : Type} (polls : Nat) (eq : Bool) : Prog W Unit := fun s =>
  match JIT.Wait eq (List.replicate (polls + 1) s.ack) with
  | some _ => (Res.ret (), s)
  | none => (Res.blocked, s)

/-- One pass of the worker loop of `JIT::Child`, from the cell content the helper
wakes with:
`if (IsCall()) { if (std::system(Mem())) { return; } } if (IsExit()) { return; } Acknowledge();`.
The result is `true` when the pass ends in `Acknowledge()` and the loop goes on,
`false` when the thread function returns. -/
def JIT.Child.pass {W : Type} (env : Env W) : Prog W Bool :=
  Prog.bind (fun s =>
      if JIT.IsCall s.ack then
        Prog.bind (system env s.mem) (fun status => Prog.pure (intToBool status)) s
      else (Res.ret false, s)) fun failed =>
  if failed then Prog.pure false
  else fun s =>
    if JIT.IsExit s.ack then (Res.ret false, s)
    else (Res.ret true, { s with ack := JIT.Acknowledge })

/-- One iteration of `while (true)` in the worker loop of `JIT::Child`: `Wait()`, then
the pass. -/
def JIT.Child.iteration {W : Type} (env : Env W) (polls : Nat) : Prog W Bool :=
  Prog.bind (JIT.doWait polls true) fun _ => JIT.Child.pass env

/-- The helper takes its turn while the parent polls: when it is in its worker loop it
runs one iteration; when the thread function returns the helper leaves the loop (and
exits); when its `Wait()` does not end, nothing happens. -/
def JIT.helperTurn {W : Type} (env : Env W) (polls : Nat) : Prog W Unit := fun s =>
  if s.helper then
    match JIT.Child.iteration env polls s with
    | (Res.ret true, s1) => (Res.ret (), s1)
    | (Res.ret false, s1) => (Res.ret (), { s1 with helper := false })
    | (_, s1) => (Res.ret (), s1)
  else (Res.ret (), s)

/-- The function `JIT::Call(command)`.  `MFEM_WARNING` only prints and is left out. -/
def JIT.Call {W : Type} (cfg : Config) (env : Env W) (polls : Nat) (command : String) :
    Prog W Int :=
  Prog.bind (MFEM_VERIFY (MPI.Root cfg) "[JIT] Only MPI root should launch commands!") fun _ =>
  if !MPI.IsInitialized cfg then system env command
  else
    Prog.bind (MFEM_VERIFY (decide (1 + command.utf8ByteSize < cfg.size))
      "[JIT] Command length error!") fun _ =>
    Prog.bind (fun s => (Res.ret (), { s with mem := command })) fun _ =>
    Prog.bind (JIT.doSend polls JIT.CALL) fun _ =>
    Prog.bind (JIT.helperTurn env polls) fun _ =>
    Prog.bind (JIT.doWait polls false) fun _ =>
    Prog.pure EXIT_SUCCESS

/-! ## `JIT::Lookup` -/

/-- The text of a command: the tokens streamed into `Command()`, then the conversion to
`const char *`. -/
def JIT.commandText (tokens : List String) : String :=
  (JIT.Command.cstr (tokens.foldl JIT.Command.shl "")).1

/-- The command of the first `Call()` of `RootCompile`: compile `cc` into `co`. -/
def JIT.compileCommand (cfg : Config) (cc co : String) : String :=
  JIT.commandText [cfg.CXX, cfg.FLAGS, JIT.Xdevice cfg,
    JIT.Xcompiler cfg ++ "-fPIC", JIT.Xcompiler cfg ++ "-pipe",
    JIT.Xcompiler cfg ++ "-Wno-unused-variable", "-c", "-o", co, cc]

/-- The command of the second `Call()` of `RootCompile`: add `co` to the archive. -/
def JIT.archiveCommand (co : String) : String :=
  JIT.commandText ["ar -rv", JIT.ar, co]

/-- The command of the third `Call()` of `RootCompile`: link the archive into `symbol`. -/
def JIT.linkCommand (cfg : Config) (symbol : String) : String :=
  JIT.commandText [cfg.CXX, "-shared", "-o", symbol, JIT.ARprefix cfg, JIT.ar, JIT.ARpostfix cfg]

/-- The command of the fourth `Call()` of `RootCompile`: install `symbol` as `so()`. -/
def JIT.installCommand (cfg : Config) (symbol : String) : String :=
  JIT.commandText ["install", "-v", JIT.ARbackup cfg, symbol, JIT.so]

/-- The command of the `Call()` at the head of `Lookup`: link the archive into `so()`. -/
def JIT.relinkCommand (cfg : Config) : String :=
  JIT.commandText [cfg.CXX, "-shared", "-o", JIT.so, JIT.ARprefix cfg, JIT.ar, JIT.ARpostfix cfg,
    JIT.Xlinker cfg ++ "-rpath,."]

/-- The lambda `RootCompile` of `JIT::Lookup`. -/
def JIT.RootCompile {W : Type} (cfg : Config) (env : Env W) (polls : Nat)
    (hash : Nat) (source symbol : String) : Prog W Int :=
  let cc := JIT.FileNameFromHash64 hash ".cc"
  let co := JIT.FileNameFromHash64 hash ".co"
  Prog.bind (ofstream env cc) fun good =>
  Prog.bind (MFEM_VERIFY good "[JIT] Input file error!") fun _ =>
  Prog.bind (write env cc source) fun _ =>
  Prog.bind (JIT.Call cfg env polls (JIT.compileCommand cfg cc co)) fun st1 =>
  if intToBool st1 then Prog.pure EXIT_FAILURE else
  Prog.bind (remove env cc) fun _ =>
  Prog.bind (JIT.Call cfg env polls (JIT.archiveCommand co)) fun st2 =>
  if intToBool st2 then Prog.pure EXIT_FAILURE else
  Prog.bind (remove env co) fun _ =>
  Prog.bind (JIT.Call cfg env polls (JIT.linkCommand cfg symbol)) fun st3 =>
  if intToBool st3 then Prog.pure EXIT_FAILURE else
  Prog.bind (JIT.Call cfg env polls (JIT.installCommand cfg symbol)) fun st4 =>
  if intToBool st4 then Prog.pure EXIT_FAILURE else
  Prog.pure EXIT_SUCCESS

/-- The lambda `WorldCompile` of `JIT::Lookup`; the result is the new value of the
captured variable `handle`. -/
def JIT.WorldCompile {W : Type} (cfg : Config) (env : Env W) (polls : Nat)
    (hash : Nat) (source symbol : String) : Prog W Nat :=
  Prog.bind (if MPI.Root cfg
      then Prog.bind (JIT.RootCompile cfg env polls hash source symbol)
        (fun st => Prog.pure (intToBool st))
      else Prog.pure (intToBool EXIT_SUCCESS)) fun status =>
  Prog.bind (MPI.Sync cfg env status) fun _ =>
  Prog.bind (JIT.DLopen env symbol) fun handle =>
  Prog.bind (MPI.Sync cfg env (intToBool EXIT_SUCCESS)) fun _ =>
  Prog.bind (MFEM_VERIFY (handle != 0) "[JIT] Error creating handle:") fun _ =>
  Prog.pure handle

/-- The head of `JIT::Lookup`: `std::fstream(so()) ? DLopen(so()) : nullptr`. -/
def JIT.Lookup.tryOpen {W : Type} (env : Env W) : Prog W Nat :=
  Prog.bind (fstream env JIT.so) fun found =>
  if found then JIT.DLopen env JIT.so else Prog.pure 0

/-- The block `if (!handle && std::fstream(ar())) { ... }` of `JIT::Lookup`; the result
is the value of `handle` after it. -/
def JIT.Lookup.relink {W : Type} (cfg : Config) (env : Env W) (polls : Nat) (handle : Nat) :
    Prog W Nat :=
  if handle == 0 then
    Prog.bind (fstream env JIT.ar) fun found =>
    if found then
      Prog.bind (if MPI.Root cfg then JIT.Call cfg env polls (JIT.relinkCommand cfg)
        else Prog.pure EXIT_SUCCESS) fun status =>
      Prog.bind (MPI.Sync cfg env (intToBool status)) fun _ =>
      Prog.bind (JIT.DLopen env JIT.so) fun handle1 =>
      Prog.bind (MFEM_VERIFY (handle1 != 0) "[JIT] Error ./libmjit.so from libmjit.a") fun _ =>
      Prog.pure handle1
    else Prog.pure handle
  else Prog.pure handle

/-- The function `JIT::Lookup(hash, source, symbol)`. -/
def JIT.Lookup {W : Type} (cfg : Config) (env : Env W) (polls : Nat)
    (hash : Nat) (source symbol : String) : Prog W Nat :=
  Prog.bind (JIT.Lookup.tryOpen env) fun handle0 =>
  Prog.bind (JIT.Lookup.relink cfg env polls handle0) fun handle1 =>
  Prog.bind (if handle1 == 0 then JIT.WorldCompile cfg env polls hash source symbol
      else Prog.pure handle1) fun handle2 =>
  Prog.bind (MFEM_VERIFY (handle2 != 0) "[JIT] No handle could be created!") fun _ =>
  Prog.bind (dlsym env handle2 symbol) fun kernel0 =>
  Prog.bind (if kernel0 == 0
      then Prog.bind (JIT.WorldCompile cfg env polls hash source symbol) fun handle3 =>
        dlsym env handle3 symbol
      else Prog.pure kernel0) fun kernel =>
  Prog.bind (MFEM_VERIFY (kernel != 0) "[JIT] No kernel could be found!") fun _ =>
  Prog.bind (remove env symbol) fun _ =>
  Prog.pure kernel

/-! ## Scripted worlds

Concrete oracles on which the model can be run: the world is the number of commands
`std::system` has run so far, and every oracle is a function of that number. -/

/-- A script for the world. -/
structure Script where
  /-- Exit status of the command run when `n` commands ran before it. -/
  status : Nat → Int
  /-- Whether `std::fstream(path)` opens `path` after `n` commands. -/
  file : Nat → String → Bool
  /-- Handle `::dlopen` gives for `path` after `n` commands, `0` for `nullptr`. -/
  load : Nat → String → Nat
  /-- Address `::dlsym` gives for `(handle, symbol)` after `n` commands, `0` for `nullptr`. -/
  resolve : Nat → Nat → String → Nat
  /-- Number of commands that have run when a reduction completes that started after `n`. -/
  barrier : Nat → Nat
  /-- Disjunction of the statuses the other ranks give to a reduction. -/
  others : Bool

/-- The oracles of a script. -/
def Script.env (sc : Script) : Env Nat where
  fstream := sc.file
  dlopen := fun w path => (w, sc.load w path)
  dlsym := sc.resolve
  system := fun w _ => (w + 1, sc.status w)
  ofstream := fun w _ => (w, true)
  write := fun w _ _ => w
  remove := fun w _ => w
  allreduce := fun w => (sc.barrier w, sc.others)

/-- A host build on Linux without MPI. -/
def serialConfig : Config :=
  { MFEM_USE_MPI := false, initialized := false, worldRank := 0, size := 4096,
    device := false, apple := false, CXX := "c++", FLAGS := "-O3" }

/-- The same build with MPI, initialized, on the rank `rank` of the job. -/
def jobConfig (rank : Nat) : Config :=
  { serialConfig with MFEM_USE_MPI := true, initialized := true, worldRank := rank }

/-- The state after `Jit::Init`: no command ran, the mailbox holds `ACK`, the helper is
in its worker loop, nothing is recorded. -/
def idle : State Nat :=
  { world := 0, ack := JIT.ACK, mem := "", helper := true, trace := [] }

/-- The helper woke with `CALL` in the mailbox and `command` in the buffer. -/
def called (command : String) : State Nat :=
  { world := 0, ack := JIT.CALL, mem := command, helper := true, trace := [] }

/-- A world without cache files in which every command exits with `status`. -/
def Script.always (status : Int) : Script :=
  { status := fun _ => status, file := fun _ _ => false, load := fun _ _ => 0,
    resolve := fun _ _ _ => 0, barrier := fun n => n, others := false }

/-! ## Observations on traces -/

/-- The commands a trace contains with their exit statuses, in order. -/
def issued : List Event → List (String × Int)
  | [] => []
  | Event.command cmd status :: rest => (cmd, status) :: issued rest
  | _ :: rest => issued rest

/-- Number of times a trace opens an output stream: `RootCompile` does so once, as its
first step, so this is the number of builds started. -/
def builds : List Event → Nat
  | [] => 0
  | Event.ofstream _ _ :: rest => builds rest + 1
  | _ :: rest => builds rest

/-- The handles `::dlopen` returned in a trace, in order. -/
def opened : List Event → List Nat
  | [] => []
  | Event.dlopen _ handle :: rest => handle :: opened rest
  | _ :: rest => opened rest

/-- The addresses `::dlsym` returned in a trace, in order. -/
def resolved : List Event → List Nat
  | [] => []
  | Event.dlsym _ _ addr :: rest => addr :: resolved rest
  | _ :: rest => resolved rest

/-- The handle held after the events `new` by a process that held `handle` before: the
result of the last `::dlopen` of `new`, or `handle` when `new` has none. -/
def held (handle : Nat) (new : List Event) : Nat := ((opened new).getLast?).getD handle

/-- An event that reports no failure: a command that exited with status zero, a
reduction whose result is success, or any other event. -/
def Event.clean : Event → Bool
  | Event.command _ status => status == 0
  | Event.allreduce _ reduced => !reduced
  | _ => true

/-- Every run of `m` appends to the trace a list `new` of events, and `Q` holds of how
the run ends and of `new`. -/
def Prog.Emits {W α : Type} (m : Prog W α) (Q : Res α → List Event → Prop) : Prop :=
  ∀ s, ∃ new, (m s).2.trace = s.trace ++ new ∧ Q (m s).1 new

/-- The program starts at most `b` builds, and opens and resolves nothing. -/
def Prog.Foot {W α : Type} (m : Prog W α) (b : Nat) : Prop :=
  m.Emits fun _ new => builds new ≤ b ∧ opened new = [] ∧ resolved new = []

/-- A stage of `Lookup` that brings the handle up to date: it starts at most `b` builds,
resolves nothing, and when it returns, its result is the handle held after its events
by a process that held `handle` before. -/
def Stage (handle : Nat) (b : Nat) (r : Res Nat) (new : List Event) : Prop :=
  builds new ≤ b ∧ resolved new = [] ∧ ∀ h, r = Res.ret h → held handle new = h

/-- The rest of `Lookup` from a point where the process holds `handle`: it starts at
most `b` builds and resolves at most twice; when the second resolution gives `nullptr`
it aborts; when it returns `k`, then `k` is not `nullptr` and the events end with the
resolution of `symbol` to `k` in the handle `h` then held, which is not `nullptr`,
followed by the removal of the file `symbol`. -/
def Rest (symbol : String) (handle : Nat) (b : Nat) (r : Res Nat) (new : List Event) : Prop :=
  builds new ≤ b ∧ (resolved new).length ≤ 2 ∧
  (∀ k0, resolved new = [k0, 0] → r = Res.abort "[JIT] No kernel could be found!") ∧
  ∀ k, r = Res.ret k → k ≠ 0 ∧ ∃ pre h, new = pre ++ [Event.dlsym h symbol k, Event.remove symbol] ∧
    h ≠ 0 ∧ held handle pre = h

/-- If the program returns, every event it appended is clean. -/
def Prog.CleanRet {W α : Type} (m : Prog W α) : Prop :=
  m.Emits fun r new => ∀ a, r = Res.ret a → ∀ e ∈ new, Event.clean e = true

/-- The four commands of `RootCompile`, in the order of its four `Call()`s: compile,
archive, link, install. -/
def JIT.rootCommands (cfg : Config) (hash : Nat) (symbol : String) : List String :=
  [JIT.compileCommand cfg (JIT.FileNameFromHash64 hash ".cc") (JIT.FileNameFromHash64 hash ".co"),
   JIT.archiveCommand (JIT.FileNameFromHash64 hash ".co"),
   JIT.linkCommand cfg symbol,
   JIT.installCommand cfg symbol]

/-- A run that has the commands `cmds` left to issue, in a job (`job = true`) or not,
stops at the first command that fails. The commands it ran are the first of `cmds`, in
order, with statuses `sts`; every command but the last one run exited with status zero;
the run returns `EXIT_SUCCESS` exactly when all of `cmds` ran and exited with status
zero; it returns `EXIT_FAILURE` exactly when, outside a job, the last command run exited
with a non-zero status; it returns nothing else. -/
def Steps (job : Bool) (cmds : List String) (r : Res Int) (new : List Event) : Prop :=
  ∃ sts : List Int, issued new = List.zip cmds sts ∧ sts.length ≤ cmds.length ∧
    (∀ i, i + 1 < sts.length → sts[i]? = some 0) ∧
    (r = Res.ret EXIT_SUCCESS ↔ sts = List.replicate cmds.length 0) ∧
    (r = Res.ret EXIT_FAILURE ↔ job = false ∧ ∃ st, sts.getLast? = some st ∧ st ≠ 0) ∧
    (∀ st, r = Res.ret st → st = EXIT_SUCCESS ∨ st = EXIT_FAILURE)

/-- The statuses of the other ranks of a job, reduced with `MPI_LOR`: what the reduction
adds to the status of rank `rank` when the ranks give `statuses`. -/
def MPI.othersOf (statuses : List Bool) (rank : Nat) : Bool :=
  (statuses.eraseIdx rank).any id

/-- A program that runs no command: the commands of the trace are the same after it. -/
def Prog.Quiet {W α : Type} (m : Prog W α) : Prop :=
  ∀ s, commands (m s).2.trace = commands s.trace

/-- A world in which rank `rank` of a job sits at a barrier with the other ranks giving
`statuses`. -/
def Script.atBarrier (statuses : List Bool) (rank : Nat) : Script :=
  { Script.always 0 with others := MPI.othersOf statuses rank }

/-- The world of one kernel, from a start without cache files: the archive `libmjit.a`
exists once two commands ran (compile, archive), the file `symbol` can be loaded, with
handle 1, once three commands ran (link), and `./libmjit.so` exists and can be loaded,
with handle 2, once four commands ran (install).  Both libraries resolve `symbol` to
`addr`; `addr = 0` is a source that does not define `symbol`.  Every command exits with
status zero, and a reduction completes when the root has run its four commands. -/
def Script.fresh (symbol : String) (addr : Nat) : Script :=
  { status := fun _ => 0
    file := fun n path => (path == JIT.ar && decide (2 ≤ n)) || (path == JIT.so && decide (4 ≤ n))
    load := fun n path =>
      if path == symbol && decide (3 ≤ n) then 1
      else if path == JIT.so && decide (4 ≤ n) then 2 else 0
    resolve := fun _ handle name =>
      if (handle == 1 || handle == 2) && name == symbol then addr else 0
    barrier := fun n => max n 4
    others := false }

/-- The world of `Script.fresh` in which the fourth command, the install, exits with
status 1, so that `./libmjit.so` is never created. -/
def Script.installFails (symbol : String) (addr : Nat) : Script :=
  { Script.fresh symbol addr with
    status := fun n => if n = 3 then 1 else 0
    file := fun n path => path == JIT.ar && decide (2 ≤ n)
    load := fun n path => if path == symbol && decide (3 ≤ n) then 1 else 0 }

/-! ## A job of several ranks

`MPI_Allreduce` is a collective call: it completes on a rank only once every rank of the
communicator has entered it.  The run of `Lookup` on one rank, above, takes every
reduction as completing; in a job a rank gets no further than the reductions all ranks
enter. -/

/-- Number of reductions a trace records: the calls of `MPI_Allreduce` the run entered. -/
def reductions : List Event → Nat
  | [] => 0
  | Event.allreduce _ _ :: rest => reductions rest + 1
  | _ :: rest => reductions rest

/-- A run that returns has entered a reduction. -/
def Prog.Joins {W α : Type} (m : Prog W α) : Prop :=
  m.Emits fun r new => ∀ a, r = Res.ret a → 1 ≤ reductions new

/-- One rank of a job at its call of `Lookup`: its configuration, what is outside the
process, and its state. -/
structure Job.Rank (W : Type) where
  cfg : Config
  env : Env W
  state : State W

/-- The events of `Lookup(hash, source, symbol)` on the rank `r` when no reduction holds
it up. -/
def Job.events {W : Type} (polls : Nat) (hash : Nat) (source symbol : String)
    (r : Job.Rank W) : List Event :=
  (JIT.Lookup r.cfg r.env polls hash source symbol r.state).2.trace.drop r.state.trace.length

/-- How `Lookup(hash, source, symbol)` ends on the rank `r` of a job whose ranks are
`ranks`.  The `n`-th reduction of `r` completes only when every rank enters an `n`-th
reduction: when some rank enters fewer reductions than `r` does, `r` stays inside
`MPI_Allreduce`; otherwise `r` ends as it does when nothing holds it up. -/
def Job.Lookup {W : Type} (polls : Nat) (hash : Nat) (source symbol : String)
    (ranks : List (Job.Rank W)) (r : Job.Rank W) : Res Nat :=
  if ranks.any (fun q => decide (reductions (Job.events polls hash source symbol q)
      < reductions (Job.events polls hash source symbol r)))
  then Res.blocked
  else (JIT.Lookup r.cfg r.env polls hash source symbol r.state).1

/-- The root of a job, after `Jit::Init`, in the world of `Script.installFails`. -/
def failingRoot : Job.Rank Nat :=
  { cfg := jobConfig 0, env := (Script.installFails "k1" 42).env, state := idle }

/-- Rank 1 of the same job, in the same world; its helper has exited. -/
def otherRank : Job.Rank Nat :=
  { cfg := jobConfig 1, env := (Script.installFails "k1" 42).env,
    state := { idle with helper := false } }

/-- Rank 1 of a job, with a library `./libmjit.so` of an earlier run before it: the world
of `Script.fresh` after four commands. -/
def warmRank : Job.Rank Nat :=
  { cfg := jobConfig 1, env := (Script.fresh "k1" 42).env,
    state := { idle with world := 4, helper := false } }

/-! ## Life cycle: `Init`, `Child`, `Handler`, `Finalize`

The parent process and the helper it forks are followed together, in turns: the child
runs until it waits or exits, then the parent runs until it waits, and so on.  What the
operating system answers to the parent is a record of answers `OS`; the calls of the
parent are recorded in order. -/

/-- The signals `jit.cpp` names, and `SIGTERM`. -/
inductive Signal where
  | SIGINT
  | SIGQUIT
  | SIGABRT
  | SIGKILL
  | SIGFPE
  | SIGTERM
  deriving DecidableEq

/-- Whether `::signal(signum, handler)` can install a handler for `signum`: the signal
`SIGKILL` cannot be caught, the call fails for it and installs nothing. -/
def Signal.catchable : Signal → Bool
  | Signal.SIGKILL => false
  | _ => true

/-- One call of the parent into the operating system or MPI, or one store of the parent
into the mailbox. -/
inductive Sys where
  /-- The call `::mmap(nullptr, length, prot, flags, -1, 0)` returned `addr`. -/
  | mmap (length : Nat) (addr : Nat)
  /-- The store `*Ack() = value`. -/
  | store (value : Int)
  /-- The call `::signal(signum, Handler)`. -/
  | signal (signum : Signal)
  /-- The call `::fork()` returned `pid`. -/
  | fork (pid : Int)
  /-- The call `::MPI_Init(argc, argv)`. -/
  | MPI_Init
  /-- The call `::kill(pid, signum)`. -/
  | kill (pid : Int) (signum : Signal)
  /-- The call `::wait(nullptr)` returned `pid`. -/
  | wait (pid : Int)
  /-- The call `::waitpid(0, &status, WUNTRACED | WCONTINUED)` stored `status`. -/
  | waitpid (status : Int)
  /-- The call `::munmap(addr, length)` returned `result`. -/
  | munmap (addr : Nat) (length : Nat) (result : Int)
  /-- The call `std::exit(status)`. -/
  | exit (status : Int)
  deriving DecidableEq

/-- The address `MAP_FAILED`, `(void *) -1`. -/
def MAP_FAILED : Nat := 2 ^ 64 - 1

/-- What the operating system answers to the parent, in a run whose mailbox could be
mapped.  `Init` stores `ACK` through the address the first `::mmap` returned without a
look at it; when that address is `MAP_FAILED` the store goes through `(int *) -1` and
the behaviour of the program is undefined, so that such runs are left out. -/
structure OS where
  /-- Value of `sysconf(_SC_PAGE_SIZE)`. -/
  pageSize : Nat
  /-- Address the first `::mmap` of `Init` returns, for the mailbox. -/
  mmapAck : Nat
  /-- The mailbox is mapped. -/
  mapped : mmapAck ≠ MAP_FAILED
  /-- Address the second `::mmap` of `Init` returns, for the command buffer. -/
  mmapMem : Nat
  /-- Value `::fork()` returns. -/
  fork : Int
  /-- How the scheduler orders the two processes after a fork that gave a child: whether
  the child evaluates `IsAck()` in the `MFEM_VERIFY` at the head of `Child()` before the
  parent stores its rank with `Write(MPI::Rank())`.  Nothing in the source orders the
  two. -/
  childFirst : Bool
  /-- Status `::waitpid` stores when the helper did not end by calling `std::exit`
  (it was killed or stopped, or there is no child and the variable keeps what it held). -/
  waitpid : Int
  /-- Value `::munmap(addr, length)` returns. -/
  munmap : Nat → Nat → Int
  /-- Values the successive calls `::wait(nullptr)` return; after the last of them
  `::wait` returns `-1`. -/
  wait : List Int

/-- The value of `sizeof(int)`. -/
def sizeof_int : Nat := 4

/-- The parent process and its helper: the state `proc` of the earlier sections, the
value of `Mpi::IsInitialized()`, the members `pid`, `size`, `s_ack`, `s_mem` of the
singleton, the signals `Handler` was installed for, the status with which the helper
called `std::exit` (if it did), and the calls of the parent so far. -/
structure Life (W : Type) where
  proc : State W
  initialized : Bool
  pid : Int
  size : Nat
  s_ack : Nat
  s_mem : Nat
  handled : List Signal
  exited : Option Int
  sys : List Sys

/-- How a function of the life cycle ends: it returns, `MFEM_VERIFY`/`MFEM_ABORT` aborts,
it is still polling, the process calls `std::exit(status)`, or `assert(false)` fails. -/
inductive Outcome where
  | returned
  | aborted (msg : String)
  | blocked
  | exited (status : Int)
  | asserted
  deriving DecidableEq

/-- The configuration `MPI::Rank()`, `MPI::Root()`, `Size()` read in the state `l`: the
build `cfg` with the current value of `Mpi::IsInitialized()` and the size `Init` set. -/
def Life.config {W : Type} (cfg : Config) (l : Life W) : Config :=
  { cfg with initialized := l.initialized, size := l.size }

/-- The parent makes the call `c`. -/
def Life.call {W : Type} (l : Life W) (c : Sys) : Life W := { l with sys := l.sys ++ [c] }

/-- The parent runs `Write(xx)`. -/
def Life.Write {W : Type} (l : Life W) (xx : Int) : Life W :=
  { l with proc := { l.proc with ack := JIT.Write xx }, sys := l.sys ++ [Sys.store xx] }

/-- The statements `Wait(); const int rank = Read(); Acknowledge();` of `JIT::Child`;
the result is `rank`. -/
def JIT.Child.rank {W : Type} (polls : Nat) : Prog W Int :=
  Prog.bind (JIT.doWait polls true) fun _ =>
  fun s => (Res.ret s.ack, { s with ack := JIT.Acknowledge })

/-- The child takes its turn after `MFEM_VERIFY(IsAck(), ...)` at its start has held:
`Wait(); rank = Read(); Acknowledge(); if (rank == 0) { the worker loop } std::exit(EXIT_SUCCESS);`.
With `rank == 0` the child enters the worker loop, whose first `Wait()` finds `ACK` and
waits; otherwise it exits.  When its first `Wait()` does not end, nothing happens. -/
def JIT.Child.turn {W : Type} (polls : Nat) (l : Life W) : Life W :=
  match JIT.Child.rank polls l.proc with
  | (Res.ret rank, p) =>
    if rank == 0 then { l with proc := { p with helper := true } }
    else { l with proc := p, exited := some EXIT_SUCCESS }
  | (_, _) => l

/-- The function `JIT::Child()` run by a process on its own, the mailbox not being
stored into by the other side meanwhile. -/
def JIT.Child {W : Type} (polls : Nat) (l : Life W) : Outcome × Life W :=
  if JIT.IsAck l.proc.ack then
    match JIT.Child.rank polls l.proc with
    | (Res.ret rank, p) =>
      if rank == 0 then (Outcome.blocked, { l with proc := { p with helper := true } })
      else (Outcome.exited EXIT_SUCCESS, { l with proc := p, exited := some EXIT_SUCCESS })
    | (_, p) => (Outcome.blocked, { l with proc := p })
  else (Outcome.aborted "[JIT] Child process initialization error!", l)

/-- The helper takes its turn in the worker loop (`JIT.helperTurn`); when the thread
function returns, the helper goes on to `std::exit(EXIT_SUCCESS)`. -/
def Life.helperTurn {W : Type} (env : Env W) (polls : Nat) (l : Life W) : Life W :=
  let p := (JIT.helperTurn env polls l.proc).2
  if l.proc.helper && !p.helper then { l with proc := p, exited := some EXIT_SUCCESS }
  else { l with proc := p }

/-- The signals of the five calls `::signal(..., Handler)` of `Init`, in order. -/
def JIT.Init.signals : List Signal :=
  [Signal.SIGINT, Signal.SIGQUIT, Signal.SIGABRT, Signal.SIGKILL, Signal.SIGFPE]

/-- The head of `JIT::Init`, up to and including `Pid() = ::fork()`: the page size, the
two mappings, `Write(ACK)`, the five calls of `::signal` and the fork.  The results of
the calls of `::signal` are not looked at; `Handler` is installed for the signals that
can be caught. -/
def JIT.Init.setup {W : Type} (os : OS) (l : Life W) : Life W :=
  let l1 := { l with size := os.pageSize }
  let l2 := Life.call { l1 with s_ack := os.mmapAck } (Sys.mmap sizeof_int os.mmapAck)
  let l3 := Life.call { l2 with s_mem := os.mmapMem } (Sys.mmap l2.size os.mmapMem)
  let l4 := Life.Write l3 JIT.ACK
  let l5 := { l4 with handled := l4.handled ++ JIT.Init.signals.filter Signal.catchable,
                      sys := l4.sys ++ JIT.Init.signals.map Sys.signal }
  Life.call { l5 with pid := os.fork } (Sys.fork os.fork)

/-- The parent branch of `JIT::Init` up to its wait: `::MPI_Init(argc, argv)` when
`MFEM_USE_MPI` is defined, then `Write(MPI::Rank())`. -/
def JIT.Init.inform {W : Type} (cfg : Config) (l : Life W) : Life W :=
  let l1 := if cfg.MFEM_USE_MPI then Life.call { l with initialized := true } Sys.MPI_Init
    else l
  Life.Write l1 (MPI.Rank (Life.config cfg l1))

/-- The child of the fork of `Init`, while the parent goes from `before` (the state at
the fork) to `after` (its rank is stored): `MFEM_VERIFY(IsAck(), ...)` at the head of
`Child()`, then the turn of the child.  When the test of the child comes first it reads
the mailbox of `before`; when the store of the parent comes first it reads the rank, the
child aborts with `[JIT] Child process initialization error!`, and no process is left to
acknowledge the rank. -/
def JIT.Init.child {W : Type} (os : OS) (polls : Nat) (before after : Life W) : Life W :=
  if JIT.IsAck (if os.childFirst then before.proc.ack else after.proc.ack) then
    JIT.Child.turn polls after
  else after

/-- The function `JIT::Init(argc, argv)`.  A process for which `::fork()` returns a
positive value has a child, which runs `Child()` beside it. -/
def JIT.Init {W : Type} (cfg : Config) (os : OS) (polls : Nat) (l : Life W) :
    Outcome × Life W :=
  let l1 := JIT.Init.setup os l
  if l1.pid != 0 then
    let l2 := JIT.Init.inform cfg l1
    let l3 := if 0 < l2.pid then JIT.Init.child os polls l1 l2 else l2
    match JIT.doWait polls false l3.proc with
    | (Res.ret _, p) => (Outcome.returned, { l3 with proc := p })
    | (_, p) => (Outcome.blocked, { l3 with proc := p })
  else JIT.Child polls l1

/-- The rank `JIT::Init` stores for the child: `MPI::Rank()` after `::MPI_Init`. -/
def JIT.Init.rank (cfg : Config) : Nat := if cfg.MFEM_USE_MPI then cfg.worldRank else 0

/-- The loop `while ((Pid() = ::wait(nullptr)) > 0);` of `Handler` on the values `::wait`
returns: the last value assigned to `Pid()` and the calls made. -/
def JIT.Handler.reap : List Int → Int × List Sys
  | [] => (-1, [Sys.wait (-1)])
  | pid :: rest =>
    if 0 < pid then ((JIT.Handler.reap rest).1, Sys.wait pid :: (JIT.Handler.reap rest).2)
    else (pid, [Sys.wait pid])

/-- The function `JIT::Handler(signum)`; `ndebug` tells whether `NDEBUG` is defined, in
which case `assert(false)` does nothing. -/
def JIT.Handler {W : Type} (os : OS) (ndebug : Bool) (_signum : Signal) (l : Life W) :
    Outcome × Life W :=
  if l.pid == 0 && !ndebug then (Outcome.asserted, l)
  else
    let l1 := Life.call l (Sys.kill l.pid Signal.SIGKILL)
    let r := JIT.Handler.reap os.wait
    let l2 := { l1 with pid := r.1, sys := l1.sys ++ r.2 }
    (Outcome.exited EXIT_FAILURE, Life.call l2 (Sys.exit EXIT_FAILURE))

/-- The status `::waitpid` stores in `Finalize`: zero exactly for a helper that called
`std::exit` with a status whose low eight bits are zero (the exit status sits in the
second byte); what the operating system reports otherwise. -/
def JIT.Finalize.status {W : Type} (os : OS) (l : Life W) : Int :=
  match l.exited with
  | some code => (code % 256) * 256
  | none => os.waitpid

/-- The function `JIT::Finalize()`. -/
def JIT.Finalize {W : Type} (os : OS) (env : Env W) (polls : Nat) (l : Life W) :
    Outcome × Life W :=
  if JIT.IsAck l.proc.ack then
    match JIT.doSend polls JIT.EXIT l.proc with
    | (Res.ret _, p) =>
      let l1 := Life.call { l with proc := p } (Sys.store JIT.EXIT)
      let l2 := Life.helperTurn env polls l1
      let status := JIT.Finalize.status os l2
      let l3 := Life.call l2 (Sys.waitpid status)
      if status == 0 then
        let l4 := Life.call l3 (Sys.munmap l3.s_mem l3.size (os.munmap l3.s_mem l3.size))
        if os.munmap l3.s_mem l3.size != 0 then
          (Outcome.aborted "[JIT] Finalize memory error!", l4)
        else
          let l5 := Life.call l4 (Sys.munmap l4.s_ack sizeof_int (os.munmap l4.s_ack sizeof_int))
          if os.munmap l4.s_ack sizeof_int != 0 then
            (Outcome.aborted "[JIT] Finalize memory error!", l5)
          else (Outcome.returned, l5)
      else (Outcome.aborted "[JIT] Error with the compiler thread", l3)
    | (_, p) => (Outcome.blocked, { l with proc := p })
  else (Outcome.aborted "[JIT] Finalize acknowledgment error!", l)

/-- The function `Jit::Init(argc, argv)`: `if (MPI::Root()) JIT::Init(argc, argv);`. -/
def Jit.Init {W : Type} (cfg : Config) (os : OS) (polls : Nat) (l : Life W) :
    Outcome × Life W :=
  if MPI.Root (Life.config cfg l) then JIT.Init cfg os polls l else (Outcome.returned, l)

/-- The function `Jit::Finalize()`: `if (MPI::Root()) JIT::Finalize();`. -/
def Jit.Finalize {W : Type} (cfg : Config) (os : OS) (env : Env W) (polls : Nat)
    (l : Life W) : Outcome × Life W :=
  if MPI.Root (Life.config cfg l) then JIT.Finalize os env polls l else (Outcome.returned, l)

/-- A process before `Jit::Init`: the singleton is zero-initialized, MPI is not
initialized, there is no helper and nothing is recorded. -/
def boot : Life Nat :=
  { proc := { world := 0, ack := 0, mem := "", helper := false, trace := [] },
    initialized := false, pid := 0, size := 0, s_ack := 0, s_mem := 0,
    handled := [], exited := none, sys := [] }

/-- An operating system on which every call succeeds: pages of 4096 bytes, two
mappings, a child with pid 1234, which is the only child `::wait` finds and which tests
the mailbox before the parent stores its rank. -/
def OS.good : OS :=
  { pageSize := 4096, mmapAck := 0x7f0000001000, mapped := by decide,
    mmapMem := 0x7f0000002000, fork := 1234, childFirst := true, waitpid := 9,
    munmap := fun _ _ => 0, wait := [1234] }

/-- A command of 4096 bytes, as long as a page. -/
def longCommand : String := String.mk (List.replicate 4096 'a')

/-- Whether `c` is a lowercase hexadecimal digit, `0`..`9` or `a`..`f`. -/
def isLowerHex (c : Char) : Bool :=
  (48 ≤ c.toNat && c.toNat ≤ 57) || (97 ≤ c.toNat && c.toNat ≤ 102)

/-- The value of the hexadecimal digit `c`. -/
def hexValue (c : Char) : Nat :=
  if 48 ≤ c.toNat ∧ c.toNat ≤ 57 then c.toNat - 48
  else if 97 ≤ c.toNat ∧ c.toNat ≤ 102 then c.toNat - 87
  else 0

/-- The number a list of hexadecimal digits denotes, most significant digit first. -/
def hexNumber (ds : List Char) : Nat := ds.foldl (fun acc c => 16 * acc + hexValue c) 0

/-! ## Complete builds -/

/-- The events of a run of `RootCompile` that opens its input file and whose four
commands exit with status zero, in order. -/
def JIT.rootEvents (cfg : Config) (hash : Nat) (source symbol : String) : List Event :=
  [Event.ofstream (JIT.FileNameFromHash64 hash ".cc") true,
   Event.write (JIT.FileNameFromHash64 hash ".cc") source,
   Event.command (JIT.compileCommand cfg (JIT.FileNameFromHash64 hash ".cc")
     (JIT.FileNameFromHash64 hash ".co")) 0,
   Event.remove (JIT.FileNameFromHash64 hash ".cc"),
   Event.command (JIT.archiveCommand (JIT.FileNameFromHash64 hash ".co")) 0,
   Event.remove (JIT.FileNameFromHash64 hash ".co"),
   Event.command (JIT.linkCommand cfg symbol) 0,
   Event.command (JIT.installCommand cfg symbol) 0]

/-- A state in which `Call` can hand a command over: outside a job it needs nothing, in a
job the helper is in its worker loop. -/
def JIT.Ready {W : Type} (cfg : Config) (s : State W) : Prop :=
  MPI.IsInitialized cfg = false ∨ s.helper = true

/-! ## Temporary files -/

/-- The last character but one of a text; for a command text, the last character of its
last token, or a space when that token is empty. -/
def penult (s : String) : Option Char := s.data.reverse.tail.head?

/-- Whether the file `path` is there after the events, `before` telling whether it was
there before them, as far as the calls of the process tell: an output stream that opens
`path` creates it, the compile command of the build of `hash`, when it exits with status
zero, creates the object file, the link command of the build, when it exits with status
zero, creates the file `symbol`, and `std::remove(path)` deletes `path`. -/
def JIT.leftover (cfg : Config) (hash : Nat) (symbol path : String) : Bool → List Event → Bool
  | before, [] => before
  | before, Event.ofstream p good :: rest =>
    leftover cfg hash symbol path (before || (good && p == path)) rest
  | before, Event.remove p :: rest =>
    leftover cfg hash symbol path (before && p != path) rest
  | before, Event.command cmd status :: rest =>
    leftover cfg hash symbol path
      (before || (status == 0 &&
        ((cmd == JIT.compileCommand cfg (JIT.FileNameFromHash64 hash ".cc")
            (JIT.FileNameFromHash64 hash ".co") && path == JIT.FileNameFromHash64 hash ".co") ||
         (cmd == JIT.linkCommand cfg symbol && path == symbol)))) rest
  | before, _ :: rest => leftover cfg hash symbol path before rest

/-- If the program returns and every command it ran exited with status zero, the file
`path` is not there afterwards unless it was there before. -/
def Prog.Tidy {W α : Type} (m : Prog W α) (cfg : Config) (hash : Nat) (symbol path : String) :
    Prop :=
  m.Emits fun r new => ∀ a, r = Res.ret a →
    (∀ c st, Event.command c st ∈ new → st = 0) →
    ∀ before, JIT.leftover cfg hash symbol path before new = true → before = true

/-- A world without cache files in which every command exits with status 1, while a file
named `symbol`, left by an earlier call, can be loaded and resolves `symbol` to `addr`. -/
def Script.stale (symbol : String) (addr : Nat) : Script :=
  { status := fun _ => 1, file := fun _ _ => false
    load := fun _ path => if path == symbol then 1 else 0
    resolve := fun _ handle name => if handle == 1 && name == symbol then addr else 0
    barrier := fun n => n, others := false }

/-! ## A start from the archive alone -/

/-- The events of the block `if (!handle && std::fstream(ar())) { ... }` of `Lookup` when
it gets to `DLopen(so())`: on the root the link command, with the status `Call` returned
for it; in a job the reduction of that status, which gave success; then the load of
`./libmjit.so`, which gave `handle`. -/
def JIT.relinkEvents (cfg : Config) (status : Int) (handle : Nat) : List Event :=
  (if MPI.Root cfg then [Event.command (JIT.relinkCommand cfg) status] else []) ++
  (if MPI.IsInitialized cfg then [Event.allreduce (intToBool status) false] else []) ++
  [Event.dlopen JIT.so handle]

/-- A world in which the archive `libmjit.a` exists and `./libmjit.so` does not: once one
command ran (the link of the archive), `./libmjit.so` exists and can be loaded, with
handle 2, and resolves `symbol` to `addr`.  Every command exits with status zero, and a
reduction completes when the root has run its command. -/
def Script.archiveOnly (symbol : String) (addr : Nat) : Script :=
  { status := fun _ => 0
    file := fun n path => path == JIT.ar || (path == JIT.so && decide (1 ≤ n))
    load := fun n path => if path == JIT.so && decide (1 ≤ n) then 2 else 0
    resolve := fun _ handle name => if handle == 2 && name == symbol then addr else 0
    barrier := fun n => max n 1
    others := false }

end jit_internal

namespace mfem

/-! # Determinants (`linalg/tensor/determinant.hpp`)

The tensor types of `tensor.hpp` are not part of the sources at hand; a matrix is taken
as its sizes and its entries, over an arbitrary commutative ring. -/

/-- A matrix whose sizes are known at run time (`is_dynamic_matrix<Tensor>`): the values
of `J.Size<0>()` and `J.Size<1>()`, and the entries `J(i,j)`. -/
structure DynamicMatrix (R : Type) where
  Size0 : Nat
  Size1 : Nat
  entry : Nat → Nat → R

/-- The overload of `Determinant(const Tensor &J)` for a dynamic matrix. -/
def Determinant {R : Type} [CommRing R] (J : DynamicMatrix R) : R :=
  if J.Size0 == 3 && J.Size1 == 3 then
    J.entry 0 0 * J.entry 1 1 * J.entry 2 2 - J.entry 0 2 * J.entry 1 1 * J.entry 2 0
      + J.entry 0 1 * J.entry 1 2 * J.entry 2 0 - J.entry 0 1 * J.entry 1 0 * J.entry 2 2
      + J.entry 0 2 * J.entry 1 0 * J.entry 2 1 - J.entry 0 0 * J.entry 1 2 * J.entry 2 1
  else if J.Size0 == 2 && J.Size1 == 2 then
    J.entry 0 0 * J.entry 1 1 - J.entry 0 1 * J.entry 1 0
  else if J.Size0 == 1 && J.Size1 == 1 then
    J.entry 0 0
  else
    0

/-- The overload of `Determinant(const Tensor &J)` for `is_static_matrix<3,3,Tensor>`. -/
def Determinant3 {R : Type} [CommRing R] (J : Fin 3 → Fin 3 → R) : R :=
  J 0 0 * J 1 1 * J 2 2 - J 0 2 * J 1 1 * J 2 0
    + J 0 1 * J 1 2 * J 2 0 - J 0 1 * J 1 0 * J 2 2
    + J 0 2 * J 1 0 * J 2 1 - J 0 0 * J 1 2 * J 2 1

/-- The overload of `Determinant(const Tensor &J)` for `is_static_matrix<2,2,Tensor>`. -/
def Determinant2 {R : Type} [CommRing R] (J : Fin 2 → Fin 2 → R) : R :=
  J 0 0 * J 1 1 - J 0 1 * J 1 0

/-- The overload of `Determinant(const Tensor &J)` for `is_static_matrix<1,1,Tensor>`. -/
def Determinant1 {R : Type} [CommRing R] (J : Fin 1 → Fin 1 → R) : R :=
  J 0 0

/-- The identity matrix of size 4 as a dynamic matrix over the integers. -/
def identity4 : DynamicMatrix Int :=
  { Size0 := 4, Size1 := 4, entry := fun i j => if i = j then 1 else 0 }

/-! # Block static condensation (`fem/complex_blockstaticcond.cpp`)

Meshes, finite element spaces and dense matrices are not part of the sources at hand:
what they answer is taken as data. -/

/-- The inner loop of `FillEssTdofLists`,
`for (j = 0; j < rblocks; j++) { if (rtdof_offsets[j+1] > tdof) { break; } }`,
from the index `j` with `left` iterations left before `j < rblocks` fails: the value of
`j` after the loop. -/
def ComplexBlockStaticCondensation.FillEssTdofLists.block (rtdof_offsets : List Int)
    (tdof : Int) : (left : Nat) → (j : Nat) → Nat
  | 0, j => j
  | left + 1, j =>
    if rtdof_offsets.getD (j + 1) 0 > tdof then j
    else ComplexBlockStaticCondensation.FillEssTdofLists.block rtdof_offsets tdof left (j + 1)

/-- The function `FillEssTdofLists(ess_tdof_list)` on the members `rblocks`,
`rtdof_offsets` and `ess_tdofs`: for each true dof, the block `j` the inner loop stops
at, then `ess_tdofs[j]->Append(tdof-rtdof_offsets[j])`.  The result is the new
`ess_tdofs`, or `none` when `ess_tdofs[j]` is outside the array. -/
def ComplexBlockStaticCondensation.FillEssTdofLists (rblocks : Nat) (rtdof_offsets : List Int)
    (ess_tdofs : List (List Int)) (ess_tdof_list : List Int) : Option (List (List Int)) :=
  ess_tdof_list.foldlM (fun lists tdof =>
    let j := ComplexBlockStaticCondensation.FillEssTdofLists.block rtdof_offsets tdof rblocks 0
    if j < lists.length then
      some (lists.set j (lists.getD j [] ++ [tdof - rtdof_offsets.getD j 0]))
    else none) ess_tdofs

/-- A query of the mesh for an element. -/
inductive MeshQuery where
  | GetElementVertices
  | GetElementEdges
  | GetElementFaces
  deriving DecidableEq

/-- What a mesh answers: `Dimension()`, and for an element the array
`GetElementVertices`, `GetElementEdges` and `GetElementFaces` assign to their output
argument. -/
structure Mesh where
  Dimension : Int
  GetElementVertices : Int → List Int
  GetElementEdges : Int → List Int
  GetElementFaces : Int → List Int

/-- The statements that fill `faces` at the head of `GetReduceElementIndicesAndOffsets`,
`GetReduceElementVDofs`, `GetElementVDofs` and `AssembleReducedSystem`:
`if (dim == 1) { GetElementVertices } if (dim == 2) { GetElementEdges } else { GetElementFaces }`.
The result is the queries made, in order, and the array `faces` after them. -/
def ComplexBlockStaticCondensation.faces (mesh : Mesh) (el : Int) :
    List MeshQuery × List Int :=
  let dim := mesh.Dimension
  let start : List MeshQuery × List Int := ([], [])
  let first :=
    if dim == 1 then (start.1 ++ [MeshQuery.GetElementVertices], mesh.GetElementVertices el)
    else start
  if dim == 2 then (first.1 ++ [MeshQuery.GetElementEdges], mesh.GetElementEdges el)
  else (first.1 ++ [MeshQuery.GetElementFaces], mesh.GetElementFaces el)

/-- A mesh of one segment with the vertices 0 and 1; it has no edges and no faces to
answer with. -/
def segment : Mesh :=
  { Dimension := 1, GetElementVertices := fun _ => [0, 1], GetElementEdges := fun _ => [],
    GetElementFaces := fun _ => [] }

/-- What the spaces of one block answer for an element, in the three cases of the loop
of `GetReduceElementIndicesAndOffsets`. -/
inductive ElementBlock where
  /-- The case `!tr_fes[i]` (an L2 space): `fes[i]->GetVDim()` and
  `fes[i]->GetFE(el)->GetDof()`. -/
  | bubble (vdim dof : Nat)
  /-- The case `IsTraceSpace[i]`: `fes[i]->GetVDim()`, and
  `fes[i]->GetFaceElement(faces[iface])->GetDof()` for each face of the element. -/
  | trace (vdim : Nat) (faceDofs : List Nat)
  /-- The last case: `fes[i]->GetVDim()`, `fes[i]->GetFE(el)->GetDof()`, and the size of
  the array `tr_fes[i]->GetElementVDofs(el, trace_dofs)` fills. -/
  | field (vdim dof traceDofs : Nat)

/-- The value of `td` for a block after the three cases. -/
def ElementBlock.td : ElementBlock → Nat
  | ElementBlock.bubble _ _ => 0
  | ElementBlock.trace vdim faceDofs => faceDofs.foldl (fun td dof => td + vdim * dof) 0
  | ElementBlock.field _ _ traceDofs => traceDofs

/-- The value of `ndof` for a block after the three cases. -/
def ElementBlock.ndof : ElementBlock → Nat
  | ElementBlock.bubble vdim dof => vdim * dof
  | ElementBlock.trace vdim faceDofs => faceDofs.foldl (fun td dof => td + vdim * dof) 0
  | ElementBlock.field vdim dof _ => vdim * dof

/-- The loop of `PartialSum` from the running sum `sum`. -/
def PartialSum.go : Nat → List Nat → List Nat
  | _, [] => []
  | sum, x :: rest => (sum + x) :: PartialSum.go (sum + x) rest

/-- Modelled from the spec: `Array<int>::PartialSum()` of `general/array.hpp`, which is
not among the sources at hand: every entry is replaced by the sum of the entries up to
and including it, so that an array `0, td_0, td_1, ...` becomes the array of the sums of
the `td_k` for `k < i`. -/
def PartialSum (data : List Nat) : List Nat := PartialSum.go 0 data

/-- The loop `for (int i = 0; i<tr_fes.Size(); i++)` of
`GetReduceElementIndicesAndOffsets` over the blocks left, from the values of `skip`,
`trace_ldofs`, `interior_ldofs` and the entries of `offsets` assigned so far.  The local
arrays are `tr_dofs[j] = skip + j` for `j < td` and `int_dofs[j] = skip + td + j` for
`j < ndof - td`; a loop whose bound `ndof - td` is negative does not run. -/
def ComplexBlockStaticCondensation.GetReduceElementIndicesAndOffsets.loop :
    List ElementBlock → Nat → List Nat → List Nat → List Nat → List Nat × List Nat × List Nat
  | [], _, trace_ldofs, interior_ldofs, offsets => (trace_ldofs, interior_ldofs, offsets)
  | block :: rest, skip, trace_ldofs, interior_ldofs, offsets =>
    let td := block.td
    let ndof := block.ndof
    let tr_dofs := (List.range td).map fun j => skip + j
    let int_dofs := (List.range (ndof - td)).map fun j => skip + td + j
    ComplexBlockStaticCondensation.GetReduceElementIndicesAndOffsets.loop rest (skip + ndof)
      (trace_ldofs ++ tr_dofs) (interior_ldofs ++ int_dofs) (offsets ++ [td])

/-- The function `GetReduceElementIndicesAndOffsets(el, trace_ldofs, interior_ldofs,
offsets)` on the blocks of the element: the three output arrays. -/
def ComplexBlockStaticCondensation.GetReduceElementIndicesAndOffsets
    (blocks : List ElementBlock) : List Nat × List Nat × List Nat :=
  let r := ComplexBlockStaticCondensation.GetReduceElementIndicesAndOffsets.loop blocks 0 [] [] [0]
  (r.1, r.2.1, PartialSum r.2.2)

/-- The indices below `skip` are split between `trace_ldofs` and `interior_ldofs`: each
array is strictly increasing and stays below `skip`, and together they hold every index
below `skip` once. -/
def Split (skip : Nat) (trace_ldofs interior_ldofs : List Nat) : Prop :=
  trace_ldofs.Pairwise (· < ·) ∧ interior_ldofs.Pairwise (· < ·) ∧
  (∀ x ∈ trace_ldofs, x < skip) ∧ (∀ x ∈ interior_ldofs, x < skip) ∧
  (trace_ldofs ++ interior_ldofs).Perm (List.range skip)

/-- What `GetLocalShurComplement` leaves for an element: the matrix `rmat` it returns,
the vector `(rvect_real, rvect_imag)` it fills, and the members `lmat[el]` and
`lvec[el]` it stores.  A complex dense matrix or vector (a real part and an imaginary
part) is a matrix or vector over the field `F`. -/
structure LocalShurComplement (F : Type) (rdofs idofs : Nat) where
  rmat : Matrix (Fin rdofs) (Fin rdofs) F
  rvect : Fin rdofs → F
  lmat : Matrix (Fin idofs) (Fin rdofs) F
  lvec : Fin idofs → F

/-- The function `GetLocalShurComplement`, from the blocks `A_tt`, `A_ti`, `A_it`, `A_ii`
and the vectors `y_t`, `y_i` it extracts from the element matrix and vector.
`ComputeInverse` is `ComplexDenseMatrix::ComputeInverse`, which is not among the sources
at hand; `mfem::Mult` and `ComplexDenseMatrix::Mult` are the product of matrices and the
product of a matrix with a vector. -/
def ComplexBlockStaticCondensation.GetLocalShurComplement {F : Type} [CommRing F]
    {rdofs idofs : Nat}
    (ComputeInverse : Matrix (Fin idofs) (Fin idofs) F → Matrix (Fin idofs) (Fin idofs) F)
    (A_tt : Matrix (Fin rdofs) (Fin rdofs) F) (A_ti : Matrix (Fin rdofs) (Fin idofs) F)
    (A_it : Matrix (Fin idofs) (Fin rdofs) F) (A_ii : Matrix (Fin idofs) (Fin idofs) F)
    (y_t : Fin rdofs → F) (y_i : Fin idofs → F) :
    Except String (LocalShurComplement F rdofs idofs) :=
  if idofs = 0 then Except.error "Number of interior dofs is zero"
  else if rdofs = 0 then Except.error "Number of interface dofs is zero"
  else
    let invA_ii := ComputeInverse A_ii
    let lmat := invA_ii * A_it
    let rmat := -(A_ti * lmat) + (1 : F) • A_tt
    let lvec := invA_ii.mulVec y_i
    let rvect := A_ti.mulVec lvec
    Except.ok { rmat := rmat, rvect := fun i => y_t i - rvect i, lmat := lmat, lvec := lvec }

/-- The interior part of the solution of an element in `ComputeSolution`:
`lmat[iel]->Mult(lsr,lsi); lsi.Neg(); lsi+=*lvec[iel];`. -/
def ComplexBlockStaticCondensation.ComputeSolution.interior {F : Type} [CommRing F]
    {rdofs idofs : Nat} (lmat : Matrix (Fin idofs) (Fin rdofs) F) (lvec : Fin idofs → F)
    (lsr : Fin rdofs → F) : Fin idofs → F :=
  -(lmat.mulVec lsr) + lvec

end mfem

namespace jit_internal

/-! # Theorems -/

/-! ## The polling loop -/

theorem Ack_replicate_succ (OP : Int → Int → Bool) (xx m : Int) (n : Nat) :
    JIT.Ack OP xx (List.replicate (n + 1) m) = if OP m xx then none else some 0 := by
  induction n with
  | zero => by_cases h : OP m xx <;> simp [List.replicate, JIT.Ack, h]
  | succ k ih =>
    rw [List.replicate_succ]
    by_cases h : OP m xx
    · simp only [JIT.Ack, h, if_true] at ih ⊢
      rw [ih]; rfl
    · simp [JIT.Ack, h]

theorem doSend_eq {W : Type} (polls : Nat) (xx : Int) (s : State W) :
    JIT.doSend polls xx s = (Res.ret (), { s with ack := xx }) := by
  simp [JIT.doSend, JIT.Send, JIT.AckNE, JIT.Write, Ack_replicate_succ, not_equal_to]

theorem doWait_false_eq {W : Type} (polls : Nat) (s : State W) :
    JIT.doWait polls false s = if s.ack = JIT.ACK then (Res.ret (), s) else (Res.blocked, s) := by
  by_cases h : s.ack = JIT.ACK <;>
    simp [JIT.doWait, JIT.Wait, JIT.AckNE, Ack_replicate_succ, not_equal_to, h]

theorem doWait_true_eq {W : Type} (polls : Nat) (s : State W) :
    JIT.doWait polls true s = if s.ack = JIT.ACK then (Res.blocked, s) else (Res.ret (), s) := by
  by_cases h : s.ack = JIT.ACK <;>
    simp [JIT.doWait, JIT.Wait, JIT.AckEQ, Ack_replicate_succ, equal_to, h]

/-- C1: `Send(xx)` does not block while the mailbox keeps the value it wrote. For every
value `xx` and every continuation of the observations, when the first observation after
the store is still `xx` the loop of `Send` is left at that observation, without a
single sleep; and at an observation `m` that differs from `xx` the loop is not left:
it sleeps and goes on with the observations that follow. -/
theorem Send_returns_on_own_value (xx : Int) (rest : List Int) :
    JIT.Send xx (xx :: rest) = (xx, some 0) ∧
    ∀ m, m ≠ xx → JIT.Send xx (m :: rest) = (xx, (JIT.Send xx rest).2.map (· + 1)) := by
  refine ⟨by simp [JIT.Send, JIT.Write, JIT.AckNE, JIT.Ack, not_equal_to], fun m hm => ?_⟩
  simp [JIT.Send, JIT.Write, JIT.AckNE, JIT.Ack, not_equal_to, hm]

/-! ## The worker loop of the helper -/

/-- C2, as stated, fails: the helper wakes with `CALL`, the buffered command exits with
status 1, and the thread function returns with the mailbox still `CALL`: no
acknowledgment is written. -/
theorem Child_failed_command_not_acknowledged :
    (JIT.Child.iteration (Script.always 1).env 0 (called "false")).1 = Res.ret false ∧
    (JIT.Child.iteration (Script.always 1).env 0 (called "false")).2.ack = JIT.CALL ∧
    (JIT.Child.iteration (Script.always 1).env 0 (called "false")).2.trace
      = [Event.command "false" 1] := by
  decide

theorem Child_iteration_of_CALL {W : Type} (env : Env W) (polls : Nat) (s : State W)
    (h : s.ack = JIT.CALL) :
    JIT.Child.iteration env polls s =
      (Res.ret (decide ((env.system s.world s.mem).2 = 0)),
       { s with world := (env.system s.world s.mem).1,
                ack := if (env.system s.world s.mem).2 = 0 then JIT.ACK else JIT.CALL,
                trace := s.trace ++ [Event.command s.mem (env.system s.world s.mem).2] }) := by
  have hne : ¬ (JIT.CALL = JIT.ACK) := by decide
  have hexit : JIT.IsExit JIT.CALL = false := by decide
  by_cases hst : (env.system s.world s.mem).2 = 0
  · simp [JIT.Child.iteration, JIT.Child.pass, Prog.bind, Prog.pure, doWait_true_eq, hne,
      JIT.IsCall, h, system, intToBool, hst, hexit, JIT.Acknowledge, JIT.Write]
  · simp [JIT.Child.iteration, JIT.Child.pass, Prog.bind, Prog.pure, doWait_true_eq, hne,
      JIT.IsCall, h, system, intToBool, hst]

/-- C2, amended: whenever the helper wakes with the mailbox equal to `CALL` it runs the
buffered command once; when the command exits with status zero it stores `ACK` and the
loop goes on (result `true`), and when the command exits with a non-zero status the
thread function returns (result `false`) and the mailbox keeps `CALL`. -/
theorem Child_acknowledges_successful_command_only {W : Type} (env : Env W) (polls : Nat)
    (s : State W) (h : s.ack = JIT.CALL) :
    JIT.Child.iteration env polls s =
      (Res.ret (decide ((env.system s.world s.mem).2 = 0)),
       { s with world := (env.system s.world s.mem).1,
                ack := if (env.system s.world s.mem).2 = 0 then JIT.ACK else JIT.CALL,
                trace := s.trace ++ [Event.command s.mem (env.system s.world s.mem).2] }) :=
  Child_iteration_of_CALL env polls s h

/-- C2, amended, at a command that succeeds: the helper acknowledges and goes on. -/
theorem Child_acknowledges_successful_command_only_witness :
    (called "true").ack = JIT.CALL ∧
    (JIT.Child.iteration (Script.always 0).env 0 (called "true")).1 = Res.ret true ∧
    (JIT.Child.iteration (Script.always 0).env 0 (called "true")).2.ack = JIT.ACK := by
  have h := Child_acknowledges_successful_command_only (Script.always 0).env 0 (called "true")
    (by decide)
  refine ⟨by decide, ?_, ?_⟩
  · rw [h]; decide
  · rw [h]; decide

/-! ## `JIT::Call` -/

theorem Root_of_not_initialized (cfg : Config) (h : MPI.IsInitialized cfg = false) :
    MPI.Root cfg = true := by
  unfold MPI.IsInitialized at h
  unfold MPI.Root MPI.Rank
  by_cases h1 : cfg.MFEM_USE_MPI <;> simp_all

theorem Call_serial {W : Type} (cfg : Config) (env : Env W) (polls : Nat) (command : String)
    (s : State W) (h : MPI.IsInitialized cfg = false) :
    JIT.Call cfg env polls command s = system env command s := by
  simp [JIT.Call, Prog.bind, MFEM_VERIFY, Root_of_not_initialized cfg h, h]

theorem Call_not_root {W : Type} (cfg : Config) (env : Env W) (polls : Nat) (command : String)
    (s : State W) (h : MPI.Root cfg = false) :
    JIT.Call cfg env polls command s
      = (Res.abort "[JIT] Only MPI root should launch commands!", s) := by
  simp [JIT.Call, Prog.bind, MFEM_VERIFY, h]

theorem Call_job_too_long {W : Type} (cfg : Config) (env : Env W) (polls : Nat)
    (command : String) (s : State W) (hinit : MPI.IsInitialized cfg = true)
    (hroot : MPI.Root cfg = true) (hlen : ¬ 1 + command.utf8ByteSize < cfg.size) :
    JIT.Call cfg env polls command s = (Res.abort "[JIT] Command length error!", s) := by
  simp [JIT.Call, Prog.bind, MFEM_VERIFY, hinit, hroot, hlen]

theorem Call_job_no_helper {W : Type} (cfg : Config) (env : Env W) (polls : Nat)
    (command : String) (s : State W) (hinit : MPI.IsInitialized cfg = true)
    (hroot : MPI.Root cfg = true) (hlen : 1 + command.utf8ByteSize < cfg.size)
    (hhelper : s.helper = false) :
    JIT.Call cfg env polls command s
      = (Res.blocked, { s with mem := command, ack := JIT.CALL }) := by
  have hne : JIT.CALL ≠ JIT.ACK := by decide
  simp [JIT.Call, Prog.bind, Prog.pure, MFEM_VERIFY, hinit, hroot, hlen, doSend_eq,
    JIT.helperTurn, hhelper, doWait_false_eq, hne]

theorem Call_job_success {W : Type} (cfg : Config) (env : Env W) (polls : Nat)
    (command : String) (s : State W) (hinit : MPI.IsInitialized cfg = true)
    (hroot : MPI.Root cfg = true) (hlen : 1 + command.utf8ByteSize < cfg.size)
    (hhelper : s.helper = true) (hst : (env.system s.world command).2 = 0) :
    JIT.Call cfg env polls command s
      = (Res.ret EXIT_SUCCESS,
         { s with mem := command, ack := JIT.ACK, world := (env.system s.world command).1,
                  trace := s.trace ++ [Event.command command 0] }) := by
  simp [JIT.Call, Prog.bind, Prog.pure, MFEM_VERIFY, hinit, hroot, hlen, doSend_eq,
    JIT.helperTurn, hhelper, doWait_false_eq, Child_iteration_of_CALL, hst]

theorem Call_job_failure {W : Type} (cfg : Config) (env : Env W) (polls : Nat)
    (command : String) (s : State W) (hinit : MPI.IsInitialized cfg = true)
    (hroot : MPI.Root cfg = true) (hlen : 1 + command.utf8ByteSize < cfg.size)
    (hhelper : s.helper = true) (hst : (env.system s.world command).2 ≠ 0) :
    JIT.Call cfg env polls command s
      = (Res.blocked,
         { s with mem := command, ack := JIT.CALL, helper := false,
                  world := (env.system s.world command).1,
                  trace := s.trace ++ [Event.command command (env.system s.world command).2] }) := by
  have hne : JIT.CALL ≠ JIT.ACK := by decide
  simp [JIT.Call, Prog.bind, Prog.pure, MFEM_VERIFY, hinit, hroot, hlen, doSend_eq,
    JIT.helperTurn, hhelper, doWait_false_eq, Child_iteration_of_CALL, hst, hne]

/-- C3: in a distributed job the exit status of a failing command never comes back from
`Call`.  On the root rank, with the helper in its worker loop and a command that fits
the buffer, when the command exits with a non-zero status the helper runs it and returns
without acknowledgment, and `Call` is still polling in `Wait(false)` after every number
of polls: it returns no status at all. -/
theorem Call_job_failed_command_never_reported {W : Type} (cfg : Config) (env : Env W)
    (polls : Nat) (command : String) (s : State W)
    (hinit : MPI.IsInitialized cfg = true) (hroot : MPI.Root cfg = true)
    (hlen : 1 + command.utf8ByteSize < cfg.size) (hhelper : s.helper = true)
    (hst : (env.system s.world command).2 ≠ 0) :
    (JIT.Call cfg env polls command s).1 = Res.blocked ∧
    (JIT.Call cfg env polls command s).2.trace
      = s.trace ++ [Event.command command (env.system s.world command).2] ∧
    (JIT.Call cfg env polls command s).2.ack = JIT.CALL := by
  rw [Call_job_failure cfg env polls command s hinit hroot hlen hhelper hst]
  exact ⟨rfl, rfl, rfl⟩

/-- C3 at the command `false` on rank 0 of a job: the command runs, exits with status 1,
and `Call` stays blocked. -/
theorem Call_job_failed_command_never_reported_witness :
    (JIT.Call (jobConfig 0) (Script.always 1).env 5 "false" idle).1 = Res.blocked ∧
    (JIT.Call (jobConfig 0) (Script.always 1).env 5 "false" idle).2.trace
      = [Event.command "false" 1] := by
  have h := Call_job_failed_command_never_reported (jobConfig 0) (Script.always 1).env 5
    "false" idle (by decide) (by decide) (by decide) (by decide) (by decide)
  exact ⟨h.1, h.2.1⟩

/-! ## `MPI::Sync` -/

theorem any_eq_get_or_eraseIdx (l : List Bool) (i : Nat) (h : i < l.length) :
    (l.get ⟨i, h⟩ || (l.eraseIdx i).any id) = l.any id := by
  induction l generalizing i with
  | nil => simp at h
  | cons b t ih =>
    cases i with
    | zero => simp
    | succ j =>
      have hj : j < t.length := by simpa using h
      have := ih j hj
      simp only [List.get_eq_getElem] at this
      simp only [List.get_eq_getElem, List.getElem_cons_succ, List.eraseIdx_cons_succ,
        List.any_cons, id_eq]
      rw [← this]
      cases b <;> cases t[j] <;> simp

theorem Sync_initialized {W : Type} (cfg : Config) (env : Env W) (status : Bool) (s : State W)
    (hinit : MPI.IsInitialized cfg = true) :
    MPI.Sync cfg env status s =
      (if status || (env.allreduce s.world).2 then Res.abort "[JIT] Synchronization error!"
        else Res.ret (),
       { s with world := (env.allreduce s.world).1,
                trace := s.trace ++ [Event.allreduce status (status || (env.allreduce s.world).2)] }) := by
  unfold MPI.IsInitialized at hinit
  have h1 : cfg.MFEM_USE_MPI = true := by
    by_cases h : cfg.MFEM_USE_MPI
    · exact h
    · simp [h] at hinit
  have h2 : cfg.initialized = true := by simpa [h1] using hinit
  by_cases hr : (status || (env.allreduce s.world).2) = true
  · simp [MPI.Sync, h1, h2, Prog.bind, MPI.Allreduce, MFEM_VERIFY, hr, boolToInt, EXIT_SUCCESS]
  · simp only [Bool.not_eq_true] at hr
    simp [MPI.Sync, h1, h2, Prog.bind, MPI.Allreduce, MFEM_VERIFY, hr, boolToInt, EXIT_SUCCESS]

theorem Sync_not_initialized {W : Type} (cfg : Config) (env : Env W) (status : Bool)
    (s : State W) (hinit : MPI.IsInitialized cfg = false) :
    MPI.Sync cfg env status s = (Res.ret (), s) := by
  unfold MPI.IsInitialized at hinit
  by_cases h1 : cfg.MFEM_USE_MPI
  · have h2 : cfg.initialized = false := by simpa [h1] using hinit
    simp [MPI.Sync, h1, h2, Prog.pure]
  · simp [MPI.Sync, h1, Prog.pure]

/-- C10: in an initialized job whose ranks give `statuses` to the reduction, `Sync` ends
the same way on every rank: it aborts on every rank when at least one rank gave a
failure status and passes on every rank when all gave success. -/
theorem Sync_verdict_agrees {W : Type} (statuses : List Bool) (cfg : Nat → Config)
    (env : Nat → Env W) (s : Nat → State W)
    (hinit : ∀ i, MPI.IsInitialized (cfg i) = true)
    (hred : ∀ i w, ((env i).allreduce w).2 = MPI.othersOf statuses i)
    (i : Nat) (hi : i < statuses.length) :
    (MPI.Sync (cfg i) (env i) (statuses.get ⟨i, hi⟩) (s i)).1 =
      if statuses.any id then Res.abort "[JIT] Synchronization error!" else Res.ret () := by
  rw [Sync_initialized _ _ _ _ (hinit i), hred]
  have h := any_eq_get_or_eraseIdx statuses i hi
  simp only [MPI.othersOf, h]

/-- C10 on a job of three ranks of which rank 1 reports a failure: rank 0, which gave
success, aborts. -/
theorem Sync_verdict_agrees_witness :
    (MPI.Sync (jobConfig 0) (Script.atBarrier [false, true, false] 0).env false idle).1
      = Res.abort "[JIT] Synchronization error!" :=
  Sync_verdict_agrees [false, true, false] jobConfig
    (fun i => (Script.atBarrier [false, true, false] i).env) (fun _ => idle)
    (fun _ => rfl) (fun _ _ => rfl) 0 (by decide)

/-! ## How runs compose -/

theorem Prog.Emits.bind {W α β : Type} {m : Prog W α} {f : α → Prog W β}
    {P : Res α → List Event → Prop} {R : α → Res β → List Event → Prop}
    {Q : Res β → List Event → Prop}
    (hm : m.Emits P) (hf : ∀ a, (f a).Emits (R a))
    (hret : ∀ a n1 r n2, P (Res.ret a) n1 → R a r n2 → Q r (n1 ++ n2))
    (habort : ∀ msg n1, P (Res.abort msg) n1 → Q (Res.abort msg) n1)
    (hblocked : ∀ n1, P Res.blocked n1 → Q Res.blocked n1) :
    (Prog.bind m f).Emits Q := by
  intro s
  obtain ⟨n1, h1, q1⟩ := hm s
  unfold Prog.bind
  rcases hms : m s with ⟨res, s1⟩
  rw [hms] at h1 q1
  cases res with
  | ret a =>
    obtain ⟨n2, h2, q2⟩ := hf a s1
    refine ⟨n1 ++ n2, ?_, hret a n1 _ n2 q1 q2⟩
    simp only at h1 ⊢
    rw [h2, h1, List.append_assoc]
  | abort msg => exact ⟨n1, h1, habort msg n1 q1⟩
  | blocked => exact ⟨n1, h1, hblocked n1 q1⟩

theorem Prog.Emits.mono {W α : Type} {m : Prog W α} {Q Q' : Res α → List Event → Prop}
    (hm : m.Emits Q) (h : ∀ r n, Q r n → Q' r n) : m.Emits Q' := by
  intro s
  obtain ⟨n, h1, q⟩ := hm s
  exact ⟨n, h1, h _ _ q⟩

theorem emits_pure {W α : Type} (a : α) :
    (Prog.pure a : Prog W α).Emits fun r n => r = Res.ret a ∧ n = [] :=
  fun s => ⟨[], by simp [Prog.pure], rfl, rfl⟩

theorem emits_verify {W : Type} (c : Bool) (msg : String) :
    (MFEM_VERIFY c msg : Prog W Unit).Emits fun r n =>
      n = [] ∧ ((r = Res.ret () ∧ c = true) ∨ (r = Res.abort msg ∧ c = false)) := by
  intro s
  cases c <;> exact ⟨[], by simp [MFEM_VERIFY], rfl, by simp [MFEM_VERIFY]⟩

theorem emits_fstream {W : Type} (env : Env W) (path : String) :
    (fstream env path).Emits fun r n => n = [] ∧ ∃ b, r = Res.ret b :=
  fun s => ⟨[], by simp [fstream], rfl, _, rfl⟩

theorem emits_remove {W : Type} (env : Env W) (path : String) :
    (remove env path).Emits fun r n => r = Res.ret () ∧ n = [Event.remove path] :=
  fun _ => ⟨_, rfl, rfl, rfl⟩

theorem emits_ofstream {W : Type} (env : Env W) (path : String) :
    (ofstream env path).Emits fun r n => ∃ g, r = Res.ret g ∧ n = [Event.ofstream path g] :=
  fun _ => ⟨_, rfl, _, rfl, rfl⟩

theorem emits_write {W : Type} (env : Env W) (path text : String) :
    (write env path text).Emits fun r n => r = Res.ret () ∧ n = [Event.write path text] :=
  fun _ => ⟨_, rfl, rfl, rfl⟩

theorem emits_dlsym {W : Type} (env : Env W) (handle : Nat) (symbol : String) :
    (dlsym env handle symbol).Emits fun r n =>
      ∃ k, r = Res.ret k ∧ n = [Event.dlsym handle symbol k] :=
  fun _ => ⟨_, rfl, _, rfl, rfl⟩

theorem emits_DLopen {W : Type} (env : Env W) (path : String) :
    (JIT.DLopen env path).Emits fun r n => ∃ h, r = Res.ret h ∧ n = [Event.dlopen path h] :=
  fun _ => ⟨_, rfl, _, rfl, rfl⟩

theorem emits_Sync {W : Type} (cfg : Config) (env : Env W) (status : Bool) :
    (MPI.Sync cfg env status).Emits fun r n =>
      (MPI.IsInitialized cfg = false ∧ r = Res.ret () ∧ n = []) ∨
      (MPI.IsInitialized cfg = true ∧ ∃ reduced, n = [Event.allreduce status reduced] ∧
        ((r = Res.ret () ∧ reduced = false) ∨
         (r = Res.abort "[JIT] Synchronization error!" ∧ reduced = true))) := by
  intro s
  cases hinit : MPI.IsInitialized cfg with
  | false =>
    rw [Sync_not_initialized _ _ _ _ hinit]
    exact ⟨[], by simp, Or.inl ⟨rfl, rfl, rfl⟩⟩
  | true =>
    rw [Sync_initialized _ _ _ _ hinit]
    refine ⟨_, rfl, Or.inr ⟨rfl, _, rfl, ?_⟩⟩
    cases h : (status || (env.allreduce s.world).2) <;> simp

theorem emits_Call {W : Type} (cfg : Config) (env : Env W) (polls : Nat) (command : String) :
    (JIT.Call cfg env polls command).Emits fun r n =>
      (∃ st, r = Res.ret st ∧ n = [Event.command command st] ∧
        (MPI.IsInitialized cfg = true → st = 0)) ∨
      ((∀ st, r ≠ Res.ret st) ∧ MPI.IsInitialized cfg = true ∧
        (n = [] ∨ ∃ st, st ≠ 0 ∧ n = [Event.command command st])) := by
  intro s
  cases hinit : MPI.IsInitialized cfg with
  | false =>
    rw [Call_serial _ _ _ _ _ hinit]
    exact ⟨_, rfl, Or.inl ⟨_, rfl, rfl, by simp⟩⟩
  | true =>
    cases hroot : MPI.Root cfg with
    | false =>
      rw [Call_not_root _ _ _ _ _ hroot]
      exact ⟨[], by simp, Or.inr ⟨by simp, rfl, Or.inl rfl⟩⟩
    | true =>
      by_cases hlen : 1 + command.utf8ByteSize < cfg.size
      · cases hhelper : s.helper with
        | false =>
          rw [Call_job_no_helper _ _ _ _ _ hinit hroot hlen hhelper]
          exact ⟨[], by simp, Or.inr ⟨by simp, rfl, Or.inl rfl⟩⟩
        | true =>
          by_cases hst : (env.system s.world command).2 = 0
          · rw [Call_job_success _ _ _ _ _ hinit hroot hlen hhelper hst]
            exact ⟨_, rfl, Or.inl ⟨_, rfl, rfl, fun _ => rfl⟩⟩
          · rw [Call_job_failure _ _ _ _ _ hinit hroot hlen hhelper hst]
            exact ⟨_, rfl, Or.inr ⟨by simp, rfl, Or.inr ⟨_, hst, rfl⟩⟩⟩
      · rw [Call_job_too_long _ _ _ _ _ hinit hroot hlen]
        exact ⟨[], by simp, Or.inr ⟨by simp, rfl, Or.inl rfl⟩⟩

/-! ## `RootCompile` -/

theorem issued_append (a b : List Event) : issued (a ++ b) = issued a ++ issued b := by
  induction a with
  | nil => rfl
  | cons e t ih => cases e <;> simp [issued, ih]

theorem steps_done {W : Type} (job : Bool) :
    (Prog.pure EXIT_SUCCESS : Prog W Int).Emits (Steps job []) := by
  refine (emits_pure EXIT_SUCCESS).mono ?_
  rintro r n ⟨rfl, rfl⟩
  refine ⟨[], rfl, le_refl _, by simp, by simp, ?_, ?_⟩
  · simp [EXIT_SUCCESS, EXIT_FAILURE]
  · intro st h; left; cases h; rfl

theorem steps_skip {W α : Type} {m : Prog W α} {rest : α → Prog W Int} {job : Bool}
    {cmds : List String}
    (hm : m.Emits fun r n => issued n = [] ∧ ∃ a, r = Res.ret a)
    (hrest : ∀ a, (rest a).Emits (Steps job cmds)) :
    (Prog.bind m rest).Emits (Steps job cmds) := by
  refine Prog.Emits.bind hm hrest ?_ ?_ ?_
  · rintro a n1 r n2 ⟨h1, -⟩ ⟨sts, h2, h3⟩
    exact ⟨sts, by rw [issued_append, h1, h2]; rfl, h3⟩
  · rintro msg n1 ⟨-, a, h⟩; cases h
  · rintro n1 ⟨-, a, h⟩; cases h

theorem steps_call {W : Type} (cfg : Config) (env : Env W) (polls : Nat) (command : String)
    (cmds : List String) (rest : Prog W Int)
    (hrest : rest.Emits (Steps (MPI.IsInitialized cfg) cmds)) :
    (Prog.bind (JIT.Call cfg env polls command) fun st =>
        if intToBool st then Prog.pure EXIT_FAILURE else rest).Emits
      (Steps (MPI.IsInitialized cfg) (command :: cmds)) := by
  refine Prog.Emits.bind (emits_Call cfg env polls command)
    (R := fun st r n => (st ≠ 0 ∧ r = Res.ret EXIT_FAILURE ∧ n = []) ∨
      (st = 0 ∧ Steps (MPI.IsInitialized cfg) cmds r n)) ?_ ?_ ?_ ?_
  · intro st
    by_cases h : st = 0
    · have hb : intToBool st = false := by simp [intToBool, h]
      rw [hb]
      exact hrest.mono fun r n q => Or.inr ⟨h, q⟩
    · have hb : intToBool st = true := by simp [intToBool, h]
      rw [hb]
      exact (emits_pure EXIT_FAILURE).mono fun r n q => Or.inl ⟨h, q.1, q.2⟩
  · rintro st n1 r n2 (⟨st', hret, hn1, hjob⟩ | ⟨hnot, -⟩) q2
    · cases hret
      subst hn1
      rcases q2 with ⟨hst, rfl, rfl⟩ | ⟨rfl, sts, h1, h2, h3, h4, h5, h6⟩
      · have hjob' : MPI.IsInitialized cfg = false := by
          cases hj : MPI.IsInitialized cfg with
          | false => rfl
          | true => exact absurd (hjob hj) hst
        refine ⟨[st], by simp [issued], by simp, by simp, ?_, ?_, ?_⟩
        · constructor
          · intro h; cases h
          · intro h
            rw [List.length_cons, List.replicate_succ] at h
            exact absurd (List.cons.inj h).1 hst
        · simp [hjob', hst]
        · intro st' h; right; cases h; rfl
      · refine ⟨0 :: sts, by simp [issued_append, issued, h1], by simpa using h2, ?_, ?_, ?_, h6⟩
        · intro i hi
          cases i with
          | zero => simp
          | succ j =>
            simp only [List.length_cons] at hi
            simpa using h3 j (by omega)
        · rw [h4, List.length_cons, List.replicate_succ]
          constructor
          · intro h; rw [h]
          · intro h; exact (List.cons.inj h).2
        · rw [h5]
          cases sts with
          | nil => simp
          | cons a t => simp [List.getLast?_cons_cons]
    · exact absurd rfl (hnot st)
  · rintro msg n1 (⟨st, h, -⟩ | ⟨-, hjob, hn⟩)
    · cases h
    · rcases hn with rfl | ⟨st, hst, rfl⟩
      · refine ⟨[], by simp [issued], by simp, by simp, by simp, by simp [hjob], by simp⟩
      · refine ⟨[st], by simp [issued], by simp, by simp, ?_, by simp [hjob], by simp⟩
        simp only [List.length_cons, List.replicate_succ, false_iff, reduceCtorEq]
        intro h
        exact hst (List.cons.inj h).1
  · rintro n1 (⟨st, h, -⟩ | ⟨-, hjob, hn⟩)
    · cases h
    · rcases hn with rfl | ⟨st, hst, rfl⟩
      · refine ⟨[], by simp [issued], by simp, by simp, by simp, by simp [hjob], by simp⟩
      · refine ⟨[st], by simp [issued], by simp, by simp, ?_, by simp [hjob], by simp⟩
        simp only [List.length_cons, List.replicate_succ, false_iff, reduceCtorEq]
        intro h
        exact hst (List.cons.inj h).1

theorem steps_RootCompile {W : Type} (cfg : Config) (env : Env W) (polls : Nat)
    (hash : Nat) (source symbol : String) :
    (JIT.RootCompile cfg env polls hash source symbol).Emits
      (Steps (MPI.IsInitialized cfg) (JIT.rootCommands cfg hash symbol)) := by
  simp only [JIT.RootCompile]
  refine Prog.Emits.bind (emits_ofstream env _)
    (R := fun _ => Steps (MPI.IsInitialized cfg) (JIT.rootCommands cfg hash symbol))
    (fun good => ?_) ?_ ?_ ?_
  · refine Prog.Emits.bind (emits_verify good _)
      (R := fun _ => Steps (MPI.IsInitialized cfg) (JIT.rootCommands cfg hash symbol))
      (fun _ => ?_) ?_ ?_ ?_
    · refine steps_skip ((emits_write env _ _).mono ?_) fun _ => ?_
      · rintro r n ⟨rfl, rfl⟩; exact ⟨rfl, _, rfl⟩
      refine steps_call cfg env polls _ _ _ ?_
      refine steps_skip ((emits_remove env _).mono ?_) fun _ => ?_
      · rintro r n ⟨rfl, rfl⟩; exact ⟨rfl, _, rfl⟩
      refine steps_call cfg env polls _ _ _ ?_
      refine steps_skip ((emits_remove env _).mono ?_) fun _ => ?_
      · rintro r n ⟨rfl, rfl⟩; exact ⟨rfl, _, rfl⟩
      refine steps_call cfg env polls _ _ _ ?_
      refine steps_call cfg env polls _ [] _ ?_
      exact steps_done _
    · rintro a n1 r n2 ⟨rfl, -⟩ q; simpa using q
    · rintro msg n1 ⟨rfl, h⟩
      refine ⟨[], by simp [issued], by simp, by simp, ?_, by simp, by simp⟩
      simp [JIT.rootCommands]
    · rintro n1 ⟨rfl, h⟩
      refine ⟨[], by simp [issued], by simp, by simp, ?_, by simp, by simp⟩
      simp [JIT.rootCommands]
  · rintro a n1 r n2 ⟨g, hg, rfl⟩ ⟨sts, h1, h2⟩
    exact ⟨sts, by simpa [issued_append, issued] using h1, h2⟩
  · rintro msg n1 ⟨g, h, -⟩; cases h
  · rintro n1 ⟨g, h, -⟩; cases h

/-- C4: `RootCompile` stops at the first failing step.  The commands a run of
`RootCompile` issues are the first of compile, archive, link, install, in this order;
every command but the last one issued exited with status zero, so nothing is issued
after a command that fails; the run returns `EXIT_SUCCESS` exactly when all four
commands were issued and exited with status zero, and `EXIT_FAILURE` exactly when the
last command issued exited with a non-zero status that `Call` returned (which `Call`
does outside a job only; whenever `Call` returns, the status it returns is the one
recorded for the command, see `emits_Call`). -/
theorem RootCompile_stops_at_first_failure {W : Type} (cfg : Config) (env : Env W)
    (polls : Nat) (hash : Nat) (source symbol : String) (s : State W) :
    ∃ new sts,
      (JIT.RootCompile cfg env polls hash source symbol s).2.trace = s.trace ++ new ∧
      issued new = List.zip (JIT.rootCommands cfg hash symbol) sts ∧ sts.length ≤ 4 ∧
      (∀ i, i + 1 < sts.length → sts[i]? = some 0) ∧
      ((JIT.RootCompile cfg env polls hash source symbol s).1 = Res.ret EXIT_SUCCESS
        ↔ sts = [0, 0, 0, 0]) ∧
      ((JIT.RootCompile cfg env polls hash source symbol s).1 = Res.ret EXIT_FAILURE
        ↔ MPI.IsInitialized cfg = false ∧ ∃ st, sts.getLast? = some st ∧ st ≠ 0) ∧
      (∀ st, (JIT.RootCompile cfg env polls hash source symbol s).1 = Res.ret st →
        st = EXIT_SUCCESS ∨ st = EXIT_FAILURE) := by
  obtain ⟨new, hnew, sts, h1, h2, h3, h4, h5, h6⟩ :=
    steps_RootCompile cfg env polls hash source symbol s
  exact ⟨new, sts, hnew, h1, h2, h3, h4, h5, h6⟩

/-! ## Builds, handles and resolutions of a run -/

theorem builds_append (a b : List Event) : builds (a ++ b) = builds a + builds b := by
  induction a with
  | nil => simp [builds]
  | cons e t ih => cases e <;> simp [builds, ih]; omega

theorem opened_append (a b : List Event) : opened (a ++ b) = opened a ++ opened b := by
  induction a with
  | nil => rfl
  | cons e t ih => cases e <;> simp [opened, ih]

theorem resolved_append (a b : List Event) : resolved (a ++ b) = resolved a ++ resolved b := by
  induction a with
  | nil => rfl
  | cons e t ih => cases e <;> simp [resolved, ih]

theorem held_append (h : Nat) (a b : List Event) : held h (a ++ b) = held (held h a) b := by
  unfold held
  rw [opened_append, List.getLast?_append]
  cases (opened b).getLast? <;> simp

theorem foot_bind {W α β : Type} {m : Prog W α} {f : α → Prog W β} {c d : Nat}
    (hm : m.Foot c) (hf : ∀ a, (f a).Foot d) : (Prog.bind m f).Foot (c + d) := by
  refine Prog.Emits.bind hm hf ?_ ?_ ?_
  · rintro a n1 r n2 ⟨h1, h2, h3⟩ ⟨h4, h5, h6⟩
    refine ⟨?_, by simp [opened_append, h2, h5], by simp [resolved_append, h3, h6]⟩
    rw [builds_append]; omega
  · rintro msg n1 ⟨h1, h2, h3⟩; exact ⟨by omega, h2, h3⟩
  · rintro n1 ⟨h1, h2, h3⟩; exact ⟨by omega, h2, h3⟩

theorem foot_mono {W α : Type} {m : Prog W α} {b b' : Nat} (hm : m.Foot b) (h : b ≤ b') :
    m.Foot b' :=
  Prog.Emits.mono hm fun _ _ q => ⟨le_trans q.1 h, q.2⟩

theorem foot_pure {W α : Type} (a : α) : (Prog.pure a : Prog W α).Foot 0 :=
  (emits_pure a).mono fun _ _ q => by rw [q.2]; exact ⟨le_refl _, rfl, rfl⟩

theorem foot_verify {W : Type} (c : Bool) (msg : String) :
    (MFEM_VERIFY c msg : Prog W Unit).Foot 0 :=
  (emits_verify c msg).mono fun _ _ q => by rw [q.1]; exact ⟨le_refl _, rfl, rfl⟩

theorem foot_fstream {W : Type} (env : Env W) (path : String) : (fstream env path).Foot 0 :=
  (emits_fstream env path).mono fun _ _ q => by rw [q.1]; exact ⟨le_refl _, rfl, rfl⟩

theorem foot_remove {W : Type} (env : Env W) (path : String) : (remove env path).Foot 0 :=
  (emits_remove env path).mono fun _ _ q => by rw [q.2]; exact ⟨le_refl _, rfl, rfl⟩

theorem foot_write {W : Type} (env : Env W) (path text : String) :
    (write env path text).Foot 0 :=
  (emits_write env path text).mono fun _ _ q => by rw [q.2]; exact ⟨le_refl _, rfl, rfl⟩

theorem foot_ofstream {W : Type} (env : Env W) (path : String) : (ofstream env path).Foot 1 :=
  (emits_ofstream env path).mono fun _ _ q => by
    obtain ⟨g, -, rfl⟩ := q
    exact ⟨le_refl _, rfl, rfl⟩

theorem foot_Sync {W : Type} (cfg : Config) (env : Env W) (status : Bool) :
    (MPI.Sync cfg env status).Foot 0 :=
  (emits_Sync cfg env status).mono fun _ _ q => by
    rcases q with ⟨-, -, rfl⟩ | ⟨-, reduced, rfl, -⟩ <;> exact ⟨le_refl _, rfl, rfl⟩

theorem foot_Call {W : Type} (cfg : Config) (env : Env W) (polls : Nat) (command : String) :
    (JIT.Call cfg env polls command).Foot 0 :=
  (emits_Call cfg env polls command).mono fun _ _ q => by
    rcases q with ⟨st, -, rfl, -⟩ | ⟨-, -, rfl | ⟨st, -, rfl⟩⟩ <;> exact ⟨le_refl _, rfl, rfl⟩

theorem foot_ite {W α : Type} (c : Prop) [Decidable c] {m1 m2 : Prog W α} {b : Nat}
    (h1 : m1.Foot b) (h2 : m2.Foot b) : (if c then m1 else m2).Foot b := by
  split
  · exact h1
  · exact h2

theorem foot_RootCompile {W : Type} (cfg : Config) (env : Env W) (polls : Nat)
    (hash : Nat) (source symbol : String) :
    (JIT.RootCompile cfg env polls hash source symbol).Foot 1 := by
  simp only [JIT.RootCompile]
  have e : (1 : Nat) = 1 + (0 + (0 + (0 + (0 + (0 + (0 + (0 + (0 + 0)))))))) := rfl
  rw [e]
  refine foot_bind (foot_ofstream _ _) fun _ => foot_bind (foot_verify _ _) fun _ =>
    foot_bind (foot_write _ _ _) fun _ => foot_bind (foot_Call _ _ _ _) fun _ =>
    foot_ite _ (foot_mono (foot_pure _) (Nat.zero_le _)) <|
    foot_bind (foot_remove _ _) fun _ => foot_bind (foot_Call _ _ _ _) fun _ =>
    foot_ite _ (foot_mono (foot_pure _) (Nat.zero_le _)) <|
    foot_bind (foot_remove _ _) fun _ => foot_bind (foot_Call _ _ _ _) fun _ =>
    foot_ite _ (foot_mono (foot_pure _) (Nat.zero_le _)) <|
    foot_bind (foot_Call _ _ _ _) fun _ =>
    foot_ite _ (foot_pure _) (foot_pure _)

/-! ## The handle of `Lookup` -/

theorem stage_verified_handle {W : Type} (handle : Nat) (msg : String) :
    (Prog.bind (MFEM_VERIFY (handle != 0) msg) fun _ => (Prog.pure handle : Prog W Nat)).Emits
      fun r n => n = [] ∧ ∀ h, r = Res.ret h → h = handle ∧ handle ≠ 0 := by
  refine Prog.Emits.bind (emits_verify _ _) (fun _ => emits_pure handle) ?_ ?_ ?_
  · rintro a n1 r n2 ⟨rfl, hc⟩ ⟨rfl, rfl⟩
    refine ⟨rfl, fun h hh => ?_⟩
    cases hh
    rcases hc with ⟨-, hc⟩ | ⟨hc, -⟩
    · exact ⟨rfl, by simpa using hc⟩
    · cases hc
  · rintro msg' n1 ⟨rfl, -⟩; exact ⟨rfl, fun h hh => by cases hh⟩
  · rintro n1 ⟨rfl, -⟩; exact ⟨rfl, fun h hh => by cases hh⟩

theorem stage_open_verified {W : Type} (env : Env W) (path msg : String)
    (sync : Prog W Unit) (hsync : sync.Foot 0) :
    (Prog.bind (JIT.DLopen env path) fun handle =>
      Prog.bind sync fun _ =>
      Prog.bind (MFEM_VERIFY (handle != 0) msg) fun _ => (Prog.pure handle : Prog W Nat)).Emits
      fun r n => builds n = 0 ∧ resolved n = [] ∧
        ∀ h, r = Res.ret h → h ≠ 0 ∧ (opened n).getLast? = some h := by
  refine Prog.Emits.bind (emits_DLopen env path)
    (R := fun handle r n => builds n = 0 ∧ resolved n = [] ∧ opened n = [] ∧
      ∀ h, r = Res.ret h → h = handle ∧ handle ≠ 0) (fun handle => ?_) ?_ ?_ ?_
  · refine Prog.Emits.bind hsync (fun _ => stage_verified_handle handle msg) ?_ ?_ ?_
    · rintro a n1 r n2 ⟨h1, h2, h3⟩ ⟨rfl, h4⟩
      exact ⟨by simpa using h1, by simpa using h3, by simpa using h2, h4⟩
    · rintro msg' n1 ⟨h1, h2, h3⟩
      exact ⟨by omega, h3, h2, fun h hh => by cases hh⟩
    · rintro n1 ⟨h1, h2, h3⟩
      exact ⟨by omega, h3, h2, fun h hh => by cases hh⟩
  · rintro handle n1 r n2 ⟨h0, hr, rfl⟩ ⟨h1, h2, h3, h4⟩
    cases hr
    refine ⟨by simp [builds_append, builds, h1], by simp [resolved_append, resolved, h2],
      fun h hh => ?_⟩
    obtain ⟨rfl, hne⟩ := h4 h hh
    exact ⟨hne, by simp [opened_append, opened, h3]⟩
  · rintro msg' n1 ⟨h0, hr, -⟩; cases hr
  · rintro n1 ⟨h0, hr, -⟩; cases hr

theorem stage_WorldCompile {W : Type} (cfg : Config) (env : Env W) (polls : Nat)
    (hash : Nat) (source symbol : String) :
    (JIT.WorldCompile cfg env polls hash source symbol).Emits fun r n =>
      builds n ≤ 1 ∧ resolved n = [] ∧ ∀ h, r = Res.ret h → h ≠ 0 ∧ ∀ h0, held h0 n = h := by
  unfold JIT.WorldCompile
  have hstatus : (if MPI.Root cfg = true
      then Prog.bind (JIT.RootCompile cfg env polls hash source symbol)
        (fun st => Prog.pure (intToBool st))
      else (Prog.pure (intToBool EXIT_SUCCESS) : Prog W Bool)).Foot 1 :=
    foot_ite _ (foot_bind (d := 0) (foot_RootCompile _ _ _ _ _ _) fun _ => foot_pure _)
      (foot_mono (foot_pure _) (Nat.zero_le _))
  refine Prog.Emits.bind hstatus
    (R := fun _ r n => builds n = 0 ∧ resolved n = [] ∧
      ∀ h, r = Res.ret h → h ≠ 0 ∧ (opened n).getLast? = some h) (fun status => ?_) ?_ ?_ ?_
  · refine Prog.Emits.bind (foot_Sync cfg env status)
      (fun _ => stage_open_verified env symbol _ _ (foot_Sync cfg env _)) ?_ ?_ ?_
    · rintro a n1 r n2 ⟨h1, h2, h3⟩ ⟨h4, h5, h6⟩
      refine ⟨by rw [builds_append]; omega, by simp [resolved_append, h3, h5], fun h hh => ?_⟩
      obtain ⟨hne, hl⟩ := h6 h hh
      exact ⟨hne, by simp [opened_append, h2, hl]⟩
    · rintro msg' n1 ⟨h1, h2, h3⟩
      exact ⟨by omega, h3, fun h hh => by cases hh⟩
    · rintro n1 ⟨h1, h2, h3⟩
      exact ⟨by omega, h3, fun h hh => by cases hh⟩
  · rintro a n1 r n2 ⟨h1, h2, h3⟩ ⟨h4, h5, h6⟩
    refine ⟨by rw [builds_append]; omega, by simp [resolved_append, h3, h5], fun h hh => ?_⟩
    obtain ⟨hne, hl⟩ := h6 h hh
    refine ⟨hne, fun h0 => ?_⟩
    simp [held, opened_append, h2, hl]
  · rintro msg' n1 ⟨h1, h2, h3⟩
    exact ⟨h1, h3, fun h hh => by cases hh⟩
  · rintro n1 ⟨h1, h2, h3⟩
    exact ⟨h1, h3, fun h hh => by cases hh⟩

theorem stage_tryOpen {W : Type} (env : Env W) : (JIT.Lookup.tryOpen env).Emits (Stage 0 0) := by
  unfold JIT.Lookup.tryOpen
  refine Prog.Emits.bind (emits_fstream env JIT.so) (R := fun _ => Stage 0 0)
    (fun found => ?_) ?_ ?_ ?_
  · split
    · refine (emits_DLopen env JIT.so).mono ?_
      rintro r n ⟨h, rfl, rfl⟩
      exact ⟨le_refl _, rfl, fun h' hh => by cases hh; rfl⟩
    · refine (emits_pure 0).mono ?_
      rintro r n ⟨rfl, rfl⟩
      exact ⟨le_refl _, rfl, fun h' hh => by cases hh; rfl⟩
  · rintro a n1 r n2 ⟨rfl, -⟩ q; simpa using q
  · rintro msg n1 ⟨-, b, h⟩; cases h
  · rintro n1 ⟨-, b, h⟩; cases h

theorem stage_relink {W : Type} (cfg : Config) (env : Env W) (polls : Nat) (handle : Nat) :
    (JIT.Lookup.relink cfg env polls handle).Emits (Stage handle 0) := by
  have hkeep : (Prog.pure handle : Prog W Nat).Emits (Stage handle 0) := by
    refine (emits_pure handle).mono ?_
    rintro r n ⟨rfl, rfl⟩
    exact ⟨le_refl _, rfl, fun h' hh => by cases hh; rfl⟩
  unfold JIT.Lookup.relink
  split
  · refine Prog.Emits.bind (emits_fstream env JIT.ar) (R := fun _ => Stage handle 0)
      (fun found => ?_) ?_ ?_ ?_
    · split
      · have hstatus : (if MPI.Root cfg = true
            then JIT.Call cfg env polls (JIT.relinkCommand cfg)
            else (Prog.pure EXIT_SUCCESS : Prog W Int)).Foot 0 :=
          foot_ite _ (foot_Call _ _ _ _) (foot_pure _)
        refine Prog.Emits.bind hstatus (R := fun _ r n => builds n = 0 ∧ resolved n = [] ∧
          ∀ h, r = Res.ret h → h ≠ 0 ∧ (opened n).getLast? = some h) (fun status => ?_) ?_ ?_ ?_
        · refine Prog.Emits.bind (foot_Sync cfg env _) (fun _ =>
            (stage_open_verified env JIT.so _ (Prog.pure ()) (foot_pure ())).mono
              fun r n q => q) ?_ ?_ ?_
          · rintro a n1 r n2 ⟨h1, h2, h3⟩ ⟨h4, h5, h6⟩
            refine ⟨by rw [builds_append]; omega, by simp [resolved_append, h3, h5],
              fun h hh => ?_⟩
            obtain ⟨hne, hl⟩ := h6 h hh
            exact ⟨hne, by simp [opened_append, h2, hl]⟩
          · rintro msg' n1 ⟨h1, h2, h3⟩
            exact ⟨by omega, h3, fun h hh => by cases hh⟩
          · rintro n1 ⟨h1, h2, h3⟩
            exact ⟨by omega, h3, fun h hh => by cases hh⟩
        · rintro a n1 r n2 ⟨h1, h2, h3⟩ ⟨h4, h5, h6⟩
          refine ⟨by rw [builds_append]; omega, by simp [resolved_append, h3, h5],
            fun h hh => ?_⟩
          obtain ⟨hne, hl⟩ := h6 h hh
          simp [held, opened_append, h2, hl]
        · rintro msg' n1 ⟨h1, h2, h3⟩
          exact ⟨h1, h3, fun h hh => by cases hh⟩
        · rintro n1 ⟨h1, h2, h3⟩
          exact ⟨h1, h3, fun h hh => by cases hh⟩
      · exact hkeep
    · rintro a n1 r n2 ⟨rfl, -⟩ q; simpa using q
    · rintro msg n1 ⟨-, b, h⟩; cases h
    · rintro n1 ⟨-, b, h⟩; cases h
  · exact hkeep

theorem stage_compile_if_null {W : Type} (cfg : Config) (env : Env W) (polls : Nat)
    (hash : Nat) (source symbol : String) (handle : Nat) :
    (if (handle == 0) = true then JIT.WorldCompile cfg env polls hash source symbol
      else Prog.pure handle).Emits (Stage handle 1) := by
  split
  · refine (stage_WorldCompile cfg env polls hash source symbol).mono ?_
    rintro r n ⟨h1, h2, h3⟩
    exact ⟨h1, h2, fun h hh => (h3 h hh).2 handle⟩
  · refine (emits_pure handle).mono ?_
    rintro r n ⟨rfl, rfl⟩
    exact ⟨Nat.zero_le _, rfl, fun h' hh => by cases hh; rfl⟩

theorem rest_compose {W : Type} {m : Prog W Nat} {f : Nat → Prog W Nat} {symbol : String}
    {handle b c : Nat} (hm : m.Emits (Stage handle b))
    (hf : ∀ h, (f h).Emits (Rest symbol h c)) :
    (Prog.bind m f).Emits (Rest symbol handle (b + c)) := by
  refine Prog.Emits.bind hm hf ?_ ?_ ?_
  · rintro h n1 r n2 ⟨h1, h2, h3⟩ ⟨h4, h5, h6, h7⟩
    have hheld := h3 h rfl
    refine ⟨by rw [builds_append]; omega, by simpa [resolved_append, h2] using h5,
      fun k0 hk => h6 k0 (by simpa [resolved_append, h2] using hk), fun k hk => ?_⟩
    obtain ⟨hne, pre, h', hn2, hh', hheld'⟩ := h7 k hk
    refine ⟨hne, n1 ++ pre, h', by rw [hn2, List.append_assoc], hh', ?_⟩
    rw [held_append, hheld, hheld']
  · rintro msg n1 ⟨h1, h2, h3⟩
    exact ⟨by omega, by simp [h2], fun k0 hk => by simp [h2] at hk, fun k hk => by cases hk⟩
  · rintro n1 ⟨h1, h2, h3⟩
    exact ⟨by omega, by simp [h2], fun k0 hk => by simp [h2] at hk, fun k hk => by cases hk⟩

theorem rest_return {W : Type} (env : Env W) (symbol : String) (kernel : Nat) :
    (Prog.bind (MFEM_VERIFY (kernel != 0) "[JIT] No kernel could be found!") fun _ =>
      Prog.bind (remove env symbol) fun _ => (Prog.pure kernel : Prog W Nat)).Emits
      fun r n => (kernel = 0 ∧ r = Res.abort "[JIT] No kernel could be found!" ∧ n = []) ∨
        (kernel ≠ 0 ∧ r = Res.ret kernel ∧ n = [Event.remove symbol]) := by
  refine Prog.Emits.bind (emits_verify _ _)
    (R := fun _ r n => r = Res.ret kernel ∧ n = [Event.remove symbol]) (fun _ => ?_) ?_ ?_ ?_
  · refine Prog.Emits.bind (emits_remove env symbol) (fun _ => emits_pure kernel) ?_ ?_ ?_
    · rintro a n1 r n2 ⟨-, rfl⟩ ⟨rfl, rfl⟩; exact ⟨rfl, rfl⟩
    · rintro msg n1 ⟨h, -⟩; cases h
    · rintro n1 ⟨h, -⟩; cases h
  · rintro a n1 r n2 ⟨rfl, hc⟩ ⟨rfl, rfl⟩
    rcases hc with ⟨-, hc⟩ | ⟨hc, -⟩
    · exact Or.inr ⟨by simpa using hc, rfl, rfl⟩
    · cases hc
  · rintro msg n1 ⟨rfl, hc⟩
    rcases hc with ⟨hc, -⟩ | ⟨hc, hk⟩
    · cases hc
    · cases hc
      exact Or.inl ⟨by simpa using hk, rfl, rfl⟩
  · rintro n1 ⟨rfl, hc⟩
    rcases hc with ⟨hc, -⟩ | ⟨hc, -⟩ <;> cases hc

theorem rest_resolve {W : Type} (cfg : Config) (env : Env W) (polls : Nat)
    (hash : Nat) (source symbol : String) (handle : Nat) :
    (Prog.bind (MFEM_VERIFY (handle != 0) "[JIT] No handle could be created!") fun _ =>
      Prog.bind (dlsym env handle symbol) fun kernel0 =>
      Prog.bind (if (kernel0 == 0) = true
          then Prog.bind (JIT.WorldCompile cfg env polls hash source symbol) fun handle3 =>
            dlsym env handle3 symbol
          else Prog.pure kernel0) fun kernel =>
      Prog.bind (MFEM_VERIFY (kernel != 0) "[JIT] No kernel could be found!") fun _ =>
      Prog.bind (remove env symbol) fun _ => (Prog.pure kernel : Prog W Nat)).Emits
      (Rest symbol handle 1) := by
  have hnone : ∀ {r : Res Nat} {n : List Event}, (∀ k, r ≠ Res.ret k) → builds n ≤ 1 →
      (resolved n = [] ∨ resolved n = [0]) → Rest symbol handle 1 r n := by
    intro r n hr hb hres
    refine ⟨hb, ?_, ?_, fun k hk => absurd hk (hr k)⟩
    · rcases hres with h | h <;> simp [h]
    · intro k0 hk
      rcases hres with h | h <;> simp [h] at hk
  refine Prog.Emits.bind (emits_verify _ _)
    (R := fun _ r n => handle ≠ 0 → Rest symbol handle 1 r n) (fun _ => ?_) ?_ ?_ ?_
  · refine Prog.Emits.bind (emits_dlsym env handle symbol)
      (R := fun kernel0 r n =>
        (kernel0 ≠ 0 ∧ r = Res.ret kernel0 ∧ n = [Event.remove symbol]) ∨
        (kernel0 = 0 ∧ builds n ≤ 1 ∧ resolved n = [] ∧ ∀ k, r ≠ Res.ret k) ∨
        (kernel0 = 0 ∧ ∃ pre h k, builds pre ≤ 1 ∧ resolved pre = [] ∧ h ≠ 0 ∧
          (∀ h0, held h0 pre = h) ∧
          ((k = 0 ∧ r = Res.abort "[JIT] No kernel could be found!" ∧
              n = pre ++ [Event.dlsym h symbol k]) ∨
           (k ≠ 0 ∧ r = Res.ret k ∧
              n = pre ++ [Event.dlsym h symbol k, Event.remove symbol]))))
      (fun kernel0 => ?_) ?_ ?_ ?_
    · by_cases hk0 : kernel0 = 0
      · have hb : (kernel0 == 0) = true := by simp [hk0]
        rw [hb]
        simp only [if_true]
        refine Prog.Emits.bind
          (Prog.Emits.bind (stage_WorldCompile cfg env polls hash source symbol)
            (Q := fun r n => builds n ≤ 1 ∧
              ((resolved n = [] ∧ ∀ k, r ≠ Res.ret k) ∨
               (∃ pre h k, n = pre ++ [Event.dlsym h symbol k] ∧ r = Res.ret k ∧
                  builds pre ≤ 1 ∧ resolved pre = [] ∧ h ≠ 0 ∧ ∀ h0, held h0 pre = h)))
            (fun handle3 => emits_dlsym env handle3 symbol) ?_ ?_ ?_)
          (fun kernel => rest_return env symbol kernel) ?_ ?_ ?_
        · rintro h3 n1 r n2 ⟨h1, h2, h4⟩ ⟨k, rfl, rfl⟩
          obtain ⟨hne, hheld⟩ := h4 h3 rfl
          refine ⟨by simpa [builds_append, builds] using h1, Or.inr ⟨n1, h3, k, rfl, rfl, h1, h2,
            hne, hheld⟩⟩
        · rintro msg n1 ⟨h1, h2, -⟩
          exact ⟨h1, Or.inl ⟨h2, fun k hk => by cases hk⟩⟩
        · rintro n1 ⟨h1, h2, -⟩
          exact ⟨h1, Or.inl ⟨h2, fun k hk => by cases hk⟩⟩
        · rintro k n1 r n2 ⟨hb1, hq⟩ hret
          rcases hq with ⟨-, hno⟩ | ⟨pre, h, k', rfl, hr, hpre⟩
          · exact absurd rfl (hno k)
          · cases hr
            refine Or.inr (Or.inr ⟨hk0, pre, h, k, hpre.1, hpre.2.1, hpre.2.2.1, hpre.2.2.2, ?_⟩)
            rcases hret with ⟨hk, rfl, rfl⟩ | ⟨hk, rfl, rfl⟩
            · exact Or.inl ⟨hk, rfl, by simp⟩
            · exact Or.inr ⟨hk, rfl, by simp⟩
        · rintro msg n1 ⟨hb1, hq⟩
          rcases hq with ⟨hres, hno⟩ | ⟨pre, h, k', -, hr, -⟩
          · exact Or.inr (Or.inl ⟨hk0, hb1, hres, fun k hk => by cases hk⟩)
          · cases hr
        · rintro n1 ⟨hb1, hq⟩
          rcases hq with ⟨hres, hno⟩ | ⟨pre, h, k', -, hr, -⟩
          · exact Or.inr (Or.inl ⟨hk0, hb1, hres, fun k hk => by cases hk⟩)
          · cases hr
      · have hb : (kernel0 == 0) = false := by simp [hk0]
        rw [hb]
        simp only [Bool.false_eq_true, if_false]
        refine Prog.Emits.bind (emits_pure kernel0) (fun kernel => rest_return env symbol kernel)
          ?_ ?_ ?_
        · rintro k n1 r n2 ⟨hr, rfl⟩ hret
          cases hr
          rcases hret with ⟨hk, -, -⟩ | ⟨hk, rfl, rfl⟩
          · exact absurd hk hk0
          · exact Or.inl ⟨hk, rfl, rfl⟩
        · rintro msg n1 ⟨hr, -⟩; cases hr
        · rintro n1 ⟨hr, -⟩; cases hr
    · rintro kernel0 n1 r n2 ⟨k, hr, rfl⟩ q hne
      cases hr
      rcases q with ⟨hk, rfl, rfl⟩ | ⟨rfl, hb, hres, hno⟩ | ⟨rfl, pre, h, k, hb, hres, hh, hheld, hq⟩
      · refine ⟨by simp [builds], by simp [resolved], ?_, fun k hk => ?_⟩
        · intro k0 hk; simp [resolved] at hk
        · cases hk
          exact ⟨hk, [], handle, rfl, hne, rfl⟩
      · exact hnone hno (by simpa [builds_append, builds] using hb)
          (Or.inr (by simp [resolved_append, resolved, hres]))
      · rcases hq with ⟨rfl, rfl, rfl⟩ | ⟨hk, rfl, rfl⟩
        · refine ⟨by simpa [builds_append, builds] using hb,
            by simp [resolved_append, resolved, hres], fun k0 _ => rfl, fun k hk => by cases hk⟩
        · refine ⟨by simpa [builds_append, builds] using hb,
            by simp [resolved_append, resolved, hres], ?_, fun k' hk' => ?_⟩
          · intro k0 hk0
            simp [resolved_append, resolved, hres] at hk0
            exact absurd hk0.2 hk
          · cases hk'
            refine ⟨hk, Event.dlsym handle symbol 0 :: pre, h, by simp, hh, ?_⟩
            have := held_append handle [Event.dlsym handle symbol 0] pre
            simp only [List.singleton_append] at this
            rw [this, hheld]
    · rintro msg n1 ⟨k, hr, -⟩; cases hr
    · rintro n1 ⟨k, hr, -⟩; cases hr
  · rintro a n1 r n2 ⟨rfl, hc⟩ q
    rcases hc with ⟨-, hc⟩ | ⟨hc, -⟩
    · simpa using q (by simpa using hc)
    · cases hc
  · rintro msg n1 ⟨rfl, -⟩
    exact hnone (fun k hk => by cases hk) (by simp [builds]) (Or.inl rfl)
  · rintro n1 ⟨rfl, -⟩
    exact hnone (fun k hk => by cases hk) (by simp [builds]) (Or.inl rfl)

theorem rest_Lookup {W : Type} (cfg : Config) (env : Env W) (polls : Nat)
    (hash : Nat) (source symbol : String) :
    (JIT.Lookup cfg env polls hash source symbol).Emits (Rest symbol 0 2) := by
  unfold JIT.Lookup
  have e : (2 : Nat) = 0 + (0 + (1 + 1)) := rfl
  rw [e]
  exact rest_compose (stage_tryOpen env) fun h0 =>
    rest_compose (stage_relink cfg env polls h0) fun h1 =>
    rest_compose (stage_compile_if_null cfg env polls hash source symbol h1) fun h2 =>
    rest_resolve cfg env polls hash source symbol h2

/-! ## Programs that run no command -/

theorem quiet_bind {W α β : Type} {m : Prog W α} {f : α → Prog W β}
    (hm : m.Quiet) (hf : ∀ a, (f a).Quiet) : (Prog.bind m f).Quiet := by
  intro s
  have h1 := hm s
  unfold Prog.bind
  rcases hms : m s with ⟨res, s1⟩
  rw [hms] at h1
  cases res with
  | ret a => simpa [h1] using hf a s1
  | abort msg => simpa using h1
  | blocked => simpa using h1

theorem commands_append (a b : List Event) : commands (a ++ b) = commands a ++ commands b := by
  induction a with
  | nil => rfl
  | cons e t ih => cases e <;> simp [commands, ih]

theorem quiet_pure {W α : Type} (a : α) : (Prog.pure a : Prog W α).Quiet := fun _ => rfl

theorem quiet_verify {W : Type} (c : Bool) (msg : String) : (MFEM_VERIFY c msg : Prog W Unit).Quiet := by
  intro s; unfold MFEM_VERIFY; split <;> rfl

theorem quiet_fstream {W : Type} (env : Env W) (path : String) : (fstream env path).Quiet :=
  fun _ => rfl

theorem quiet_remove {W : Type} (env : Env W) (path : String) : (remove env path).Quiet := by
  intro s; simp [remove, commands_append, commands]

theorem quiet_dlsym {W : Type} (env : Env W) (h : Nat) (symbol : String) :
    (dlsym env h symbol).Quiet := by
  intro s; simp [dlsym, commands_append, commands]

theorem quiet_DLopen {W : Type} (env : Env W) (path : String) : (JIT.DLopen env path).Quiet := by
  intro s; simp [JIT.DLopen, commands_append, commands]

theorem quiet_Sync {W : Type} (cfg : Config) (env : Env W) (status : Bool) :
    (MPI.Sync cfg env status).Quiet := by
  intro s
  cases hinit : MPI.IsInitialized cfg with
  | true => rw [Sync_initialized _ _ _ _ hinit]; simp [commands_append, commands]
  | false => rw [Sync_not_initialized _ _ _ _ hinit]

theorem quiet_WorldCompile {W : Type} (cfg : Config) (env : Env W) (polls : Nat)
    (hash : Nat) (source symbol : String) (hroot : MPI.Root cfg = false) :
    (JIT.WorldCompile cfg env polls hash source symbol).Quiet := by
  unfold JIT.WorldCompile
  simp only [hroot, Bool.false_eq_true, if_false]
  exact quiet_bind (quiet_pure _) fun _ => quiet_bind (quiet_Sync _ _ _) fun _ =>
    quiet_bind (quiet_DLopen _ _) fun _ => quiet_bind (quiet_Sync _ _ _) fun _ =>
    quiet_bind (quiet_verify _ _) fun _ => quiet_pure _

theorem quiet_Lookup {W : Type} (cfg : Config) (env : Env W) (polls : Nat)
    (hash : Nat) (source symbol : String) (hroot : MPI.Root cfg = false) :
    (JIT.Lookup cfg env polls hash source symbol).Quiet := by
  have hwc := quiet_WorldCompile cfg env polls hash source symbol hroot
  unfold JIT.Lookup
  refine quiet_bind ?_ fun h0 => quiet_bind ?_ fun h1 => quiet_bind ?_ fun h2 =>
    quiet_bind (quiet_verify _ _) fun _ => quiet_bind (quiet_dlsym _ _ _) fun k0 =>
    quiet_bind ?_ fun k => quiet_bind (quiet_verify _ _) fun _ =>
    quiet_bind (quiet_remove _ _) fun _ => quiet_pure _
  · unfold JIT.Lookup.tryOpen
    refine quiet_bind (quiet_fstream _ _) fun found => ?_
    split
    · exact quiet_DLopen _ _
    · exact quiet_pure _
  · unfold JIT.Lookup.relink
    simp only [hroot, Bool.false_eq_true, if_false]
    split
    · refine quiet_bind (quiet_fstream _ _) fun found => ?_
      split
      · exact quiet_bind (quiet_pure _) fun _ => quiet_bind (quiet_Sync _ _ _) fun _ =>
          quiet_bind (quiet_DLopen _ _) fun _ => quiet_bind (quiet_verify _ _) fun _ => quiet_pure _
      · exact quiet_pure _
    · exact quiet_pure _
  · split
    · exact hwc
    · exact quiet_pure _
  · split
    · exact quiet_bind hwc fun _ => quiet_dlsym _ _ _
    · exact quiet_pure _

/-- C9: on every rank other than 0, whatever the cache files, the loader and the other
ranks do, `Lookup` runs no command (the commands of the trace are the same after it as
before, whether it returns, aborts or blocks), and `Call` aborts. -/
theorem Lookup_runs_no_command_off_root {W : Type} (cfg : Config) (env : Env W) (polls : Nat)
    (hash : Nat) (source symbol : String) (s : State W) (hrank : MPI.Rank cfg ≠ 0) :
    commands (JIT.Lookup cfg env polls hash source symbol s).2.trace = commands s.trace ∧
    ∀ (command : String) (t : State W),
      JIT.Call cfg env polls command t
        = (Res.abort "[JIT] Only MPI root should launch commands!", t) := by
  have hroot : MPI.Root cfg = false := by simp [MPI.Root, hrank]
  exact ⟨quiet_Lookup cfg env polls hash source symbol hroot s,
    fun command t => Call_not_root cfg env polls command t hroot⟩

/-! ## `JIT::Lookup`: what it returns and how often it builds -/

/-- C6: `Lookup` never returns an unresolved address.  Whatever the file system, the
loader and the commands do, when `Lookup` returns `k` then `k` is not `nullptr`, the
last two events are the resolution of `symbol` to `k` in a handle `h` that is not
`nullptr` and the removal of the file `symbol`, and `h` is the handle the last
`::dlopen` before returned.  When `symbol` was resolved a second time, that is after
a build, and the result is `nullptr`, `Lookup` aborts. -/
theorem Lookup_never_returns_unresolved {W : Type} (cfg : Config) (env : Env W) (polls : Nat)
    (hash : Nat) (source symbol : String) (s : State W) :
    ∃ new, (JIT.Lookup cfg env polls hash source symbol s).2.trace = s.trace ++ new ∧
      (∀ k, (JIT.Lookup cfg env polls hash source symbol s).1 = Res.ret k →
        k ≠ 0 ∧ ∃ pre h, new = pre ++ [Event.dlsym h symbol k, Event.remove symbol] ∧
          h ≠ 0 ∧ (opened pre).getLast? = some h) ∧
      (∀ k0, resolved new = [k0, 0] →
        (JIT.Lookup cfg env polls hash source symbol s).1
          = Res.abort "[JIT] No kernel could be found!") := by
  obtain ⟨new, hnew, -, -, habort, hret⟩ := rest_Lookup cfg env polls hash source symbol s
  refine ⟨new, hnew, fun k hk => ?_, habort⟩
  obtain ⟨hne, pre, h, hpre, hh, hheld⟩ := hret k hk
  refine ⟨hne, pre, h, hpre, hh, ?_⟩
  unfold held at hheld
  cases hl : (opened pre).getLast? with
  | none => rw [hl] at hheld; exact absurd hheld.symm hh
  | some x => rw [hl] at hheld; simpa using hheld

/-- C6 on a fresh start of kernel `k1`: `Lookup` builds and returns the address 42, and
its last events are the resolution of `k1` to 42 in the handle last opened and the
removal of `k1`. -/
theorem Lookup_never_returns_unresolved_witness :
    (JIT.Lookup serialConfig (Script.fresh "k1" 42).env 0 1 "return 42;" "k1" idle).1
      = Res.ret 42 ∧
    ∃ pre h,
      (JIT.Lookup serialConfig (Script.fresh "k1" 42).env 0 1 "return 42;" "k1" idle).2.trace
        = pre ++ [Event.dlsym h "k1" 42, Event.remove "k1"] ∧
      h ≠ 0 ∧ (opened pre).getLast? = some h := by
  have hret : (JIT.Lookup serialConfig (Script.fresh "k1" 42).env 0 1 "return 42;" "k1" idle).1
      = Res.ret 42 := by decide
  obtain ⟨new, hnew, h, -⟩ := Lookup_never_returns_unresolved serialConfig
    (Script.fresh "k1" 42).env 0 1 "return 42;" "k1" idle
  obtain ⟨-, pre, h1, hpre, hh, hl⟩ := h 42 hret
  refine ⟨hret, pre, h1, ?_, hh, hl⟩
  rw [hnew, hpre]
  rfl

/-- C7, as stated, fails: from a start without cache files and with a source that does
not define `k1`, one call of `Lookup` starts two builds and runs eight commands before
it aborts. -/
theorem Lookup_builds_twice :
    builds (JIT.Lookup serialConfig (Script.fresh "k1" 0).env 0 1 "return 42;" "k1" idle).2.trace
      = 2 ∧
    (commands
      (JIT.Lookup serialConfig (Script.fresh "k1" 0).env 0 1 "return 42;" "k1" idle).2.trace).length
      = 8 ∧
    (JIT.Lookup serialConfig (Script.fresh "k1" 0).env 0 1 "return 42;" "k1" idle).1
      = Res.abort "[JIT] No kernel could be found!" := by
  decide

/-- C7, amended: one call of `Lookup` starts at most two builds, one when no handle
could be obtained from the cache files and one when `symbol` is not resolved; it
resolves `symbol` at most twice, and when the second resolution, the one after the
build for the unresolved symbol, gives `nullptr`, it aborts without a further build. -/
theorem Lookup_builds_at_most_twice {W : Type} (cfg : Config) (env : Env W) (polls : Nat)
    (hash : Nat) (source symbol : String) (s : State W) :
    ∃ new, (JIT.Lookup cfg env polls hash source symbol s).2.trace = s.trace ++ new ∧
      builds new ≤ 2 ∧ (resolved new).length ≤ 2 ∧
      (∀ k0, resolved new = [k0, 0] →
        (JIT.Lookup cfg env polls hash source symbol s).1
          = Res.abort "[JIT] No kernel could be found!") := by
  obtain ⟨new, hnew, hb, hr, habort, -⟩ := rest_Lookup cfg env polls hash source symbol s
  exact ⟨new, hnew, hb, hr, habort⟩

/-! ## `JIT::Lookup` after a failed build -/

theorem cleanRet_bind {W α β : Type} {m : Prog W α} {f : α → Prog W β}
    (hm : m.CleanRet) (hf : ∀ a, (f a).CleanRet) : (Prog.bind m f).CleanRet := by
  refine Prog.Emits.bind hm hf ?_ ?_ ?_
  · rintro a n1 r n2 h1 h2 b hb e he
    rcases List.mem_append.mp he with h | h
    · exact h1 a rfl e h
    · exact h2 b hb e h
  · rintro msg n1 - a ha; cases ha
  · rintro n1 - a ha; cases ha

theorem cleanRet_ite {W α : Type} (c : Prop) [Decidable c] {m1 m2 : Prog W α}
    (h1 : m1.CleanRet) (h2 : m2.CleanRet) : (if c then m1 else m2).CleanRet := by
  split
  · exact h1
  · exact h2

theorem cleanRet_pure {W α : Type} (a : α) : (Prog.pure a : Prog W α).CleanRet :=
  (emits_pure a).mono fun _ _ q _ _ e he => by rw [q.2] at he; cases he

theorem cleanRet_verify {W : Type} (c : Bool) (msg : String) :
    (MFEM_VERIFY c msg : Prog W Unit).CleanRet :=
  (emits_verify c msg).mono fun _ _ q _ _ e he => by rw [q.1] at he; cases he

theorem cleanRet_fstream {W : Type} (env : Env W) (path : String) :
    (fstream env path).CleanRet :=
  (emits_fstream env path).mono fun _ _ q _ _ e he => by rw [q.1] at he; cases he

theorem cleanRet_remove {W : Type} (env : Env W) (path : String) : (remove env path).CleanRet :=
  (emits_remove env path).mono fun _ _ q _ _ e he => by
    rw [q.2, List.mem_singleton] at he; rw [he]; rfl

theorem cleanRet_write {W : Type} (env : Env W) (path text : String) :
    (write env path text).CleanRet :=
  (emits_write env path text).mono fun _ _ q _ _ e he => by
    rw [q.2, List.mem_singleton] at he; rw [he]; rfl

theorem cleanRet_ofstream {W : Type} (env : Env W) (path : String) :
    (ofstream env path).CleanRet :=
  (emits_ofstream env path).mono fun _ _ q _ _ e he => by
    obtain ⟨g, -, rfl⟩ := q
    rw [List.mem_singleton] at he; rw [he]; rfl

theorem cleanRet_dlsym {W : Type} (env : Env W) (handle : Nat) (symbol : String) :
    (dlsym env handle symbol).CleanRet :=
  (emits_dlsym env handle symbol).mono fun _ _ q _ _ e he => by
    obtain ⟨k, -, rfl⟩ := q
    rw [List.mem_singleton] at he; rw [he]; rfl

theorem cleanRet_DLopen {W : Type} (env : Env W) (path : String) :
    (JIT.DLopen env path).CleanRet :=
  (emits_DLopen env path).mono fun _ _ q _ _ e he => by
    obtain ⟨h, -, rfl⟩ := q
    rw [List.mem_singleton] at he; rw [he]; rfl

theorem cleanRet_Sync {W : Type} (cfg : Config) (env : Env W) (status : Bool) :
    (MPI.Sync cfg env status).CleanRet :=
  (emits_Sync cfg env status).mono fun _ _ q a ha e he => by
    rcases q with ⟨-, -, rfl⟩ | ⟨-, reduced, rfl, ⟨-, rfl⟩ | ⟨hr, -⟩⟩
    · cases he
    · rw [List.mem_singleton] at he; rw [he]; rfl
    · rw [hr] at ha; cases ha

theorem cleanRet_Call {W : Type} (cfg : Config) (env : Env W) (polls : Nat) (command : String)
    (hjob : MPI.IsInitialized cfg = true) : (JIT.Call cfg env polls command).CleanRet :=
  (emits_Call cfg env polls command).mono fun _ _ q a ha e he => by
    rcases q with ⟨st, -, rfl, hst⟩ | ⟨hno, -⟩
    · rw [List.mem_singleton] at he
      rw [he, hst hjob]; rfl
    · exact absurd ha (hno a)

theorem cleanRet_RootCompile {W : Type} (cfg : Config) (env : Env W) (polls : Nat)
    (hash : Nat) (source symbol : String) (hjob : MPI.IsInitialized cfg = true) :
    (JIT.RootCompile cfg env polls hash source symbol).CleanRet := by
  simp only [JIT.RootCompile]
  exact cleanRet_bind (cleanRet_ofstream _ _) fun _ => cleanRet_bind (cleanRet_verify _ _) fun _ =>
    cleanRet_bind (cleanRet_write _ _ _) fun _ => cleanRet_bind (cleanRet_Call _ _ _ _ hjob) fun _ =>
    cleanRet_ite _ (cleanRet_pure _) <|
    cleanRet_bind (cleanRet_remove _ _) fun _ => cleanRet_bind (cleanRet_Call _ _ _ _ hjob) fun _ =>
    cleanRet_ite _ (cleanRet_pure _) <|
    cleanRet_bind (cleanRet_remove _ _) fun _ => cleanRet_bind (cleanRet_Call _ _ _ _ hjob) fun _ =>
    cleanRet_ite _ (cleanRet_pure _) <|
    cleanRet_bind (cleanRet_Call _ _ _ _ hjob) fun _ =>
    cleanRet_ite _ (cleanRet_pure _) (cleanRet_pure _)

theorem cleanRet_WorldCompile {W : Type} (cfg : Config) (env : Env W) (polls : Nat)
    (hash : Nat) (source symbol : String) (hjob : MPI.IsInitialized cfg = true) :
    (JIT.WorldCompile cfg env polls hash source symbol).CleanRet := by
  unfold JIT.WorldCompile
  exact cleanRet_bind
    (cleanRet_ite _
      (cleanRet_bind (cleanRet_RootCompile _ _ _ _ _ _ hjob) fun _ => cleanRet_pure _)
      (cleanRet_pure _)) fun _ =>
    cleanRet_bind (cleanRet_Sync _ _ _) fun _ => cleanRet_bind (cleanRet_DLopen _ _) fun _ =>
    cleanRet_bind (cleanRet_Sync _ _ _) fun _ => cleanRet_bind (cleanRet_verify _ _) fun _ =>
    cleanRet_pure _

theorem cleanRet_Lookup {W : Type} (cfg : Config) (env : Env W) (polls : Nat)
    (hash : Nat) (source symbol : String) (hjob : MPI.IsInitialized cfg = true) :
    (JIT.Lookup cfg env polls hash source symbol).CleanRet := by
  have hwc := cleanRet_WorldCompile cfg env polls hash source symbol hjob
  unfold JIT.Lookup
  refine cleanRet_bind ?_ fun h0 => cleanRet_bind ?_ fun h1 =>
    cleanRet_bind (cleanRet_ite _ hwc (cleanRet_pure _)) fun h2 =>
    cleanRet_bind (cleanRet_verify _ _) fun _ => cleanRet_bind (cleanRet_dlsym _ _ _) fun k0 =>
    cleanRet_bind (cleanRet_ite _ (cleanRet_bind hwc fun _ => cleanRet_dlsym _ _ _)
      (cleanRet_pure _)) fun k =>
    cleanRet_bind (cleanRet_verify _ _) fun _ => cleanRet_bind (cleanRet_remove _ _) fun _ =>
    cleanRet_pure _
  · unfold JIT.Lookup.tryOpen
    exact cleanRet_bind (cleanRet_fstream _ _) fun _ =>
      cleanRet_ite _ (cleanRet_DLopen _ _) (cleanRet_pure _)
  · unfold JIT.Lookup.relink
    refine cleanRet_ite _ (cleanRet_bind (cleanRet_fstream _ _) fun _ =>
      cleanRet_ite _ ?_ (cleanRet_pure _)) (cleanRet_pure _)
    exact cleanRet_bind (cleanRet_ite _ (cleanRet_Call _ _ _ _ hjob) (cleanRet_pure _)) fun _ =>
      cleanRet_bind (cleanRet_Sync _ _ _) fun _ => cleanRet_bind (cleanRet_DLopen _ _) fun _ =>
      cleanRet_bind (cleanRet_verify _ _) fun _ => cleanRet_pure _

theorem reductions_append (a b : List Event) :
    reductions (a ++ b) = reductions a + reductions b := by
  induction a with
  | nil => simp [reductions]
  | cons e t ih =>
    cases e <;> simp [reductions, ih]
    omega

theorem appends_of_cleanRet {W α : Type} {m : Prog W α} (h : m.CleanRet) :
    m.Emits fun _ _ => True :=
  Prog.Emits.mono h fun _ _ _ => trivial

theorem joins_left {W α β : Type} {m : Prog W α} {f : α → Prog W β}
    (hm : m.Joins) (hf : ∀ a, (f a).Emits fun _ _ => True) : (Prog.bind m f).Joins := by
  refine Prog.Emits.bind hm hf ?_ ?_ ?_
  · intro a n1 r n2 h1 _ b _
    rw [reductions_append]
    have := h1 a rfl
    omega
  · intro msg n1 _ a ha; cases ha
  · intro n1 _ a ha; cases ha

theorem joins_right {W α β : Type} {m : Prog W α} {f : α → Prog W β}
    (hm : m.Emits fun _ _ => True) (hf : ∀ a, (f a).Joins) : (Prog.bind m f).Joins := by
  refine Prog.Emits.bind hm hf ?_ ?_ ?_
  · intro a n1 r n2 _ h2 b hb
    rw [reductions_append]
    have := h2 b hb
    omega
  · intro msg n1 _ a ha; cases ha
  · intro n1 _ a ha; cases ha

theorem joins_Sync {W : Type} (cfg : Config) (env : Env W) (status : Bool)
    (hjob : MPI.IsInitialized cfg = true) : (MPI.Sync cfg env status).Joins :=
  (emits_Sync cfg env status).mono fun _ _ q _ _ => by
    rcases q with ⟨h, -, -⟩ | ⟨-, reduced, rfl, -⟩
    · rw [hjob] at h; cases h
    · simp [reductions]

theorem joins_WorldCompile {W : Type} (cfg : Config) (env : Env W) (polls : Nat)
    (hash : Nat) (source symbol : String) (hjob : MPI.IsInitialized cfg = true) :
    (JIT.WorldCompile cfg env polls hash source symbol).Joins := by
  unfold JIT.WorldCompile
  exact joins_right
    (appends_of_cleanRet (cleanRet_ite _
      (cleanRet_bind (cleanRet_RootCompile _ _ _ _ _ _ hjob) fun _ => cleanRet_pure _)
      (cleanRet_pure _))) fun _ =>
    joins_left (joins_Sync _ _ _ hjob) fun _ =>
    appends_of_cleanRet (cleanRet_bind (cleanRet_DLopen _ _) fun _ =>
      cleanRet_bind (cleanRet_Sync _ _ _) fun _ => cleanRet_bind (cleanRet_verify _ _) fun _ =>
      cleanRet_pure _)

theorem emits_relink_joins {W : Type} (cfg : Config) (env : Env W) (polls : Nat)
    (hjob : MPI.IsInitialized cfg = true) :
    (JIT.Lookup.relink cfg env polls 0).Emits fun r new =>
      ∀ h, r = Res.ret h → h = 0 ∨ 1 ≤ reductions new := by
  have hfound : (Prog.bind (if MPI.Root cfg then JIT.Call cfg env polls (JIT.relinkCommand cfg)
        else Prog.pure EXIT_SUCCESS) fun status =>
      Prog.bind (MPI.Sync cfg env (intToBool status)) fun _ =>
      Prog.bind (JIT.DLopen env JIT.so) fun handle1 =>
      Prog.bind (MFEM_VERIFY (handle1 != 0) "[JIT] Error ./libmjit.so from libmjit.a") fun _ =>
      Prog.pure handle1).Joins :=
    joins_right (appends_of_cleanRet (cleanRet_ite _ (cleanRet_Call _ _ _ _ hjob)
      (cleanRet_pure _))) fun _ =>
    joins_left (joins_Sync _ _ _ hjob) fun _ =>
    appends_of_cleanRet (cleanRet_bind (cleanRet_DLopen _ _) fun _ =>
      cleanRet_bind (cleanRet_verify _ _) fun _ => cleanRet_pure _)
  unfold JIT.Lookup.relink
  simp only [beq_self_eq_true, if_true]
  refine Prog.Emits.bind (emits_fstream env JIT.ar)
    (R := fun _ r new => ∀ h, r = Res.ret h → h = 0 ∨ 1 ≤ reductions new)
    (fun found => ?_) ?_ ?_ ?_
  · cases found with
    | false =>
      exact (emits_pure 0).mono fun r n q h hr => by
        rw [q.1] at hr
        cases hr
        exact Or.inl rfl
    | true => exact hfound.mono fun r n q h hr => Or.inr (q h hr)
  · intro a n1 r n2 hP hR h hr
    rw [hP.1]
    exact hR h hr
  · intro msg n1 _ h hr; cases hr
  · intro n1 _ h hr; cases hr

theorem joins_Lookup_rest {W : Type} (cfg : Config) (env : Env W) (polls : Nat)
    (hash : Nat) (source symbol : String) (hjob : MPI.IsInitialized cfg = true) :
    (Prog.bind (JIT.Lookup.relink cfg env polls 0) fun handle1 =>
      Prog.bind (if handle1 == 0 then JIT.WorldCompile cfg env polls hash source symbol
          else Prog.pure handle1) fun handle2 =>
      Prog.bind (MFEM_VERIFY (handle2 != 0) "[JIT] No handle could be created!") fun _ =>
      Prog.bind (dlsym env handle2 symbol) fun kernel0 =>
      Prog.bind (if kernel0 == 0
          then Prog.bind (JIT.WorldCompile cfg env polls hash source symbol) fun handle3 =>
            dlsym env handle3 symbol
          else Prog.pure kernel0) fun kernel =>
      Prog.bind (MFEM_VERIFY (kernel != 0) "[JIT] No kernel could be found!") fun _ =>
      Prog.bind (remove env symbol) fun _ =>
      Prog.pure kernel).Joins := by
  have hwc := cleanRet_WorldCompile cfg env polls hash source symbol hjob
  have htail : ∀ handle2 : Nat,
      (Prog.bind (MFEM_VERIFY (handle2 != 0) "[JIT] No handle could be created!") fun _ =>
        Prog.bind (dlsym env handle2 symbol) fun kernel0 =>
        Prog.bind (if kernel0 == 0
            then Prog.bind (JIT.WorldCompile cfg env polls hash source symbol) fun handle3 =>
              dlsym env handle3 symbol
            else Prog.pure kernel0) fun kernel =>
        Prog.bind (MFEM_VERIFY (kernel != 0) "[JIT] No kernel could be found!") fun _ =>
        Prog.bind (remove env symbol) fun _ =>
        (Prog.pure kernel : Prog W Nat)).Emits fun _ _ => True := fun handle2 =>
    appends_of_cleanRet (cleanRet_bind (cleanRet_verify _ _) fun _ =>
      cleanRet_bind (cleanRet_dlsym _ _ _) fun _ =>
      cleanRet_bind (cleanRet_ite _ (cleanRet_bind hwc fun _ => cleanRet_dlsym _ _ _)
        (cleanRet_pure _)) fun _ =>
      cleanRet_bind (cleanRet_verify _ _) fun _ => cleanRet_bind (cleanRet_remove _ _) fun _ =>
      cleanRet_pure _)
  refine Prog.Emits.bind (emits_relink_joins cfg env polls hjob)
    (R := fun handle1 r new => ∀ k, r = Res.ret k → handle1 = 0 → 1 ≤ reductions new)
    (fun handle1 => ?_) ?_ ?_ ?_
  · by_cases h1 : handle1 = 0
    · subst h1
      simp only [beq_self_eq_true, if_true]
      exact (joins_left (joins_WorldCompile cfg env polls hash source symbol hjob)
        htail).mono fun r n q k hk _ => q k hk
    · exact (Prog.Emits.bind (P := fun _ _ => True) (R := fun _ _ _ => True)
        (Q := fun _ _ => True)
        (appends_of_cleanRet (cleanRet_ite _ hwc (cleanRet_pure _))) htail
        (fun _ _ _ _ _ _ => trivial) (fun _ _ _ => trivial) (fun _ _ => trivial)).mono
        fun r n _ k _ h0 => absurd h0 h1
  · intro a n1 r n2 hP hR k hk
    rw [reductions_append]
    rcases hP a rfl with h0 | h1
    · have := hR k hk h0
      omega
    · omega
  · intro msg n1 _ a ha; cases ha
  · intro n1 _ a ha; cases ha

theorem Prog.bind_of_ret {W α β : Type} {m : Prog W α} {f : α → Prog W β} {s s1 : State W}
    {a : α} (h : m s = (Res.ret a, s1)) : Prog.bind m f s = f a s1 := by
  simp [Prog.bind, h]

theorem Lookup_joins_without_library {W : Type} (cfg : Config) (env : Env W) (polls : Nat)
    (hash : Nat) (source symbol : String) (s : State W)
    (hjob : MPI.IsInitialized cfg = true)
    (hopen : (JIT.Lookup.tryOpen env s).1 = Res.ret 0) (k : Nat)
    (hret : (JIT.Lookup cfg env polls hash source symbol s).1 = Res.ret k) :
    ∃ new, (JIT.Lookup cfg env polls hash source symbol s).2.trace = s.trace ++ new ∧
      1 ≤ reductions new := by
  have hto : (JIT.Lookup.tryOpen env).CleanRet := by
    unfold JIT.Lookup.tryOpen
    exact cleanRet_bind (cleanRet_fstream _ _) fun _ =>
      cleanRet_ite _ (cleanRet_DLopen _ _) (cleanRet_pure _)
  obtain ⟨n0, hn0, -⟩ := hto s
  have hms : JIT.Lookup.tryOpen env s = (Res.ret 0, (JIT.Lookup.tryOpen env s).2) := by
    rw [← hopen]
  have hL : JIT.Lookup cfg env polls hash source symbol s = _ :=
    Prog.bind_of_ret hms
  obtain ⟨n1, hn1, hj⟩ := joins_Lookup_rest cfg env polls hash source symbol hjob
    (JIT.Lookup.tryOpen env s).2
  rw [hL] at hret ⊢
  refine ⟨n0 ++ n1, by rw [hn1, hn0, List.append_assoc], ?_⟩
  rw [reductions_append]
  have := hj k hret
  omega

theorem Job_events_eq {W : Type} (polls : Nat) (hash : Nat) (source symbol : String)
    (r : Job.Rank W) (new : List Event)
    (h : (JIT.Lookup r.cfg r.env polls hash source symbol r.state).2.trace
      = r.state.trace ++ new) :
    Job.events polls hash source symbol r = new := by
  simp [Job.events, h]

theorem Job_Lookup_ret {W : Type} (polls : Nat) (hash : Nat) (source symbol : String)
    (ranks : List (Job.Rank W)) (r q : Job.Rank W) (k : Nat) (hq : q ∈ ranks)
    (h : Job.Lookup polls hash source symbol ranks r = Res.ret k) :
    (JIT.Lookup r.cfg r.env polls hash source symbol r.state).1 = Res.ret k ∧
    reductions (Job.events polls hash source symbol r)
      ≤ reductions (Job.events polls hash source symbol q) := by
  unfold Job.Lookup at h
  split at h
  · cases h
  · rename_i hany
    refine ⟨h, ?_⟩
    by_contra hlt
    exact hany (List.any_eq_true.mpr ⟨q, hq, by simpa using hlt⟩)

/-- C5, as stated, fails.  Outside a job, from a start without cache files, the install
command of the build exits with status 1, and `Lookup` still returns the address 42: it
loads the file `k1` the link step left and resolves `k1` in it.  In a job whose root
meets the same failure and stays in `Call`, `Lookup` returns the address 42 on a rank 1
that finds a library `./libmjit.so` resolving `k1`: that rank enters no reduction. -/
theorem Lookup_returns_after_failed_install :
    (JIT.Lookup serialConfig (Script.installFails "k1" 42).env 0 1 "return 42;" "k1" idle).1
      = Res.ret 42 ∧
    (issued
      (JIT.Lookup serialConfig (Script.installFails "k1" 42).env 0 1 "return 42;" "k1"
        idle).2.trace).getLast?
      = some ("install -v --backup=none k1 ./libmjit.so ", 1) ∧
    Event.command "install -v --backup=none k1 ./libmjit.so " 1
      ∈ Job.events 3 1 "return 42;" "k1" failingRoot ∧
    Job.Lookup 3 1 "return 42;" "k1" [failingRoot, warmRank] failingRoot = Res.blocked ∧
    Job.Lookup 3 1 "return 42;" "k1" [failingRoot, warmRank] warmRank = Res.ret 42 := by
  decide

/-- C5, amended: in a distributed job a failed build is fatal on every rank that takes
part in it.  If a command the coordinating rank issued during `Lookup` exits with a
status that is not zero, `Lookup` does not return on the coordinating rank.  It returns
on a rank of the job only if the call of that rank returns when nothing holds it up and
enters no more reductions than the call of the coordinating rank does; every command of
such a rank exited with status zero.  When the call of the coordinating rank enters no
reduction, the failure coming before the first one, `Lookup` returns on no rank that
found no library `./libmjit.so` to load at its start. -/
theorem Lookup_in_job_returns_only_after_clean_build {W : Type} (polls : Nat) (hash : Nat)
    (source symbol : String) (ranks : List (Job.Rank W)) (root : Job.Rank W)
    (command : String) (status : Int)
    (hroot : root ∈ ranks) (hjob : MPI.IsInitialized root.cfg = true)
    (hfail : Event.command command status ∈ Job.events polls hash source symbol root)
    (hstatus : status ≠ 0) :
    (∀ k, (JIT.Lookup root.cfg root.env polls hash source symbol root.state).1 ≠ Res.ret k) ∧
    (∀ k, Job.Lookup polls hash source symbol ranks root ≠ Res.ret k) ∧
    (∀ r ∈ ranks, ∀ k, Job.Lookup polls hash source symbol ranks r = Res.ret k →
      (JIT.Lookup r.cfg r.env polls hash source symbol r.state).1 = Res.ret k ∧
      reductions (Job.events polls hash source symbol r)
        ≤ reductions (Job.events polls hash source symbol root) ∧
      (MPI.IsInitialized r.cfg = true →
        ∀ c st, Event.command c st ∈ Job.events polls hash source symbol r → st = 0)) ∧
    (reductions (Job.events polls hash source symbol root) = 0 →
      ∀ r ∈ ranks, MPI.IsInitialized r.cfg = true →
        (JIT.Lookup.tryOpen r.env r.state).1 = Res.ret 0 →
        ∀ k, Job.Lookup polls hash source symbol ranks r ≠ Res.ret k) := by
  have hown : ∀ k,
      (JIT.Lookup root.cfg root.env polls hash source symbol root.state).1 ≠ Res.ret k := by
    intro k hret
    obtain ⟨new, hnew, hclean⟩ :=
      cleanRet_Lookup root.cfg root.env polls hash source symbol hjob root.state
    rw [Job_events_eq polls hash source symbol root new hnew] at hfail
    have hc := hclean k hret _ hfail
    simp [Event.clean] at hc
    exact hstatus hc
  refine ⟨hown, fun k hk => ?_, fun r _ k hk => ?_, fun hzero r _ hrjob hopen k hk => ?_⟩
  · exact hown k (Job_Lookup_ret polls hash source symbol ranks root root k hroot hk).1
  · have h := Job_Lookup_ret polls hash source symbol ranks r root k hroot hk
    refine ⟨h.1, h.2, fun hrjob c st hc => ?_⟩
    obtain ⟨new, hnew, hclean⟩ :=
      cleanRet_Lookup r.cfg r.env polls hash source symbol hrjob r.state
    rw [Job_events_eq polls hash source symbol r new hnew] at hc
    simpa [Event.clean] using hclean k h.1 _ hc
  · have h := Job_Lookup_ret polls hash source symbol ranks r root k hroot hk
    obtain ⟨new, hnew, hone⟩ :=
      Lookup_joins_without_library r.cfg r.env polls hash source symbol r.state hrjob hopen k h.1
    have hle := h.2
    rw [Job_events_eq polls hash source symbol r new hnew, hzero] at hle
    omega

/-- C5, amended, on a job of two ranks that start without cache files: the install
command of the root exits with status 1 before any reduction; rank 1, which would return
42 if nothing held it up, stays in its first reduction, and `Lookup` returns on neither
rank. -/
theorem Lookup_in_job_returns_only_after_clean_build_witness :
    Event.command "install -v --backup=none k1 ./libmjit.so " 1
      ∈ Job.events 3 1 "return 42;" "k1" failingRoot ∧
    (JIT.Lookup otherRank.cfg otherRank.env 3 1 "return 42;" "k1" otherRank.state).1
      = Res.ret 42 ∧
    Job.Lookup 3 1 "return 42;" "k1" [failingRoot, otherRank] otherRank = Res.blocked ∧
    (∀ k, Job.Lookup 3 1 "return 42;" "k1" [failingRoot, otherRank] failingRoot ≠ Res.ret k) ∧
    (∀ k, Job.Lookup 3 1 "return 42;" "k1" [failingRoot, otherRank] otherRank ≠ Res.ret k) :=
  ⟨by decide, by decide, by decide,
   (Lookup_in_job_returns_only_after_clean_build 3 1 "return 42;" "k1"
      [failingRoot, otherRank] failingRoot "install -v --backup=none k1 ./libmjit.so " 1
      (List.mem_cons_self _ _) (by decide) (by decide) (by decide)).2.1,
   (Lookup_in_job_returns_only_after_clean_build 3 1 "return 42;" "k1"
      [failingRoot, otherRank] failingRoot "install -v --backup=none k1 ./libmjit.so " 1
      (List.mem_cons_self _ _) (by decide) (by decide) (by decide)).2.2.2 (by decide)
      otherRank (List.mem_cons_of_mem _ (List.mem_cons_self _ _)) (by decide) (by decide)⟩

/-- On the root of a job, from a start without cache files, the install command exits
with status 1 and `Lookup` does not return: it stays blocked in `Call`. -/
theorem Lookup_in_job_blocks_on_failed_install :
    (JIT.Lookup (jobConfig 0) (Script.installFails "k1" 42).env 3 1 "return 42;" "k1" idle).1
      = Res.blocked := by
  decide

/-! ## `JIT::Lookup` on a warm cache -/

/-- C8, as stated, fails: outside a job, with no library `./libmjit.so` and a loadable
file `ker` left by an earlier call, the compile command exits with status 1 and the
first `Lookup` still succeeds: it returns the address 7.  It installed no library, and
the second `Lookup` with the same arguments, from the state the first one left, writes
the source again and runs the compile command a second time. -/
theorem Lookup_compiles_again_without_library :
    (JIT.Lookup serialConfig (Script.stale "ker" 7).env 0 1 "int f();" "ker" idle).1
      = Res.ret 7 ∧
    commands
      (JIT.Lookup serialConfig (Script.stale "ker" 7).env 0 1 "int f();" "ker" idle).2.trace
      = [JIT.compileCommand serialConfig "k0000000000000001.cc" "k0000000000000001.co"] ∧
    commands
      (JIT.Lookup serialConfig (Script.stale "ker" 7).env 0 1 "int f();" "ker"
        (JIT.Lookup serialConfig (Script.stale "ker" 7).env 0 1 "int f();" "ker" idle).2).2.trace
      = [JIT.compileCommand serialConfig "k0000000000000001.cc" "k0000000000000001.co",
         JIT.compileCommand serialConfig "k0000000000000001.cc" "k0000000000000001.co"] ∧
    builds
      (JIT.Lookup serialConfig (Script.stale "ker" 7).env 0 1 "int f();" "ker"
        (JIT.Lookup serialConfig (Script.stale "ker" 7).env 0 1 "int f();" "ker" idle).2).2.trace
      = 2 := by
  decide

/-- C8, amended: a warm cache needs no compilation.  When `./libmjit.so` exists, loads,
and resolves `symbol`, `Lookup` returns exactly the address the loader resolved, and all
it does is load the library, resolve the symbol and remove the file `symbol`: it runs no
command, on any rank, in a job or not.  A second `Lookup` with the same arguments
therefore starts no build and runs no command when the first one left `./libmjit.so` in
that state. -/
theorem Lookup_warm_cache {W : Type} (cfg : Config) (env : Env W) (polls : Nat)
    (hash : Nat) (source symbol : String) (s : State W)
    (hfile : env.fstream s.world JIT.so = true)
    (hload : (env.dlopen s.world JIT.so).2 ≠ 0)
    (hsym : env.dlsym (env.dlopen s.world JIT.so).1 (env.dlopen s.world JIT.so).2 symbol ≠ 0) :
    (JIT.Lookup cfg env polls hash source symbol s).1
      = Res.ret (env.dlsym (env.dlopen s.world JIT.so).1 (env.dlopen s.world JIT.so).2 symbol) ∧
    (JIT.Lookup cfg env polls hash source symbol s).2.trace
      = s.trace ++ [Event.dlopen JIT.so (env.dlopen s.world JIT.so).2,
          Event.dlsym (env.dlopen s.world JIT.so).2 symbol
            (env.dlsym (env.dlopen s.world JIT.so).1 (env.dlopen s.world JIT.so).2 symbol),
          Event.remove symbol] ∧
    commands (JIT.Lookup cfg env polls hash source symbol s).2.trace = commands s.trace ∧
    ∀ s0 : State W, (JIT.Lookup cfg env polls hash source symbol s0).2 = s →
      commands (JIT.Lookup cfg env polls hash source symbol
          (JIT.Lookup cfg env polls hash source symbol s0).2).2.trace
        = commands (JIT.Lookup cfg env polls hash source symbol s0).2.trace ∧
      builds (JIT.Lookup cfg env polls hash source symbol
          (JIT.Lookup cfg env polls hash source symbol s0).2).2.trace
        = builds (JIT.Lookup cfg env polls hash source symbol s0).2.trace := by
  have h : JIT.Lookup cfg env polls hash source symbol s
      = (Res.ret (env.dlsym (env.dlopen s.world JIT.so).1 (env.dlopen s.world JIT.so).2 symbol),
         { s with world := env.remove (env.dlopen s.world JIT.so).1 symbol,
                  trace := s.trace ++ [Event.dlopen JIT.so (env.dlopen s.world JIT.so).2,
                    Event.dlsym (env.dlopen s.world JIT.so).2 symbol
                      (env.dlsym (env.dlopen s.world JIT.so).1 (env.dlopen s.world JIT.so).2 symbol),
                    Event.remove symbol] }) := by
    simp [JIT.Lookup, JIT.Lookup.tryOpen, JIT.Lookup.relink, Prog.bind, Prog.pure, fstream,
      JIT.DLopen, dlsym, remove, MFEM_VERIFY, hfile, hload, hsym]
  have hc : commands (JIT.Lookup cfg env polls hash source symbol s).2.trace
      = commands s.trace := by
    rw [h]
    simp [commands_append, commands]
  have hb : builds (JIT.Lookup cfg env polls hash source symbol s).2.trace
      = builds s.trace := by
    rw [h]
    simp [builds_append, builds]
  refine ⟨by rw [h], by rw [h], hc, fun s0 hs0 => ?_⟩
  rw [hs0]
  exact ⟨hc, hb⟩

/-- C8, amended, on two calls in a row: the first `Lookup` of kernel `k1` starts without
cache files and runs four commands, the last of which installs `./libmjit.so`; the
second one, from the state the first one left, finds the library, returns the same
address 42 and runs no further command. -/
theorem Lookup_warm_cache_witness :
    (commands
      (JIT.Lookup serialConfig (Script.fresh "k1" 42).env 0 1 "return 42;" "k1" idle).2.trace).length
      = 4 ∧
    (JIT.Lookup serialConfig (Script.fresh "k1" 42).env 0 1 "return 42;" "k1"
      (JIT.Lookup serialConfig (Script.fresh "k1" 42).env 0 1 "return 42;" "k1" idle).2).1
      = Res.ret 42 ∧
    commands (JIT.Lookup serialConfig (Script.fresh "k1" 42).env 0 1 "return 42;" "k1"
      (JIT.Lookup serialConfig (Script.fresh "k1" 42).env 0 1 "return 42;" "k1" idle).2).2.trace
      = commands
          (JIT.Lookup serialConfig (Script.fresh "k1" 42).env 0 1 "return 42;" "k1" idle).2.trace := by
  have h := Lookup_warm_cache serialConfig (Script.fresh "k1" 42).env 0 1 "return 42;" "k1"
    (JIT.Lookup serialConfig (Script.fresh "k1" 42).env 0 1 "return 42;" "k1" idle).2
    (by decide) (by decide) (by decide)
  exact ⟨by decide, h.1.trans (by decide), (h.2.2.2 idle rfl).1⟩

/-- C9 on rank 1 of a job, from a start without cache files: `Lookup` returns the address
42 the root built, and rank 1 ran no command. -/
theorem Lookup_runs_no_command_off_root_witness :
    MPI.Rank (jobConfig 1) ≠ 0 ∧
    (JIT.Lookup (jobConfig 1) (Script.fresh "k1" 42).env 0 1 "return 42;" "k1" idle).1
      = Res.ret 42 ∧
    commands (JIT.Lookup (jobConfig 1) (Script.fresh "k1" 42).env 0 1 "return 42;" "k1" idle).2.trace
      = [] :=
  ⟨by decide, by decide,
    (Lookup_runs_no_command_off_root (jobConfig 1) (Script.fresh "k1" 42).env 0 1 "return 42;"
      "k1" idle (by decide)).1⟩

/-! ## `Wait` and `Acknowledge` -/

theorem Ack_eq_takeWhile (OP : Int → Int → Bool) (xx : Int) (obs : List Int) :
    JIT.Ack OP xx obs =
      if (obs.takeWhile fun m => OP m xx).length < obs.length
        then some (obs.takeWhile fun m => OP m xx).length else none := by
  induction obs with
  | nil => rfl
  | cons m rest ih =>
    by_cases h : OP m xx = true
    · simp only [JIT.Ack, h, if_true, List.takeWhile_cons_of_pos, List.length_cons, ih,
        Nat.add_lt_add_iff_right]
      split <;> rfl
    · simp [JIT.Ack, h]

/-- C17: `Wait` awaits the right edge.  On every list of observations `Wait(true)` sleeps
once for each observation of the longest leading run equal to `ACK` and returns at the
observation after it, the first that differs from `ACK`; `Wait(false)` sleeps once for
each observation of the longest leading run different from `ACK` and returns at the
observation after it, the first equal to `ACK`; each is still polling when the run is
the whole list.  After `Acknowledge()` the test `IsAck()` holds. -/
theorem Wait_awaits_the_edge (obs : List Int) :
    JIT.Wait true obs =
      (if (obs.takeWhile fun m => m == JIT.ACK).length < obs.length
        then some (obs.takeWhile fun m => m == JIT.ACK).length else none) ∧
    JIT.Wait false obs =
      (if (obs.takeWhile fun m => m != JIT.ACK).length < obs.length
        then some (obs.takeWhile fun m => m != JIT.ACK).length else none) ∧
    JIT.IsAck JIT.Acknowledge = true := by
  refine ⟨?_, ?_, by decide⟩
  · simp only [JIT.Wait, if_true, JIT.AckEQ, Ack_eq_takeWhile, equal_to]
  · simp only [JIT.Wait, Bool.false_eq_true, if_false, JIT.AckNE, Ack_eq_takeWhile, not_equal_to]

/-! ## `JIT::Init` and `JIT::Child` -/

theorem natCast_ne_ACK (n : Nat) : (n : Int) ≠ JIT.ACK := by
  unfold JIT.ACK; omega

theorem Child_rank_eq {W : Type} (polls : Nat) (s : State W) (h : s.ack ≠ JIT.ACK) :
    JIT.Child.rank polls s = (Res.ret s.ack, { s with ack := JIT.ACK }) := by
  simp [JIT.Child.rank, Prog.bind, doWait_true_eq, h, JIT.Acknowledge, JIT.Write]

theorem Child_turn_eq {W : Type} (polls : Nat) (l : Life W) (h : l.proc.ack ≠ JIT.ACK) :
    JIT.Child.turn polls l =
      if l.proc.ack = 0 then { l with proc := { l.proc with ack := JIT.ACK, helper := true } }
      else { l with proc := { l.proc with ack := JIT.ACK }, exited := some EXIT_SUCCESS } := by
  unfold JIT.Child.turn
  rw [Child_rank_eq _ _ h]
  by_cases h0 : l.proc.ack = 0 <;> simp [h0]

theorem Child_turn_ack {W : Type} (polls : Nat) (l : Life W) (h : l.proc.ack ≠ JIT.ACK) :
    (JIT.Child.turn polls l).proc.ack = JIT.ACK := by
  rw [Child_turn_eq _ _ h]
  split <;> rfl

theorem Child_turn_keeps {W : Type} (polls : Nat) (l : Life W) :
    (JIT.Child.turn polls l).sys = l.sys ∧ (JIT.Child.turn polls l).handled = l.handled ∧
    (JIT.Child.turn polls l).proc.trace = l.proc.trace ∧
    (JIT.Child.turn polls l).s_mem = l.s_mem ∧ (JIT.Child.turn polls l).size = l.size ∧
    (JIT.Child.turn polls l).s_ack = l.s_ack ∧
    (JIT.Child.turn polls l).initialized = l.initialized := by
  by_cases h : l.proc.ack = JIT.ACK
  · simp [JIT.Child.turn, JIT.Child.rank, Prog.bind, doWait_true_eq, h]
  · rw [Child_turn_eq _ _ h]
    split <;> exact ⟨rfl, rfl, rfl, rfl, rfl, rfl, rfl⟩

theorem Child_keeps {W : Type} (polls : Nat) (l : Life W) :
    (JIT.Child polls l).2.sys = l.sys ∧ (JIT.Child polls l).2.handled = l.handled := by
  unfold JIT.Child
  split
  · split
    · split <;> exact ⟨rfl, rfl⟩
    · exact ⟨rfl, rfl⟩
  · exact ⟨rfl, rfl⟩

theorem Init_setup_sys {W : Type} (os : OS) (l : Life W) :
    (JIT.Init.setup os l).sys =
      l.sys ++ [Sys.mmap sizeof_int os.mmapAck, Sys.mmap os.pageSize os.mmapMem,
        Sys.store JIT.ACK] ++ JIT.Init.signals.map Sys.signal ++ [Sys.fork os.fork] := by
  simp [JIT.Init.setup, Life.call, Life.Write]

theorem Init_inform_ack {W : Type} (cfg : Config) (l : Life W) :
    (JIT.Init.inform cfg l).proc.ack = (JIT.Init.rank cfg : Int) := by
  unfold JIT.Init.inform JIT.Init.rank MPI.Rank Life.config Life.call Life.Write JIT.Write
  cases cfg.MFEM_USE_MPI <;> simp

theorem Init_inform_pid {W : Type} (cfg : Config) (l : Life W) :
    (JIT.Init.inform cfg l).pid = l.pid := by
  unfold JIT.Init.inform Life.call Life.Write
  cases cfg.MFEM_USE_MPI <;> simp

theorem Init_inform_sys {W : Type} (cfg : Config) (l : Life W) :
    (JIT.Init.inform cfg l).sys =
      l.sys ++ (if cfg.MFEM_USE_MPI then [Sys.MPI_Init] else []) ++
        [Sys.store (JIT.Init.rank cfg : Int)] := by
  unfold JIT.Init.inform JIT.Init.rank MPI.Rank Life.config Life.call Life.Write
  cases cfg.MFEM_USE_MPI <;> simp

theorem Init_inform_keeps {W : Type} (cfg : Config) (l : Life W) :
    (JIT.Init.inform cfg l).handled = l.handled ∧ (JIT.Init.inform cfg l).exited = l.exited ∧
    (JIT.Init.inform cfg l).proc.helper = l.proc.helper ∧
    (JIT.Init.inform cfg l).proc.trace = l.proc.trace ∧
    (JIT.Init.inform cfg l).s_mem = l.s_mem ∧ (JIT.Init.inform cfg l).size = l.size ∧
    (JIT.Init.inform cfg l).s_ack = l.s_ack ∧
    (JIT.Init.inform cfg l).initialized = (cfg.MFEM_USE_MPI || l.initialized) := by
  unfold JIT.Init.inform Life.call Life.Write
  cases cfg.MFEM_USE_MPI <;> simp

theorem Init_parent {W : Type} (cfg : Config) (os : OS) (polls : Nat) (l : Life W)
    (hfork : os.fork ≠ 0) :
    JIT.Init cfg os polls l =
      if 0 < os.fork ∧ os.childFirst = true then
        (Outcome.returned, JIT.Child.turn polls (JIT.Init.inform cfg (JIT.Init.setup os l)))
      else (Outcome.blocked, JIT.Init.inform cfg (JIT.Init.setup os l)) := by
  have hpid : (JIT.Init.setup os l).pid = os.fork := rfl
  have hsack : (JIT.Init.setup os l).proc.ack = JIT.ACK := rfl
  have hack := Init_inform_ack cfg (JIT.Init.setup os l)
  have hne := natCast_ne_ACK (JIT.Init.rank cfg)
  have hp := Init_inform_pid cfg (JIT.Init.setup os l)
  rw [hpid] at hp
  have hisack : JIT.IsAck ((JIT.Init.rank cfg : Nat) : Int) = false := by
    simp [JIT.IsAck, hne]
  by_cases hpos : 0 < os.fork
  · cases hfirst : os.childFirst with
    | true =>
      have hturn := Child_turn_ack polls (JIT.Init.inform cfg (JIT.Init.setup os l))
        (by rw [hack]; exact hne)
      have hchild : JIT.Init.child os polls (JIT.Init.setup os l)
          (JIT.Init.inform cfg (JIT.Init.setup os l))
          = JIT.Child.turn polls (JIT.Init.inform cfg (JIT.Init.setup os l)) := by
        simp [JIT.Init.child, hfirst, hsack, JIT.IsAck]
      simp [JIT.Init, hpid, hfork, hp, hpos, hchild, doWait_false_eq, hturn]
    | false =>
      have hchild : JIT.Init.child os polls (JIT.Init.setup os l)
          (JIT.Init.inform cfg (JIT.Init.setup os l))
          = JIT.Init.inform cfg (JIT.Init.setup os l) := by
        simp [JIT.Init.child, hfirst, hack, hisack]
      simp [JIT.Init, hpid, hfork, hp, hpos, hchild, doWait_false_eq, hack, hne]
      rw [← hp]
  · simp [JIT.Init, hpid, hfork, hp, hpos, doWait_false_eq, hack, hne]
    rw [← hp]

theorem Init_child {W : Type} (cfg : Config) (os : OS) (polls : Nat) (l : Life W)
    (hfork : os.fork = 0) :
    JIT.Init cfg os polls l = JIT.Child polls (JIT.Init.setup os l) := by
  have hpid : (JIT.Init.setup os l).pid = 0 := hfork
  simp [JIT.Init, hpid]

theorem Init_sys_handled {W : Type} (cfg : Config) (os : OS) (polls : Nat) (l : Life W) :
    (∃ post, (JIT.Init cfg os polls l).2.sys = (JIT.Init.setup os l).sys ++ post) ∧
    (JIT.Init cfg os polls l).2.handled
      = l.handled ++ JIT.Init.signals.filter Signal.catchable := by
  have hh : (JIT.Init.setup os l).handled
      = l.handled ++ JIT.Init.signals.filter Signal.catchable := rfl
  by_cases hfork : os.fork = 0
  · rw [Init_child _ _ _ _ hfork]
    exact ⟨⟨[], by simp [(Child_keeps polls _).1]⟩, by rw [(Child_keeps polls _).2, hh]⟩
  · rw [Init_parent _ _ _ _ hfork]
    split
    · refine ⟨⟨(if cfg.MFEM_USE_MPI then [Sys.MPI_Init] else []) ++
          [Sys.store (JIT.Init.rank cfg : Int)], ?_⟩, ?_⟩
      · show (JIT.Child.turn polls _).sys = _
        rw [(Child_turn_keeps polls _).1, Init_inform_sys, List.append_assoc]
      · show (JIT.Child.turn polls _).handled = _
        rw [(Child_turn_keeps polls _).2.1, (Init_inform_keeps cfg _).1, hh]
    · refine ⟨⟨(if cfg.MFEM_USE_MPI then [Sys.MPI_Init] else []) ++
          [Sys.store (JIT.Init.rank cfg : Int)], ?_⟩, ?_⟩
      · show (JIT.Init.inform cfg _).sys = _
        rw [Init_inform_sys, List.append_assoc]
      · show (JIT.Init.inform cfg _).handled = _
        rw [(Init_inform_keeps cfg _).1, hh]

theorem Root_without_MPI {W : Type} (cfg : Config) (l : Life W)
    (h : cfg.MFEM_USE_MPI = false) : MPI.Root (Life.config cfg l) = true := by
  simp [MPI.Root, MPI.Rank, Life.config, h]

/-- C11, as stated, fails: in a build without MPI, on an operating system where every call
succeeds, `Jit::Init` calls `::fork()`, which returns the pid 1234 of a child, whichever
of the two processes gets to the mailbox first; when the child does, `Init` returns with
that child in its worker loop. -/
theorem Init_forks_in_serial_build :
    Sys.fork 1234 ∈ (Jit.Init serialConfig OS.good 0 boot).2.sys ∧
    Sys.fork 1234 ∈ (Jit.Init serialConfig { OS.good with childFirst := false } 0 boot).2.sys ∧
    (Jit.Init serialConfig OS.good 0 boot).1 = Outcome.returned ∧
    (Jit.Init serialConfig OS.good 0 boot).2.proc.helper = true := by
  decide

/-- C11, amended: when no distributed job is present (a build without MPI), `Init` still
duplicates the process: `::fork()` is called whatever the state.  When it returns a
positive pid and the child tests the mailbox before the parent stores its rank, `Init`
returns with the child in its worker loop.  That helper is not used: `Call` executes
every command in-process, with `std::system`. -/
theorem Init_forks_without_a_job {W : Type} (cfg : Config) (os : OS) (polls : Nat)
    (l : Life W) (hserial : cfg.MFEM_USE_MPI = false) :
    Sys.fork os.fork ∈ (Jit.Init cfg os polls l).2.sys ∧
    (0 < os.fork → os.childFirst = true →
      (Jit.Init cfg os polls l).1 = Outcome.returned ∧
      (Jit.Init cfg os polls l).2.proc.helper = true) ∧
    ∀ (env : Env W) (command : String) (s : State W),
      JIT.Call cfg env polls command s = system env command s := by
  have hroot := Root_without_MPI cfg l hserial
  have hrank : JIT.Init.rank cfg = 0 := by simp [JIT.Init.rank, hserial]
  refine ⟨?_, fun hpos hfirst => ?_, fun env command s => ?_⟩
  · obtain ⟨post, hpost⟩ := (Init_sys_handled cfg os polls l).1
    simp only [Jit.Init, hroot, if_true]
    rw [hpost, Init_setup_sys]
    simp
  · have hfork : os.fork ≠ 0 := by omega
    have hack := Init_inform_ack cfg (JIT.Init.setup os l)
    rw [hrank] at hack
    have hne : (JIT.Init.inform cfg (JIT.Init.setup os l)).proc.ack ≠ JIT.ACK := by
      rw [hack]; decide
    simp only [Jit.Init, hroot, if_true]
    rw [Init_parent _ _ _ _ hfork, if_pos ⟨hpos, hfirst⟩, Child_turn_eq _ _ hne]
    simp [hack]
  · exact Call_serial cfg env polls command s (by simp [MPI.IsInitialized, hserial])

/-- C11, amended, on a build without MPI where `::fork()` returns the pid 77 of a child
that tests the mailbox first. -/
theorem Init_forks_without_a_job_witness :
    Sys.fork 77 ∈ (Jit.Init serialConfig { OS.good with fork := 77 } 0 boot).2.sys ∧
    (Jit.Init serialConfig { OS.good with fork := 77 } 0 boot).2.proc.helper = true :=
  ⟨(Init_forks_without_a_job serialConfig { OS.good with fork := 77 } 0 boot rfl).1,
   ((Init_forks_without_a_job serialConfig { OS.good with fork := 77 } 0 boot rfl).2.1
      (by decide) rfl).2⟩

/-- C12, as stated, fails: on rank 0 of an MPI build `::fork()` returns `-1`, and `Init`
does not abort: it calls `::MPI_Init`, stores its rank and is then blocked in
`Wait(false)`. -/
theorem Init_blocks_when_fork_fails :
    (JIT.Init (jobConfig 0) { OS.good with fork := -1 } 0 boot).1 = Outcome.blocked ∧
    (JIT.Init (jobConfig 0) { OS.good with fork := -1 } 0 boot).2.sys.drop 8
      = [Sys.fork (-1), Sys.MPI_Init, Sys.store 0] := by
  decide

/-- C12, amended: when `::fork()` fails (it returns a negative value), `Init` does not
abort.  It takes the parent branch: after the fork it calls `::MPI_Init` when MPI is
compiled in, stores its rank in the mailbox and waits for an acknowledgment; no child
exists to give it, the mailbox keeps the rank, and `Init` is still waiting after every
number of polls. -/
theorem Init_continues_as_parent_when_fork_fails {W : Type} (cfg : Config) (os : OS)
    (polls : Nat) (l : Life W) (hfail : os.fork < 0) :
    (JIT.Init cfg os polls l).1 = Outcome.blocked ∧
    (JIT.Init cfg os polls l).2.sys =
      l.sys ++ [Sys.mmap sizeof_int os.mmapAck, Sys.mmap os.pageSize os.mmapMem,
        Sys.store JIT.ACK] ++ JIT.Init.signals.map Sys.signal ++ [Sys.fork os.fork] ++
        (if cfg.MFEM_USE_MPI then [Sys.MPI_Init] else []) ++
        [Sys.store (JIT.Init.rank cfg : Int)] ∧
    (JIT.Init cfg os polls l).2.proc.ack = (JIT.Init.rank cfg : Int) ∧
    (JIT.Init cfg os polls l).2.proc.helper = l.proc.helper ∧
    (JIT.Init cfg os polls l).2.exited = l.exited := by
  have hfork : os.fork ≠ 0 := by omega
  have hpos : ¬ (0 < os.fork ∧ os.childFirst = true) := fun h => by omega
  rw [Init_parent _ _ _ _ hfork, if_neg hpos]
  refine ⟨rfl, ?_, Init_inform_ack cfg _, ?_, ?_⟩
  · show (JIT.Init.inform cfg _).sys = _
    rw [Init_inform_sys, Init_setup_sys]
  · show (JIT.Init.inform cfg _).proc.helper = _
    rw [(Init_inform_keeps cfg _).2.2.1]; rfl
  · show (JIT.Init.inform cfg _).exited = _
    rw [(Init_inform_keeps cfg _).2.1]; rfl

/-- C12, amended, on a build without MPI where `::fork()` returns `-1`. -/
theorem Init_continues_as_parent_when_fork_fails_witness :
    (JIT.Init serialConfig { OS.good with fork := -1 } 3 boot).1 = Outcome.blocked ∧
    (JIT.Init serialConfig { OS.good with fork := -1 } 3 boot).2.proc.ack = 0 :=
  ⟨(Init_continues_as_parent_when_fork_fails serialConfig { OS.good with fork := -1 } 3 boot
      (by decide)).1,
   (Init_continues_as_parent_when_fork_fails serialConfig { OS.good with fork := -1 } 3 boot
      (by decide)).2.2.1⟩

theorem Init_outcome {W : Type} (cfg : Config) (os : OS) (polls : Nat) (l : Life W) :
    (JIT.Init cfg os polls l).1
      = if 0 < os.fork ∧ os.childFirst = true then Outcome.returned else Outcome.blocked := by
  by_cases hfork : os.fork = 0
  · have hpos : ¬ (0 < os.fork ∧ os.childFirst = true) := fun h => by omega
    rw [Init_child _ _ _ _ hfork, if_neg hpos]
    have hack : (JIT.Init.setup os l).proc.ack = JIT.ACK := rfl
    simp [JIT.Child, JIT.IsAck, hack, JIT.Child.rank, Prog.bind, doWait_true_eq]
  · rw [Init_parent _ _ _ _ hfork]
    split <;> rfl

theorem Init_s_mem {W : Type} (cfg : Config) (os : OS) (polls : Nat) (l : Life W) :
    (JIT.Init cfg os polls l).2.s_mem = os.mmapMem := by
  by_cases hfork : os.fork = 0
  · rw [Init_child _ _ _ _ hfork]
    have hack : (JIT.Init.setup os l).proc.ack = JIT.ACK := rfl
    simp [JIT.Child, JIT.IsAck, hack, JIT.Child.rank, Prog.bind, doWait_true_eq]
    rfl
  · rw [Init_parent _ _ _ _ hfork]
    split
    · show (JIT.Child.turn polls _).s_mem = _
      rw [(Child_turn_keeps polls _).2.2.2.1, (Init_inform_keeps cfg _).2.2.2.2.1]; rfl
    · show (JIT.Init.inform cfg _).s_mem = _
      rw [(Init_inform_keeps cfg _).2.2.2.2.1]; rfl

/-- C13, as stated, fails: the mapping of the command buffer fails (`::mmap` returns
`MAP_FAILED`), and `Init` does not abort: it keeps `MAP_FAILED` as the buffer, stores
`ACK`, forks and returns. -/
theorem Init_returns_when_buffer_mapping_fails :
    (JIT.Init (jobConfig 0) { OS.good with mmapMem := MAP_FAILED } 0 boot).1
      = Outcome.returned ∧
    (JIT.Init (jobConfig 0) { OS.good with mmapMem := MAP_FAILED } 0 boot).2.s_mem
      = MAP_FAILED ∧
    Sys.store JIT.ACK ∈ (JIT.Init (jobConfig 0) { OS.good with mmapMem := MAP_FAILED } 0 boot).2.sys ∧
    Sys.fork 1234 ∈ (JIT.Init (jobConfig 0) { OS.good with mmapMem := MAP_FAILED } 0 boot).2.sys := by
  decide

/-- C13, amended: `Init` checks neither mapping.  With a mailbox that is mapped, whatever
address `m` the mapping of the command buffer returns, `MAP_FAILED` included, `Init`
keeps `m` as the buffer, goes on to store `ACK`, to make its five calls of `::signal`
and to fork, and ends as it does for any other address. -/
theorem Init_does_not_check_the_buffer_mapping {W : Type} (cfg : Config) (os : OS)
    (polls : Nat) (l : Life W) (m : Nat) (_hmailbox : os.mmapAck ≠ MAP_FAILED) :
    (JIT.Init cfg { os with mmapMem := m } polls l).1 = (JIT.Init cfg os polls l).1 ∧
    (JIT.Init cfg { os with mmapMem := m } polls l).2.s_mem = m ∧
    ∃ post, (JIT.Init cfg { os with mmapMem := m } polls l).2.sys =
      l.sys ++ [Sys.mmap sizeof_int os.mmapAck, Sys.mmap os.pageSize m, Sys.store JIT.ACK] ++
        JIT.Init.signals.map Sys.signal ++ [Sys.fork os.fork] ++ post := by
  refine ⟨by rw [Init_outcome, Init_outcome], Init_s_mem cfg _ polls l, ?_⟩
  obtain ⟨post, hpost⟩ := (Init_sys_handled cfg { os with mmapMem := m } polls l).1
  exact ⟨post, by rw [hpost, Init_setup_sys]⟩

/-- C13, amended, on rank 2 of a job whose buffer mapping fails: `Init` returns as it
does when the mapping succeeds, with `MAP_FAILED` as the buffer. -/
theorem Init_does_not_check_the_buffer_mapping_witness :
    (JIT.Init (jobConfig 2) { OS.good with mmapMem := MAP_FAILED } 0 boot).1
      = (JIT.Init (jobConfig 2) OS.good 0 boot).1 ∧
    (JIT.Init (jobConfig 2) { OS.good with mmapMem := MAP_FAILED } 0 boot).2.s_mem
      = MAP_FAILED :=
  ⟨(Init_does_not_check_the_buffer_mapping (jobConfig 2) OS.good 0 boot MAP_FAILED
      (by decide)).1,
   (Init_does_not_check_the_buffer_mapping (jobConfig 2) OS.good 0 boot MAP_FAILED
      (by decide)).2.1⟩

/-! ## `JIT::Handler` -/

theorem Handler_reap_eq (ws : List Int) :
    JIT.Handler.reap ws =
      ((ws.dropWhile fun p => decide (0 < p)).headD (-1),
       (ws.takeWhile fun p => decide (0 < p)).map Sys.wait ++
         [Sys.wait ((ws.dropWhile fun p => decide (0 < p)).headD (-1))]) := by
  induction ws with
  | nil => rfl
  | cons p rest ih =>
    by_cases h : 0 < p
    · simp [JIT.Handler.reap, h, ih]
    · simp [JIT.Handler.reap, h]

/-- C15, as stated, fails: after `Init` the handler is not installed for `SIGTERM`, the
terminate signal; `Init` makes no call of `::signal` for it. -/
theorem Init_installs_no_handler_for_SIGTERM :
    Signal.SIGTERM ∉ (JIT.Init (jobConfig 0) OS.good 0 boot).2.handled ∧
    Sys.signal Signal.SIGTERM ∉ (JIT.Init (jobConfig 0) OS.good 0 boot).2.sys := by
  decide

/-- C15, amended: for each of the interrupt, quit, abort and floating-point-exception
signals (`SIGINT`, `SIGQUIT`, `SIGABRT`, `SIGFPE`), and for no other signal, `Init`
installs the teardown handler.  The handler run in the parent (`Pid()` is not 0) sends
`SIGKILL` to the helper, calls `::wait` as long as it returns the pid of a reaped child
and once more, and exits with `EXIT_FAILURE`. -/
theorem Init_installs_and_Handler_tears_down {W : Type} (cfg : Config) (os : OS)
    (polls : Nat) (l : Life W) (ndebug : Bool) (signum : Signal) (t : Life W)
    (hparent : t.pid ≠ 0) :
    (JIT.Init cfg os polls l).2.handled =
      l.handled ++ [Signal.SIGINT, Signal.SIGQUIT, Signal.SIGABRT, Signal.SIGFPE] ∧
    (JIT.Handler os ndebug signum t).1 = Outcome.exited EXIT_FAILURE ∧
    (JIT.Handler os ndebug signum t).2.sys =
      t.sys ++ [Sys.kill t.pid Signal.SIGKILL] ++
        (os.wait.takeWhile fun p => decide (0 < p)).map Sys.wait ++
        [Sys.wait ((os.wait.dropWhile fun p => decide (0 < p)).headD (-1)),
         Sys.exit EXIT_FAILURE] := by
  refine ⟨(Init_sys_handled cfg os polls l).2, ?_, ?_⟩
  · simp [JIT.Handler, hparent]
  · simp [JIT.Handler, hparent, Life.call, Handler_reap_eq]

/-- C15, amended, on `SIGINT` after `Init` on rank 0: the handler is installed for the
four signals and for none else; run in the parent, it kills the helper 1234, reaps it,
finds no further child and exits with status 1. -/
theorem Init_installs_and_Handler_tears_down_witness :
    (JIT.Init (jobConfig 0) OS.good 0 boot).2.handled
      = [Signal.SIGINT, Signal.SIGQUIT, Signal.SIGABRT, Signal.SIGFPE] ∧
    (JIT.Handler OS.good false Signal.SIGINT (JIT.Init (jobConfig 0) OS.good 0 boot).2).1
      = Outcome.exited 1 ∧
    (JIT.Handler OS.good false Signal.SIGINT (JIT.Init (jobConfig 0) OS.good 0 boot).2).2.sys.drop 11
      = [Sys.kill 1234 Signal.SIGKILL, Sys.wait 1234, Sys.wait (-1), Sys.exit 1] := by
  have h := Init_installs_and_Handler_tears_down (jobConfig 0) OS.good 0 boot false
    Signal.SIGINT (JIT.Init (jobConfig 0) OS.good 0 boot).2 (by decide)
  refine ⟨h.1, h.2.1, ?_⟩
  rw [h.2.2]
  decide

/-! ## The length of a command -/

theorem utf8ByteSize_go_replicate (n : Nat) :
    String.utf8ByteSize.go (List.replicate n 'a') = n := by
  induction n with
  | zero => rfl
  | succ k ih =>
    rw [List.replicate_succ, String.utf8ByteSize.go, ih]
    have : Char.utf8Size 'a' = 1 := by decide
    rw [this]

theorem longCommand_size : longCommand.utf8ByteSize = 4096 := by
  unfold longCommand
  show String.utf8ByteSize.go (List.replicate 4096 'a') = 4096
  exact utf8ByteSize_go_replicate 4096

/-- C16, as stated, fails: on the root of a job whose buffer is a page of 4096 bytes, `Call`
rejects a command of 4096 bytes: it aborts with the command length error and leaves the
buffer and the mailbox as they were. -/
theorem Call_rejects_command_of_a_page :
    JIT.Call (jobConfig 0) (Script.always 0).env 0 longCommand idle
      = (Res.abort "[JIT] Command length error!", idle) :=
  Call_job_too_long (jobConfig 0) (Script.always 0).env 0 longCommand idle rfl rfl
    (by rw [longCommand_size]; decide)

/-- C16, amended: the command channel carries a command that, with its terminating NUL,
is shorter than the buffer.  In distributed mode, on the root with the helper in its
worker loop, when `1 + strlen(command) < Size()` `Call` copies the complete command
into the buffer and the helper runs exactly that command; otherwise `Call` aborts with
the command length error and copies nothing. -/
theorem Call_carries_commands_shorter_than_the_buffer {W : Type} (cfg : Config) (env : Env W)
    (polls : Nat) (command : String) (s : State W)
    (hinit : MPI.IsInitialized cfg = true) (hroot : MPI.Root cfg = true)
    (hhelper : s.helper = true) :
    (1 + command.utf8ByteSize < cfg.size →
      (JIT.Call cfg env polls command s).2.mem = command ∧
      (JIT.Call cfg env polls command s).2.trace
        = s.trace ++ [Event.command command (env.system s.world command).2]) ∧
    (¬ 1 + command.utf8ByteSize < cfg.size →
      JIT.Call cfg env polls command s = (Res.abort "[JIT] Command length error!", s)) := by
  refine ⟨fun hlen => ?_, fun hlen => Call_job_too_long cfg env polls command s hinit hroot hlen⟩
  by_cases hst : (env.system s.world command).2 = 0
  · rw [Call_job_success cfg env polls command s hinit hroot hlen hhelper hst, hst]
    exact ⟨rfl, rfl⟩
  · rw [Call_job_failure cfg env polls command s hinit hroot hlen hhelper hst]
    exact ⟨rfl, rfl⟩

/-- C16, amended, at a short command on the root of a job: the buffer holds the command
and the helper ran it. -/
theorem Call_carries_commands_shorter_than_the_buffer_witness :
    (JIT.Call (jobConfig 0) (Script.always 0).env 0 "ar -rv libmjit.a k1.co " idle).2.mem
      = "ar -rv libmjit.a k1.co " ∧
    (JIT.Call (jobConfig 0) (Script.always 0).env 0 "ar -rv libmjit.a k1.co " idle).2.trace
      = [Event.command "ar -rv libmjit.a k1.co " 0] :=
  (Call_carries_commands_shorter_than_the_buffer (jobConfig 0) (Script.always 0).env 0
    "ar -rv libmjit.a k1.co " idle rfl rfl rfl).1 (by decide)

/-! ## `JIT::Finalize` and the end of the helper -/

theorem Child_iteration_of_EXIT {W : Type} (env : Env W) (polls : Nat) (s : State W)
    (h : s.ack = JIT.EXIT) : JIT.Child.iteration env polls s = (Res.ret false, s) := by
  have hne : ¬ (JIT.EXIT = JIT.ACK) := by decide
  have hcall : JIT.IsCall JIT.EXIT = false := by decide
  have hexit : JIT.IsExit JIT.EXIT = true := by decide
  simp [JIT.Child.iteration, JIT.Child.pass, Prog.bind, Prog.pure, doWait_true_eq, h, hne,
    hcall, hexit]

theorem helperTurn_of_EXIT {W : Type} (env : Env W) (polls : Nat) (s : State W)
    (h : s.ack = JIT.EXIT) :
    JIT.helperTurn env polls s = (Res.ret (), { s with helper := false }) := by
  cases hh : s.helper with
  | true => simp [JIT.helperTurn, hh, Child_iteration_of_EXIT env polls s h]
  | false =>
    simp only [JIT.helperTurn, hh, Bool.false_eq_true, if_false]
    rw [← hh]

theorem Life_helperTurn_of_EXIT {W : Type} (env : Env W) (polls : Nat) (l : Life W)
    (h : l.proc.ack = JIT.EXIT) :
    Life.helperTurn env polls l =
      { l with proc := { l.proc with helper := false },
               exited := if l.proc.helper then some EXIT_SUCCESS else l.exited } := by
  unfold Life.helperTurn
  rw [helperTurn_of_EXIT env polls l.proc h]
  cases hh : l.proc.helper <;> simp [hh]

theorem Finalize_of_ACK {W : Type} (os : OS) (env : Env W) (polls : Nat) (l : Life W)
    (h : l.proc.ack = JIT.ACK) :
    JIT.Finalize os env polls l =
      (let status := JIT.Finalize.status os
          { l with exited := if l.proc.helper then some EXIT_SUCCESS else l.exited }
       let p : State W := { l.proc with ack := JIT.EXIT, helper := false }
       let e := if l.proc.helper then some EXIT_SUCCESS else l.exited
       if status = 0 then
         if os.munmap l.s_mem l.size ≠ 0 then
           (Outcome.aborted "[JIT] Finalize memory error!",
            { l with proc := p, exited := e,
                     sys := l.sys ++ [Sys.store JIT.EXIT, Sys.waitpid status,
                       Sys.munmap l.s_mem l.size (os.munmap l.s_mem l.size)] })
         else if os.munmap l.s_ack sizeof_int ≠ 0 then
           (Outcome.aborted "[JIT] Finalize memory error!",
            { l with proc := p, exited := e,
                     sys := l.sys ++ [Sys.store JIT.EXIT, Sys.waitpid status,
                       Sys.munmap l.s_mem l.size (os.munmap l.s_mem l.size),
                       Sys.munmap l.s_ack sizeof_int (os.munmap l.s_ack sizeof_int)] })
         else
           (Outcome.returned,
            { l with proc := p, exited := e,
                     sys := l.sys ++ [Sys.store JIT.EXIT, Sys.waitpid status,
                       Sys.munmap l.s_mem l.size 0, Sys.munmap l.s_ack sizeof_int 0] })
       else
         (Outcome.aborted "[JIT] Error with the compiler thread",
          { l with proc := p, exited := e,
                   sys := l.sys ++ [Sys.store JIT.EXIT, Sys.waitpid status] })) := by
  have hack : JIT.IsAck l.proc.ack = true := by rw [h]; decide
  unfold JIT.Finalize
  rw [if_pos hack, doSend_eq]
  simp only [Life.call]
  rw [Life_helperTurn_of_EXIT env polls _ rfl]
  generalize hst : JIT.Finalize.status os
    { l with exited := if l.proc.helper then some EXIT_SUCCESS else l.exited } = status
  have hst' : JIT.Finalize.status os
      { proc := { l.proc with ack := JIT.EXIT, helper := false },
        initialized := l.initialized, pid := l.pid, size := l.size, s_ack := l.s_ack,
        s_mem := l.s_mem, handled := l.handled,
        exited := if l.proc.helper then some EXIT_SUCCESS else l.exited,
        sys := l.sys ++ [Sys.store JIT.EXIT] } = status := by
    rw [← hst]; rfl
  by_cases h0 : status = 0
  · by_cases h1 : os.munmap l.s_mem l.size = 0
    · by_cases h2 : os.munmap l.s_ack sizeof_int = 0
      · simp [JIT.Write, hst', h0, h1, h2]
      · simp [JIT.Write, hst', h0, h1, h2]
    · simp [JIT.Write, hst', h0, h1]
  · simp [JIT.Write, hst', h0]

/-- C14: `Finalize` fails exactly on a bad shutdown.  With a mailbox that is not `ACK`
on entry it aborts at once.  Otherwise it stores `EXIT`, which stays in the mailbox,
and reaps a status: it aborts when the status is not zero, it aborts when the release
of either shared region fails, and in every other case it returns, after the release
of the buffer and of the mailbox. -/
theorem Finalize_fails_exactly_on_bad_shutdown {W : Type} (os : OS) (env : Env W)
    (polls : Nat) (l : Life W) :
    (l.proc.ack ≠ JIT.ACK →
      JIT.Finalize os env polls l
        = (Outcome.aborted "[JIT] Finalize acknowledgment error!", l)) ∧
    (l.proc.ack = JIT.ACK → ∃ status rest,
      (JIT.Finalize os env polls l).2.sys
        = l.sys ++ Sys.store JIT.EXIT :: Sys.waitpid status :: rest ∧
      (JIT.Finalize os env polls l).2.proc.ack = JIT.EXIT ∧
      (JIT.Finalize os env polls l).1 =
        (if status ≠ 0 then Outcome.aborted "[JIT] Error with the compiler thread"
         else if os.munmap l.s_mem l.size ≠ 0 ∨ os.munmap l.s_ack sizeof_int ≠ 0
           then Outcome.aborted "[JIT] Finalize memory error!"
         else Outcome.returned) ∧
      ((JIT.Finalize os env polls l).1 = Outcome.returned →
        rest = [Sys.munmap l.s_mem l.size 0, Sys.munmap l.s_ack sizeof_int 0])) := by
  constructor
  · intro h
    have hack : JIT.IsAck l.proc.ack = false := by simp [JIT.IsAck, h]
    simp [JIT.Finalize, hack]
  · intro h
    rw [Finalize_of_ACK os env polls l h]
    generalize JIT.Finalize.status os
      { l with exited := if l.proc.helper then some EXIT_SUCCESS else l.exited } = status
    by_cases h0 : status = 0
    · by_cases h1 : os.munmap l.s_mem l.size = 0
      · by_cases h2 : os.munmap l.s_ack sizeof_int = 0
        · exact ⟨status, _, by simp [h0, h1, h2], by simp [h0, h1, h2], by simp [h0, h1, h2],
            fun _ => rfl⟩
        · exact ⟨status, [Sys.munmap l.s_mem l.size (os.munmap l.s_mem l.size),
            Sys.munmap l.s_ack sizeof_int (os.munmap l.s_ack sizeof_int)],
            by simp [h0, h1, h2], by simp [h0, h1, h2], by simp [h0, h1, h2],
            by simp [h0, h1, h2]⟩
      · exact ⟨status, [Sys.munmap l.s_mem l.size (os.munmap l.s_mem l.size)],
          by simp [h0, h1], by simp [h0, h1], by simp [h0, h1], by simp [h0, h1]⟩
    · exact ⟨status, [], by simp [h0], by simp [h0], by simp [h0], by simp [h0]⟩

theorem digitChar_hex (k : Nat) (hk : k < 16) :
    isLowerHex (Nat.digitChar k) = true ∧ hexValue (Nat.digitChar k) = k := by
  interval_cases k <;> decide

theorem toDigitsCore_acc (f : Nat) : ∀ (n : Nat) (ds : List Char),
    Nat.toDigitsCore 16 f n ds = Nat.toDigitsCore 16 f n [] ++ ds := by
  induction f with
  | zero => intro n ds; simp [Nat.toDigitsCore]
  | succ f ih =>
    intro n ds
    simp only [Nat.toDigitsCore]
    by_cases h : n / 16 = 0
    · simp [h]
    · simp only [h, if_false]
      rw [ih (n / 16) (Nat.digitChar (n % 16) :: ds), ih (n / 16) [Nat.digitChar (n % 16)]]
      simp

theorem hexNumber_append (xs : List Char) (c : Char) :
    hexNumber (xs ++ [c]) = 16 * hexNumber xs + hexValue c := by
  simp [hexNumber, List.foldl_append]

theorem hexNumber_toDigitsCore (f : Nat) : ∀ n : Nat, n < f →
    hexNumber (Nat.toDigitsCore 16 f n []) = n := by
  induction f with
  | zero => intro n h; omega
  | succ f ih =>
    intro n hn
    simp only [Nat.toDigitsCore]
    have hd := (digitChar_hex (n % 16) (Nat.mod_lt _ (by decide))).2
    by_cases h : n / 16 = 0
    · simp only [h, if_true]
      have : hexNumber [Nat.digitChar (n % 16)] = hexValue (Nat.digitChar (n % 16)) := by
        simp [hexNumber]
      rw [this, hd]
      omega
    · simp only [h, if_false]
      rw [toDigitsCore_acc f (n / 16) [Nat.digitChar (n % 16)], hexNumber_append, hd,
        ih (n / 16) (by omega)]
      omega

theorem isLowerHex_toDigitsCore (f : Nat) : ∀ n : Nat,
    ∀ c ∈ Nat.toDigitsCore 16 f n [], isLowerHex c = true := by
  induction f with
  | zero => intro n c hc; simp [Nat.toDigitsCore] at hc
  | succ f ih =>
    intro n c hc
    simp only [Nat.toDigitsCore] at hc
    have hd := (digitChar_hex (n % 16) (Nat.mod_lt _ (by decide))).1
    by_cases h : n / 16 = 0
    · simp only [h, if_true, List.mem_singleton] at hc
      rw [hc]; exact hd
    · simp only [h, if_false] at hc
      rw [toDigitsCore_acc f (n / 16) [Nat.digitChar (n % 16)]] at hc
      rcases List.mem_append.mp hc with hc | hc
      · exact ih _ c hc
      · rw [List.mem_singleton.mp hc]; exact hd

theorem hexNumber_zeros (k : Nat) (xs : List Char) :
    hexNumber (List.replicate k '0' ++ xs) = hexNumber xs := by
  induction k with
  | zero => simp
  | succ k ih =>
    have h0 : hexValue '0' = 0 := by decide
    simp only [hexNumber, List.replicate_succ, List.cons_append, List.foldl_cons, h0] at ih ⊢
    exact ih

theorem toDigits_length (n : Nat) (hn : n < 2 ^ 64) : (Nat.toDigits 16 n).length ≤ 16 :=
  Nat.toDigitsCore_length 16 (by decide) (n + 1) n 16 (by norm_num at hn ⊢; omega) (by decide)


theorem FileNameFromHash64_digits (h : Nat) (hh : h < 2 ^ 64) :
    ∃ ds : List Char, ds.length = 16 ∧ (∀ c ∈ ds, isLowerHex c = true) ∧
      hexNumber ds = h ∧
      ∀ ext : String, JIT.FileNameFromHash64 h ext = "k" ++ String.mk ds ++ ext := by
  have hmod : h % 2 ^ 64 = h := Nat.mod_eq_of_lt hh
  refine ⟨List.replicate (16 - (Nat.toDigits 16 h).length) '0' ++ Nat.toDigits 16 h,
    ?_, ?_, ?_, ?_⟩
  · have := toDigits_length h hh
    simp only [List.length_append, List.length_replicate]
    omega
  · intro c hc
    rcases List.mem_append.mp hc with hc | hc
    · rw [(List.mem_replicate.mp hc).2]; decide
    · exact isLowerHex_toDigitsCore (h + 1) h c hc
  · rw [hexNumber_zeros]
    exact hexNumber_toDigitsCore (h + 1) h (Nat.lt_succ_self h)
  · intro ext
    simp only [JIT.FileNameFromHash64, hmod]

theorem FileNameFromHash64_inj (h h2 : Nat) (ext ext2 : String) (hh : h < 2 ^ 64)
    (hh2 : h2 < 2 ^ 64)
    (heq : JIT.FileNameFromHash64 h ext = JIT.FileNameFromHash64 h2 ext2) :
    h = h2 ∧ ext = ext2 := by
  obtain ⟨ds, hlen, _, hval, hname⟩ := FileNameFromHash64_digits h hh
  obtain ⟨ds2, hlen2, _, hval2, hname2⟩ := FileNameFromHash64_digits h2 hh2
  rw [hname ext, hname2 ext2] at heq
  have hdata : ds ++ ext.data = ds2 ++ ext2.data := by
    have := congrArg String.data heq
    simpa using this
  have hinj := List.append_inj hdata (by rw [hlen, hlen2])
  refine ⟨?_, String.ext hinj.2⟩
  rw [← hval, ← hval2, hinj.1]

/-- C19: file names are a faithful encoding of the hash.  For every 64-bit hash `h` and
extension `ext`, `FileNameFromHash64(h, ext)` is `'k'`, then exactly 16 lowercase
hexadecimal digits whose value is `h`, then `ext`; two names are equal only for equal
hashes and equal extensions, so that distinct hashes never share an input-file or an
object-file name; and the input name and the object name of one hash differ. -/
theorem FileNameFromHash64_encodes_the_hash (h : Nat) (ext : String) (hh : h < 2 ^ 64) :
    (∃ ds : List Char, ds.length = 16 ∧ (∀ c ∈ ds, isLowerHex c = true) ∧
      hexNumber ds = h ∧ JIT.FileNameFromHash64 h ext = "k" ++ String.mk ds ++ ext) ∧
    (∀ (h2 : Nat) (ext2 : String), h2 < 2 ^ 64 →
      (JIT.FileNameFromHash64 h ext = JIT.FileNameFromHash64 h2 ext2 ↔
        h = h2 ∧ ext = ext2)) ∧
    JIT.FileNameFromHash64 h ".cc" ≠ JIT.FileNameFromHash64 h ".co" := by
  refine ⟨?_, ?_, ?_⟩
  · obtain ⟨ds, hlen, hhex, hval, hname⟩ := FileNameFromHash64_digits h hh
    exact ⟨ds, hlen, hhex, hval, hname ext⟩
  · intro h2 ext2 hh2
    constructor
    · exact FileNameFromHash64_inj h h2 ext ext2 hh hh2
    · rintro ⟨rfl, rfl⟩; rfl
  · intro heq
    exact absurd (FileNameFromHash64_inj h h ".cc" ".co" hh hh heq).2 (by decide)

/-- C19 on the hash `0x1`: its input file is `k0000000000000001.cc`, which is neither
the input file of the hash `0x2` nor its own object file. -/
theorem FileNameFromHash64_encodes_the_hash_witness :
    JIT.FileNameFromHash64 1 ".cc" = "k0000000000000001.cc" ∧
    JIT.FileNameFromHash64 1 ".cc" ≠ JIT.FileNameFromHash64 2 ".cc" ∧
    JIT.FileNameFromHash64 1 ".cc" ≠ JIT.FileNameFromHash64 1 ".co" := by
  have h := FileNameFromHash64_encodes_the_hash 1 ".cc" (by decide)
  refine ⟨by decide, ?_, h.2.2⟩
  intro heq
  exact absurd ((h.2.1 2 ".cc" (by decide)).mp heq).1 (by decide)

/-! ## The order of a successful build -/

theorem emits_call_then {W : Type} (cfg : Config) (env : Env W) (polls : Nat)
    (command : String) (rest : Prog W Int) (tail : List Event)
    (hrest : rest.Emits fun r n => r = Res.ret EXIT_SUCCESS → n = tail) :
    (Prog.bind (JIT.Call cfg env polls command) fun st =>
        if intToBool st then Prog.pure EXIT_FAILURE else rest).Emits
      fun r n => r = Res.ret EXIT_SUCCESS → n = Event.command command 0 :: tail := by
  refine Prog.Emits.bind (emits_Call cfg env polls command)
    (R := fun st r n => (st ≠ 0 ∧ r = Res.ret EXIT_FAILURE) ∨
      (st = 0 ∧ (r = Res.ret EXIT_SUCCESS → n = tail))) ?_ ?_ ?_ ?_
  · intro st
    by_cases h : st = 0
    · have hb : intToBool st = false := by simp [intToBool, h]
      rw [hb]
      exact hrest.mono fun r n q => Or.inr ⟨h, q⟩
    · have hb : intToBool st = true := by simp [intToBool, h]
      rw [hb]
      exact (emits_pure EXIT_FAILURE).mono fun r n q => Or.inl ⟨h, q.1⟩
  · rintro st n1 r n2 (⟨st', hret, hn1, -⟩ | ⟨hnot, -⟩) q2 hr
    · cases hret
      subst hn1
      rcases q2 with ⟨-, h⟩ | ⟨rfl, h⟩
      · rw [h] at hr; exact absurd hr (by simp [EXIT_SUCCESS, EXIT_FAILURE])
      · rw [h hr]; rfl
    · exact absurd rfl (hnot st)
  · intro msg n1 _ h; cases h
  · intro n1 _ h; cases h

theorem emits_event_then {W α : Type} {m : Prog W α} {rest : α → Prog W Int} (e : Event)
    (tail : List Event) (hm : m.Emits fun r n => (∃ a, r = Res.ret a) ∧ n = [e])
    (hrest : ∀ a, (rest a).Emits fun r n => r = Res.ret EXIT_SUCCESS → n = tail) :
    (Prog.bind m rest).Emits fun r n => r = Res.ret EXIT_SUCCESS → n = e :: tail := by
  refine Prog.Emits.bind hm hrest ?_ ?_ ?_
  · rintro a n1 r n2 ⟨-, rfl⟩ q hr
    rw [q hr]; rfl
  · intro msg n1 _ h; cases h
  · intro n1 _ h; cases h

theorem emits_RootCompile_success {W : Type} (cfg : Config) (env : Env W) (polls : Nat)
    (hash : Nat) (source symbol : String) :
    (JIT.RootCompile cfg env polls hash source symbol).Emits fun r n =>
      r = Res.ret EXIT_SUCCESS → n = JIT.rootEvents cfg hash source symbol := by
  simp only [JIT.RootCompile]
  refine Prog.Emits.bind (emits_ofstream env _)
    (R := fun good r n => r = Res.ret EXIT_SUCCESS →
      good = true ∧ n = (JIT.rootEvents cfg hash source symbol).tail)
    (fun good => ?_) ?_ ?_ ?_
  · refine Prog.Emits.bind (emits_verify good _)
      (R := fun _ r n => r = Res.ret EXIT_SUCCESS →
        n = (JIT.rootEvents cfg hash source symbol).tail) (fun _ => ?_) ?_ ?_ ?_
    · refine emits_event_then _ _ ((emits_write env _ _).mono ?_) fun _ => ?_
      · rintro r n ⟨rfl, rfl⟩; exact ⟨⟨_, rfl⟩, rfl⟩
      refine emits_call_then cfg env polls _ _ _ ?_
      refine emits_event_then _ _ ((emits_remove env _).mono ?_) fun _ => ?_
      · rintro r n ⟨rfl, rfl⟩; exact ⟨⟨_, rfl⟩, rfl⟩
      refine emits_call_then cfg env polls _ _ _ ?_
      refine emits_event_then _ _ ((emits_remove env _).mono ?_) fun _ => ?_
      · rintro r n ⟨rfl, rfl⟩; exact ⟨⟨_, rfl⟩, rfl⟩
      refine emits_call_then cfg env polls _ _ _ ?_
      refine emits_call_then cfg env polls _ _ [] ?_
      exact (emits_pure EXIT_SUCCESS).mono fun r n q _ => q.2
    · rintro a n1 r n2 ⟨rfl, h⟩ q hr
      rcases h with ⟨-, hg⟩ | ⟨h, -⟩
      · exact ⟨hg, by simpa using q hr⟩
      · cases h
    · intro msg n1 _ h; cases h
    · intro n1 _ h; cases h
  · rintro good n1 r n2 ⟨g, hg, rfl⟩ q hr
    cases hg
    obtain ⟨rfl, hn⟩ := q hr
    rw [hn]; rfl
  · rintro msg n1 ⟨g, h, -⟩; cases h
  · rintro n1 ⟨g, h, -⟩; cases h

theorem runs_bind {W α β : Type} (ready : State W → Prop) {m : Prog W α} {f : α → Prog W β}
    (a : α) {b : β}
    (hm : ∀ s, ready s → ∃ s2, m s = (Res.ret a, s2) ∧ ready s2)
    (hf : ∀ s, ready s → ∃ s2, f a s = (Res.ret b, s2) ∧ ready s2) :
    ∀ s, ready s → ∃ s2, Prog.bind m f s = (Res.ret b, s2) ∧ ready s2 := by
  intro s hs
  obtain ⟨s1, h1, r1⟩ := hm s hs
  obtain ⟨s2, h2, r2⟩ := hf s1 r1
  exact ⟨s2, by simp [Prog.bind, h1, h2], r2⟩

theorem Call_runs {W : Type} (cfg : Config) (env : Env W) (polls : Nat) (command : String)
    (hroot : MPI.Root cfg = true)
    (hfit : MPI.IsInitialized cfg = true → 1 + command.utf8ByteSize < cfg.size)
    (hsys : ∀ w c, (env.system w c).2 = 0) :
    ∀ s, JIT.Ready cfg s →
      ∃ s2, JIT.Call cfg env polls command s = (Res.ret 0, s2) ∧ JIT.Ready cfg s2 := by
  intro s hs
  cases hinit : MPI.IsInitialized cfg with
  | false =>
    rw [Call_serial _ _ _ _ _ hinit]
    refine ⟨(system env command s).2, ?_, Or.inl hinit⟩
    simp [system, hsys]
  | true =>
    have hhelper : s.helper = true := by
      rcases hs with h | h
      · rw [hinit] at h; cases h
      · exact h
    rw [Call_job_success _ _ _ _ _ hinit hroot (hfit hinit) hhelper (hsys _ _)]
    exact ⟨_, rfl, Or.inr hhelper⟩

theorem runs_call_then {W : Type} (cfg : Config) (env : Env W) (polls : Nat)
    (command : String) (rest : Prog W Int) (hroot : MPI.Root cfg = true)
    (hfit : MPI.IsInitialized cfg = true → 1 + command.utf8ByteSize < cfg.size)
    (hsys : ∀ w c, (env.system w c).2 = 0)
    (hrest : ∀ s, JIT.Ready cfg s →
      ∃ s2, rest s = (Res.ret EXIT_SUCCESS, s2) ∧ JIT.Ready cfg s2) :
    ∀ s, JIT.Ready cfg s →
      ∃ s2, (Prog.bind (JIT.Call cfg env polls command) fun st =>
          if intToBool st then Prog.pure EXIT_FAILURE else rest) s
        = (Res.ret EXIT_SUCCESS, s2) ∧ JIT.Ready cfg s2 := by
  refine runs_bind (JIT.Ready cfg) 0 (Call_runs cfg env polls command hroot hfit hsys) ?_
  intro s hs
  have hb : intToBool 0 = false := by decide
  simpa [hb] using hrest s hs

theorem RootCompile_runs {W : Type} (cfg : Config) (env : Env W) (polls : Nat)
    (hash : Nat) (source symbol : String) (hroot : MPI.Root cfg = true)
    (hfit : MPI.IsInitialized cfg = true →
      ∀ c ∈ JIT.rootCommands cfg hash symbol, 1 + c.utf8ByteSize < cfg.size)
    (hgood : ∀ w p, (env.ofstream w p).2 = true)
    (hsys : ∀ w c, (env.system w c).2 = 0) :
    ∀ s, JIT.Ready cfg s →
      ∃ s2, JIT.RootCompile cfg env polls hash source symbol s
        = (Res.ret EXIT_SUCCESS, s2) ∧ JIT.Ready cfg s2 := by
  have hfit' : ∀ c ∈ JIT.rootCommands cfg hash symbol,
      MPI.IsInitialized cfg = true → 1 + c.utf8ByteSize < cfg.size :=
    fun c hc hinit => hfit hinit c hc
  simp only [JIT.rootCommands, List.mem_cons, List.mem_singleton, forall_eq_or_imp,
    forall_eq, List.not_mem_nil, false_imp_iff, implies_true, and_true] at hfit'
  obtain ⟨h1, h2, h3, h4⟩ := hfit'
  simp only [JIT.RootCompile]
  refine runs_bind (JIT.Ready cfg) true ?_ ?_
  · intro s hs
    refine ⟨(ofstream env (JIT.FileNameFromHash64 hash ".cc") s).2, ?_, hs⟩
    simp [ofstream, hgood]
  refine runs_bind (JIT.Ready cfg) () ?_ ?_
  · intro s hs
    exact ⟨s, by simp [MFEM_VERIFY], hs⟩
  refine runs_bind (JIT.Ready cfg) () ?_ ?_
  · intro s hs
    exact ⟨(write env (JIT.FileNameFromHash64 hash ".cc") source s).2, rfl, hs⟩
  refine runs_call_then cfg env polls _ _ hroot h1 hsys ?_
  refine runs_bind (JIT.Ready cfg) () ?_ ?_
  · intro s hs
    exact ⟨(remove env (JIT.FileNameFromHash64 hash ".cc") s).2, rfl, hs⟩
  refine runs_call_then cfg env polls _ _ hroot h2 hsys ?_
  refine runs_bind (JIT.Ready cfg) () ?_ ?_
  · intro s hs
    exact ⟨(remove env (JIT.FileNameFromHash64 hash ".co") s).2, rfl, hs⟩
  refine runs_call_then cfg env polls _ _ hroot h3 hsys ?_
  refine runs_call_then cfg env polls _ _ hroot h4 hsys ?_
  intro s hs
  exact ⟨s, rfl, hs⟩

/-- C21: the order of a successful build.  Whenever `RootCompile` for `(hash, source,
symbol)` returns `EXIT_SUCCESS`, what it did is exactly, in this order: open and write
the input file `k<hash>.cc`, compile it into `k<hash>.co`, remove `k<hash>.cc`, add
`k<hash>.co` to the archive, remove `k<hash>.co`, link the archive into the file
`symbol`, install that file as `./libmjit.so`; the commands issued are exactly these
four.  It does return `EXIT_SUCCESS` when the input file opens and every command exits
with status zero, on the root, outside a job or in a job whose helper is in its worker
loop and whose buffer holds each of the four commands. -/
theorem RootCompile_order_of_successful_build {W : Type} (cfg : Config) (env : Env W)
    (polls : Nat) (hash : Nat) (source symbol : String) (s : State W) :
    ((JIT.RootCompile cfg env polls hash source symbol s).1 = Res.ret EXIT_SUCCESS →
      (JIT.RootCompile cfg env polls hash source symbol s).2.trace = s.trace ++
        [Event.ofstream (JIT.FileNameFromHash64 hash ".cc") true,
         Event.write (JIT.FileNameFromHash64 hash ".cc") source,
         Event.command (JIT.compileCommand cfg (JIT.FileNameFromHash64 hash ".cc")
           (JIT.FileNameFromHash64 hash ".co")) 0,
         Event.remove (JIT.FileNameFromHash64 hash ".cc"),
         Event.command (JIT.archiveCommand (JIT.FileNameFromHash64 hash ".co")) 0,
         Event.remove (JIT.FileNameFromHash64 hash ".co"),
         Event.command (JIT.linkCommand cfg symbol) 0,
         Event.command (JIT.installCommand cfg symbol) 0] ∧
      commands (JIT.RootCompile cfg env polls hash source symbol s).2.trace
        = commands s.trace ++ JIT.rootCommands cfg hash symbol) ∧
    (MPI.Root cfg = true → JIT.Ready cfg s →
      (MPI.IsInitialized cfg = true →
        ∀ c ∈ JIT.rootCommands cfg hash symbol, 1 + c.utf8ByteSize < cfg.size) →
      (∀ w p, (env.ofstream w p).2 = true) → (∀ w c, (env.system w c).2 = 0) →
      (JIT.RootCompile cfg env polls hash source symbol s).1 = Res.ret EXIT_SUCCESS) := by
  constructor
  · intro hret
    obtain ⟨new, hnew, hq⟩ := emits_RootCompile_success cfg env polls hash source symbol s
    have hn := hq hret
    rw [hnew, hn]
    refine ⟨rfl, ?_⟩
    rw [commands_append]
    rfl
  · intro hroot hready hfit hgood hsys
    obtain ⟨s2, h, -⟩ :=
      RootCompile_runs cfg env polls hash source symbol hroot hfit hgood hsys s hready
    rw [h]

/-- C21 on a host build without MPI, for the hash `0x1` and the symbol `ker`: the build
returns `EXIT_SUCCESS` and the four commands are the compilation of
`k0000000000000001.cc`, the update of the archive, the link into `ker` and the
installation as `./libmjit.so`. -/
theorem RootCompile_order_of_successful_build_witness :
    (JIT.RootCompile serialConfig (Script.always 0).env 0 1 "int f();" "ker" idle).1
      = Res.ret EXIT_SUCCESS ∧
    commands (JIT.RootCompile serialConfig (Script.always 0).env 0 1 "int f();" "ker" idle).2.trace
      = ["c++ -O3  -fPIC -pipe -Wno-unused-variable -c -o k0000000000000001.co k0000000000000001.cc ",
         "ar -rv libmjit.a k0000000000000001.co ",
         "c++ -shared -o ker -Wl,--whole-archive libmjit.a -Wl,--no-whole-archive ",
         "install -v --backup=none ker ./libmjit.so "] := by
  have h := RootCompile_order_of_successful_build serialConfig (Script.always 0).env 0 1
    "int f();" "ker" idle
  have hret := h.2 rfl (Or.inl rfl) (fun h => by cases h) (fun _ _ => rfl) (fun _ _ => rfl)
  refine ⟨hret, ?_⟩
  rw [(h.1 hret).2]
  decide

/-! ## Temporary files of a build -/

/-- C22, as stated, fails: outside a job, with a loadable file `ker` left by an earlier
call, the compile command exits with status 1; `Lookup` returns the address 7, and the
input file `k0000000000000001.cc` it wrote is still there: it was never removed. -/
theorem Lookup_leaves_input_file_after_failed_compile :
    (JIT.Lookup serialConfig (Script.stale "ker" 7).env 0 1 "int f();" "ker" idle).1
      = Res.ret 7 ∧
    Event.write "k0000000000000001.cc" "int f();" ∈
      (JIT.Lookup serialConfig (Script.stale "ker" 7).env 0 1 "int f();" "ker" idle).2.trace ∧
    Event.remove "k0000000000000001.cc" ∉
      (JIT.Lookup serialConfig (Script.stale "ker" 7).env 0 1 "int f();" "ker" idle).2.trace ∧
    JIT.leftover serialConfig 1 "ker" "k0000000000000001.cc" false
      (JIT.Lookup serialConfig (Script.stale "ker" 7).env 0 1 "int f();" "ker" idle).2.trace
      = true := by
  decide

theorem leftover_append (cfg : Config) (hash : Nat) (symbol path : String) :
    ∀ (a b : List Event) (before : Bool),
      JIT.leftover cfg hash symbol path before (a ++ b)
        = JIT.leftover cfg hash symbol path (JIT.leftover cfg hash symbol path before a) b := by
  intro a
  induction a with
  | nil => intro b before; rfl
  | cons e t ih => intro b before; cases e <;> simp [JIT.leftover, ih]

theorem Prog.Emits.and {W α : Type} {m : Prog W α} {P Q : Res α → List Event → Prop}
    (hp : m.Emits P) (hq : m.Emits Q) : m.Emits fun r n => P r n ∧ Q r n := by
  intro s
  obtain ⟨n1, h1, p⟩ := hp s
  obtain ⟨n2, h2, q⟩ := hq s
  have h : n1 = n2 := List.append_cancel_left (h1.symm.trans h2)
  subst h
  exact ⟨n1, h1, p, q⟩

theorem mem_issued (c : String) (st : Int) (n : List Event) :
    (c, st) ∈ issued n ↔ Event.command c st ∈ n := by
  induction n with
  | nil => simp [issued]
  | cons e t ih => cases e <;> simp [issued, ih]

theorem penult_compile (cfg : Config) (hash : Nat) :
    penult (JIT.compileCommand cfg (JIT.FileNameFromHash64 hash ".cc")
      (JIT.FileNameFromHash64 hash ".co")) = some 'c' := by
  simp [penult, JIT.compileCommand, JIT.commandText, JIT.Command.cstr, JIT.Command.shl,
    JIT.FileNameFromHash64, String.data_append]

theorem penult_archive (hash : Nat) :
    penult (JIT.archiveCommand (JIT.FileNameFromHash64 hash ".co")) = some 'o' := by
  simp [penult, JIT.archiveCommand, JIT.commandText, JIT.Command.cstr, JIT.Command.shl,
    JIT.FileNameFromHash64, String.data_append]

theorem penult_install (cfg : Config) (symbol : String) :
    penult (JIT.installCommand cfg symbol) = some 'o' := by
  simp [penult, JIT.installCommand, JIT.commandText, JIT.Command.cstr, JIT.Command.shl,
    JIT.so, String.data_append]

theorem penult_relink (cfg : Config) : penult (JIT.relinkCommand cfg) = some '.' := by
  cases hd : cfg.device <;>
  simp [penult, JIT.relinkCommand, JIT.commandText, JIT.Command.cstr, JIT.Command.shl,
    JIT.Xlinker, hd, String.data_append]

theorem penult_link (cfg : Config) (symbol : String) :
    penult (JIT.linkCommand cfg symbol) = some 'e' ∨
    penult (JIT.linkCommand cfg symbol) = some ' ' := by
  cases hd : cfg.device <;> cases ha : cfg.apple <;>
  simp [penult, JIT.linkCommand, JIT.commandText, JIT.Command.cstr, JIT.Command.shl,
    JIT.ARpostfix, JIT.Xlinker, JIT.ar, hd, ha, String.data_append]

theorem archive_ne_compile (cfg : Config) (hash : Nat) :
    JIT.archiveCommand (JIT.FileNameFromHash64 hash ".co")
      ≠ JIT.compileCommand cfg (JIT.FileNameFromHash64 hash ".cc")
          (JIT.FileNameFromHash64 hash ".co") := by
  intro h
  have hp := congrArg penult h
  rw [penult_compile, penult_archive] at hp
  exact absurd hp (by decide)

theorem link_ne_compile (cfg : Config) (hash : Nat) (symbol : String) :
    JIT.linkCommand cfg symbol
      ≠ JIT.compileCommand cfg (JIT.FileNameFromHash64 hash ".cc")
          (JIT.FileNameFromHash64 hash ".co") := by
  intro h
  have hp := congrArg penult h
  rw [penult_compile] at hp
  rcases penult_link cfg symbol with hl | hl <;> rw [hl] at hp <;> exact absurd hp (by decide)

theorem install_ne_compile (cfg : Config) (hash : Nat) (symbol : String) :
    JIT.installCommand cfg symbol
      ≠ JIT.compileCommand cfg (JIT.FileNameFromHash64 hash ".cc")
          (JIT.FileNameFromHash64 hash ".co") := by
  intro h
  have hp := congrArg penult h
  rw [penult_compile, penult_install] at hp
  exact absurd hp (by decide)

theorem relink_ne_compile (cfg : Config) (hash : Nat) :
    JIT.relinkCommand cfg
      ≠ JIT.compileCommand cfg (JIT.FileNameFromHash64 hash ".cc")
          (JIT.FileNameFromHash64 hash ".co") := by
  intro h
  have hp := congrArg penult h
  rw [penult_compile, penult_relink] at hp
  exact absurd hp (by decide)

theorem emits_RootCompile_clean {W : Type} (cfg : Config) (env : Env W) (polls : Nat)
    (hash : Nat) (source symbol : String) :
    (JIT.RootCompile cfg env polls hash source symbol).Emits fun r n =>
      ∀ a, r = Res.ret a → (∀ c st, Event.command c st ∈ n → st = 0) →
        n = JIT.rootEvents cfg hash source symbol := by
  refine ((emits_RootCompile_success cfg env polls hash source symbol).and
    (steps_RootCompile cfg env polls hash source symbol)).mono ?_
  rintro r n ⟨hsucc, sts, hiss, hlen, -, -, hfail, hst⟩ a ha hclean
  rcases hst a ha with rfl | rfl
  · exact hsucc ha
  · obtain ⟨-, st, hlast, hne⟩ := hfail.mp ha
    have hmem : st ∈ sts := List.mem_of_getLast?_eq_some hlast
    rw [← List.map_snd_zip (JIT.rootCommands cfg hash symbol) sts hlen, ← hiss] at hmem
    obtain ⟨⟨c, st'⟩, hp, rfl⟩ := List.mem_map.mp hmem
    exact absurd (hclean c _ ((mem_issued c _ n).mp hp)) hne

theorem tidy_bind {W α β : Type} {m : Prog W α} {f : α → Prog W β} {cfg : Config}
    {hash : Nat} {symbol path : String}
    (hm : m.Tidy cfg hash symbol path) (hf : ∀ a, (f a).Tidy cfg hash symbol path) :
    (Prog.bind m f).Tidy cfg hash symbol path := by
  refine Prog.Emits.bind hm hf ?_ ?_ ?_
  · rintro a n1 r n2 h1 h2 b hb hclean before hleft
    rw [leftover_append] at hleft
    exact h1 a rfl (fun c st hc => hclean c st (List.mem_append_left _ hc)) before
      (h2 b hb (fun c st hc => hclean c st (List.mem_append_right _ hc)) _ hleft)
  · rintro msg n1 - a ha; cases ha
  · rintro n1 - a ha; cases ha

theorem tidy_ite {W α : Type} (c : Prop) [Decidable c] {m1 m2 : Prog W α} {cfg : Config}
    {hash : Nat} {symbol path : String}
    (h1 : m1.Tidy cfg hash symbol path) (h2 : m2.Tidy cfg hash symbol path) :
    (if c then m1 else m2).Tidy cfg hash symbol path := by
  split
  · exact h1
  · exact h2

theorem tidy_pure {W α : Type} (a : α) (cfg : Config) (hash : Nat) (symbol path : String) :
    (Prog.pure a : Prog W α).Tidy cfg hash symbol path :=
  (emits_pure a).mono fun _ _ q _ _ _ before h => by rw [q.2] at h; exact h

theorem tidy_verify {W : Type} (c : Bool) (msg : String) (cfg : Config) (hash : Nat)
    (symbol path : String) : (MFEM_VERIFY c msg : Prog W Unit).Tidy cfg hash symbol path :=
  (emits_verify c msg).mono fun _ _ q _ _ _ before h => by rw [q.1] at h; exact h

theorem tidy_fstream {W : Type} (env : Env W) (file : String) (cfg : Config) (hash : Nat)
    (symbol path : String) : (fstream env file).Tidy cfg hash symbol path :=
  (emits_fstream env file).mono fun _ _ q _ _ _ before h => by rw [q.1] at h; exact h

theorem tidy_remove {W : Type} (env : Env W) (file : String) (cfg : Config) (hash : Nat)
    (symbol path : String) : (remove env file).Tidy cfg hash symbol path :=
  (emits_remove env file).mono fun _ _ q _ _ _ before h => by
    rw [q.2] at h
    simp only [JIT.leftover, Bool.and_eq_true] at h
    exact h.1

theorem tidy_dlsym {W : Type} (env : Env W) (handle : Nat) (name : String) (cfg : Config)
    (hash : Nat) (symbol path : String) : (dlsym env handle name).Tidy cfg hash symbol path :=
  (emits_dlsym env handle name).mono fun _ _ q _ _ _ before h => by
    obtain ⟨k, -, rfl⟩ := q
    exact h

theorem tidy_DLopen {W : Type} (env : Env W) (file : String) (cfg : Config) (hash : Nat)
    (symbol path : String) : (JIT.DLopen env file).Tidy cfg hash symbol path :=
  (emits_DLopen env file).mono fun _ _ q _ _ _ before h => by
    obtain ⟨k, -, rfl⟩ := q
    exact h

theorem tidy_Sync {W : Type} (cfg : Config) (env : Env W) (status : Bool) (hash : Nat)
    (symbol path : String) : (MPI.Sync cfg env status).Tidy cfg hash symbol path :=
  (emits_Sync cfg env status).mono fun _ _ q _ _ _ before h => by
    rcases q with ⟨-, -, rfl⟩ | ⟨-, reduced, rfl, -⟩
    · exact h
    · exact h

theorem tidy_Call {W : Type} (cfg : Config) (env : Env W) (polls : Nat) (command : String)
    (hash : Nat) (symbol path : String)
    (hcmd : command ≠ JIT.compileCommand cfg (JIT.FileNameFromHash64 hash ".cc")
      (JIT.FileNameFromHash64 hash ".co"))
    (hsym : path ≠ symbol) : (JIT.Call cfg env polls command).Tidy cfg hash symbol path :=
  (emits_Call cfg env polls command).mono fun _ _ q a ha _ before h => by
    rcases q with ⟨st, -, rfl, -⟩ | ⟨hno, -⟩
    · simpa [JIT.leftover, hcmd, hsym] using h
    · exact absurd ha (hno a)

theorem leftover_rootEvents (cfg : Config) (hash : Nat) (source symbol path : String)
    (hsym : path ≠ symbol) (before : Bool)
    (h : JIT.leftover cfg hash symbol path before (JIT.rootEvents cfg hash source symbol)
      = true) : before = true := by
  have h1 := archive_ne_compile cfg hash
  have h2 := link_ne_compile cfg hash symbol
  have h3 := install_ne_compile cfg hash symbol
  simp [JIT.rootEvents, JIT.leftover, h1, h2, h3, hsym] at h
  obtain ⟨⟨hb, hcc⟩, hco⟩ := h
  rcases hb with (hb | hb) | hb
  · exact hb
  · exact absurd hb hcc
  · exact absurd hb.symm hco

theorem tidy_RootCompile {W : Type} (cfg : Config) (env : Env W) (polls : Nat)
    (hash : Nat) (source symbol path : String) (hsym : path ≠ symbol) :
    (JIT.RootCompile cfg env polls hash source symbol).Tidy cfg hash symbol path :=
  (emits_RootCompile_clean cfg env polls hash source symbol).mono
    fun _ _ q a ha hclean before h => by
      rw [q a ha hclean] at h
      exact leftover_rootEvents cfg hash source symbol path hsym before h

theorem tidy_WorldCompile {W : Type} (cfg : Config) (env : Env W) (polls : Nat)
    (hash : Nat) (source symbol path : String) (hsym : path ≠ symbol) :
    (JIT.WorldCompile cfg env polls hash source symbol).Tidy cfg hash symbol path := by
  unfold JIT.WorldCompile
  exact tidy_bind
    (tidy_ite _
      (tidy_bind (tidy_RootCompile _ _ _ _ _ _ _ hsym) fun _ => tidy_pure _ _ _ _ _)
      (tidy_pure _ _ _ _ _)) fun _ =>
    tidy_bind (tidy_Sync _ _ _ _ _ _) fun _ => tidy_bind (tidy_DLopen _ _ _ _ _ _) fun _ =>
    tidy_bind (tidy_Sync _ _ _ _ _ _) fun _ => tidy_bind (tidy_verify _ _ _ _ _ _) fun _ =>
    tidy_pure _ _ _ _ _

theorem tidy_Lookup {W : Type} (cfg : Config) (env : Env W) (polls : Nat)
    (hash : Nat) (source symbol path : String) (hsym : path ≠ symbol) :
    (JIT.Lookup cfg env polls hash source symbol).Tidy cfg hash symbol path := by
  have hwc := tidy_WorldCompile cfg env polls hash source symbol path hsym
  unfold JIT.Lookup
  refine tidy_bind ?_ fun h0 => tidy_bind ?_ fun h1 =>
    tidy_bind (tidy_ite _ hwc (tidy_pure _ _ _ _ _)) fun h2 =>
    tidy_bind (tidy_verify _ _ _ _ _ _) fun _ => tidy_bind (tidy_dlsym _ _ _ _ _ _ _) fun k0 =>
    tidy_bind (tidy_ite _ (tidy_bind hwc fun _ => tidy_dlsym _ _ _ _ _ _ _)
      (tidy_pure _ _ _ _ _)) fun k =>
    tidy_bind (tidy_verify _ _ _ _ _ _) fun _ => tidy_bind (tidy_remove _ _ _ _ _ _) fun _ =>
    tidy_pure _ _ _ _ _
  · unfold JIT.Lookup.tryOpen
    exact tidy_bind (tidy_fstream _ _ _ _ _ _) fun _ =>
      tidy_ite _ (tidy_DLopen _ _ _ _ _ _) (tidy_pure _ _ _ _ _)
  · unfold JIT.Lookup.relink
    refine tidy_ite _ (tidy_bind (tidy_fstream _ _ _ _ _ _) fun _ =>
      tidy_ite _ ?_ (tidy_pure _ _ _ _ _)) (tidy_pure _ _ _ _ _)
    exact tidy_bind (tidy_ite _ (tidy_Call _ _ _ _ _ _ _ (relink_ne_compile cfg hash) hsym)
        (tidy_pure _ _ _ _ _)) fun _ =>
      tidy_bind (tidy_Sync _ _ _ _ _ _) fun _ => tidy_bind (tidy_DLopen _ _ _ _ _ _) fun _ =>
      tidy_bind (tidy_verify _ _ _ _ _ _) fun _ => tidy_pure _ _ _ _ _

theorem leftover_after_remove (cfg : Config) (hash : Nat) (symbol : String) (pre : List Event)
    (e : Event) (before : Bool) :
    JIT.leftover cfg hash symbol symbol before (pre ++ [e, Event.remove symbol]) = false := by
  rw [leftover_append]
  cases e <;> simp [JIT.leftover]

/-- C22, amended: whenever `Lookup` returns, the temporary library named `symbol` has
been removed, whatever the build commands and the loader did: the removal is the last
thing `Lookup` does.  The input file `k<hash>.cc` and the object file `k<hash>.co` are
removed after a compile command, respectively an archive command, that exits with
status zero: when every command of the call exited with status zero, which is the case
whenever `Lookup` returns in a distributed job, neither file is there after the call
unless it was there before it. -/
theorem Lookup_removes_temporaries_of_clean_builds {W : Type} (cfg : Config) (env : Env W)
    (polls : Nat) (hash : Nat) (source symbol : String) (s : State W) (k : Nat)
    (hret : (JIT.Lookup cfg env polls hash source symbol s).1 = Res.ret k) :
    ∃ new, (JIT.Lookup cfg env polls hash source symbol s).2.trace = s.trace ++ new ∧
      new.getLast? = some (Event.remove symbol) ∧
      (∀ before, JIT.leftover cfg hash symbol symbol before new = false) ∧
      ((MPI.IsInitialized cfg = true ∨ ∀ c st, Event.command c st ∈ new → st = 0) →
        JIT.leftover cfg hash symbol (JIT.FileNameFromHash64 hash ".cc") false new = false ∧
        JIT.leftover cfg hash symbol (JIT.FileNameFromHash64 hash ".co") false new = false) := by
  obtain ⟨new, hnew, -, -, -, hk⟩ := rest_Lookup cfg env polls hash source symbol s
  obtain ⟨-, pre, h, hshape, -, -⟩ := hk k hret
  have hsymbol : ∀ before, JIT.leftover cfg hash symbol symbol before new = false := by
    intro before
    rw [hshape]
    exact leftover_after_remove cfg hash symbol pre _ before
  refine ⟨new, hnew, by rw [hshape]; simp, hsymbol, fun hclean => ?_⟩
  have hcmds : ∀ c st, Event.command c st ∈ new → st = 0 := by
    rcases hclean with hjob | hc
    · obtain ⟨new', hnew', hcl⟩ := cleanRet_Lookup cfg env polls hash source symbol hjob s
      have he : new' = new := List.append_cancel_left (hnew'.symm.trans hnew)
      subst he
      intro c st hc
      simpa [Event.clean] using hcl k hret _ hc
    · exact hc
  have key : ∀ path, JIT.leftover cfg hash symbol path false new = false := by
    intro path
    by_cases hsym : path = symbol
    · rw [hsym]; exact hsymbol false
    · obtain ⟨new', hnew', ht⟩ := tidy_Lookup cfg env polls hash source symbol path hsym s
      have he : new' = new := List.append_cancel_left (hnew'.symm.trans hnew)
      subst he
      cases hl : JIT.leftover cfg hash symbol path false new' with
      | false => rfl
      | true => exact absurd (ht k hret hcmds false hl) (by decide)
  exact ⟨key _, key _⟩

/-- C22, amended, on the root of a job, from a start without cache files: `Lookup`
returns after one build, and neither `k0000000000000001.cc` nor `k0000000000000001.co`
nor the file `k1` is left. -/
theorem Lookup_removes_temporaries_of_clean_builds_witness :
    JIT.leftover (jobConfig 0) 1 "k1" "k0000000000000001.cc" false
      (JIT.Lookup (jobConfig 0) (Script.fresh "k1" 42).env 0 1 "return 42;" "k1" idle).2.trace
      = false ∧
    JIT.leftover (jobConfig 0) 1 "k1" "k0000000000000001.co" false
      (JIT.Lookup (jobConfig 0) (Script.fresh "k1" 42).env 0 1 "return 42;" "k1" idle).2.trace
      = false ∧
    JIT.leftover (jobConfig 0) 1 "k1" "k1" true
      (JIT.Lookup (jobConfig 0) (Script.fresh "k1" 42).env 0 1 "return 42;" "k1" idle).2.trace
      = false := by
  have hret : (JIT.Lookup (jobConfig 0) (Script.fresh "k1" 42).env 0 1 "return 42;" "k1" idle).1
      = Res.ret 42 := by decide
  obtain ⟨new, hnew, -, hsym, hfiles⟩ := Lookup_removes_temporaries_of_clean_builds
    (jobConfig 0) (Script.fresh "k1" 42).env 0 1 "return 42;" "k1" idle 42 hret
  have hnew' : (JIT.Lookup (jobConfig 0) (Script.fresh "k1" 42).env 0 1 "return 42;" "k1" idle).2.trace
      = new := by rw [hnew]; rfl
  rw [hnew']
  have hcc : JIT.FileNameFromHash64 1 ".cc" = "k0000000000000001.cc" := by decide
  have hco : JIT.FileNameFromHash64 1 ".co" = "k0000000000000001.co" := by decide
  have h := hfiles (Or.inl rfl)
  rw [hcc, hco] at h
  exact ⟨h.1, h.2, hsym true⟩

/-! ## `JIT::Lookup` from the archive alone -/

theorem emits_relink_status {W : Type} (cfg : Config) (env : Env W) (polls : Nat) :
    (if MPI.Root cfg = true then JIT.Call cfg env polls (JIT.relinkCommand cfg)
      else (Prog.pure EXIT_SUCCESS : Prog W Int)).Emits fun r n =>
      (∃ st, r = Res.ret st ∧ (MPI.Root cfg = false → st = 0) ∧
        n = if MPI.Root cfg then [Event.command (JIT.relinkCommand cfg) st] else []) ∨
      ((∀ st, r ≠ Res.ret st) ∧
        r ≠ Res.abort "[JIT] Error ./libmjit.so from libmjit.a" ∧ opened n = [] ∧
        (commands n = [] ∨ (MPI.Root cfg = true ∧ commands n = [JIT.relinkCommand cfg]))) := by
  cases hroot : MPI.Root cfg with
  | false =>
    simp only [Bool.false_eq_true, if_false]
    exact (emits_pure EXIT_SUCCESS).mono fun r n q => Or.inl ⟨_, q.1, fun _ => rfl, q.2⟩
  | true =>
    simp only [if_true]
    intro s
    obtain ⟨n, hn, q⟩ := emits_Call cfg env polls (JIT.relinkCommand cfg) s
    refine ⟨n, hn, ?_⟩
    rcases q with ⟨st, hr, rfl, -⟩ | ⟨hno, hjob, hn'⟩
    · exact Or.inl ⟨st, hr, (fun h => by cases h), rfl⟩
    · refine Or.inr ⟨hno, ?_, ?_, ?_⟩
      · intro habort
        cases hlen : decide (1 + (JIT.relinkCommand cfg).utf8ByteSize < cfg.size) with
        | false =>
          rw [Call_job_too_long cfg env polls _ s hjob hroot (by simpa using hlen)] at habort
          simp at habort
        | true =>
          have hlen' : 1 + (JIT.relinkCommand cfg).utf8ByteSize < cfg.size := by
            simpa using hlen
          cases hh : s.helper with
          | false =>
            rw [Call_job_no_helper cfg env polls _ s hjob hroot hlen' hh] at habort
            cases habort
          | true =>
            by_cases hst : (env.system s.world (JIT.relinkCommand cfg)).2 = 0
            · rw [Call_job_success cfg env polls _ s hjob hroot hlen' hh hst] at habort
              cases habort
            · rw [Call_job_failure cfg env polls _ s hjob hroot hlen' hh hst] at habort
              cases habort
      · rcases hn' with rfl | ⟨st, -, rfl⟩ <;> rfl
      · rcases hn' with rfl | ⟨st, -, rfl⟩
        · exact Or.inl rfl
        · exact Or.inr ⟨trivial, rfl⟩

theorem emits_open_verified {W : Type} (env : Env W) (path msg : String) :
    (Prog.bind (JIT.DLopen env path) fun handle1 =>
      Prog.bind (MFEM_VERIFY (handle1 != 0) msg) fun _ =>
      (Prog.pure handle1 : Prog W Nat)).Emits fun r n =>
      ∃ h, n = [Event.dlopen path h] ∧ r = if h = 0 then Res.abort msg else Res.ret h := by
  intro s
  refine ⟨[Event.dlopen path (env.dlopen s.world path).2], ?_, _, rfl, ?_⟩
  · by_cases h : (env.dlopen s.world path).2 = 0 <;>
      simp [Prog.bind, JIT.DLopen, MFEM_VERIFY, Prog.pure, h]
  · by_cases h : (env.dlopen s.world path).2 = 0 <;>
      simp [Prog.bind, JIT.DLopen, MFEM_VERIFY, Prog.pure, h]

theorem emits_sync_open {W : Type} (cfg : Config) (env : Env W) (status : Int) :
    (Prog.bind (MPI.Sync cfg env (intToBool status)) fun _ =>
      Prog.bind (JIT.DLopen env JIT.so) fun handle1 =>
      Prog.bind (MFEM_VERIFY (handle1 != 0) "[JIT] Error ./libmjit.so from libmjit.a") fun _ =>
      (Prog.pure handle1 : Prog W Nat)).Emits fun r n =>
      (∃ h, n = (if MPI.IsInitialized cfg then [Event.allreduce (intToBool status) false]
            else []) ++ [Event.dlopen JIT.so h] ∧
          r = if h = 0 then Res.abort "[JIT] Error ./libmjit.so from libmjit.a"
            else Res.ret h) ∨
      ((∀ a, r ≠ Res.ret a) ∧
        r ≠ Res.abort "[JIT] Error ./libmjit.so from libmjit.a" ∧ opened n = [] ∧
        commands n = []) := by
  refine Prog.Emits.bind (emits_Sync cfg env (intToBool status))
    (fun _ => emits_open_verified env JIT.so _) ?_ ?_ ?_
  · intro a n1 r n2 p q
    obtain ⟨handle, rfl, hr⟩ := q
    rcases p with ⟨hinit, -, rfl⟩ | ⟨hinit, reduced, rfl, hcase⟩
    · exact Or.inl ⟨handle, by simp [hinit], hr⟩
    · rcases hcase with ⟨-, rfl⟩ | ⟨hab, -⟩
      · exact Or.inl ⟨handle, by simp [hinit], hr⟩
      · cases hab
  · intro msg n1 p
    rcases p with ⟨-, hab, -⟩ | ⟨-, reduced, rfl, hcase⟩
    · cases hab
    · rcases hcase with ⟨hab, -⟩ | ⟨hab, -⟩
      · cases hab
      · refine Or.inr ⟨(fun a ha => by cases ha), ?_, rfl, rfl⟩
        cases hab
        decide
  · intro n1 p
    rcases p with ⟨-, hab, -⟩ | ⟨-, reduced, rfl, hcase⟩
    · cases hab
    · rcases hcase with ⟨hab, -⟩ | ⟨hab, -⟩ <;> cases hab

theorem relink_from_archive {W : Type} (cfg : Config) (env : Env W) (polls : Nat)
    (s : State W) (har : env.fstream s.world JIT.ar = true) :
    ∃ n, (JIT.Lookup.relink cfg env polls 0 s).2.trace = s.trace ++ n ∧
      ((∃ st h, (MPI.Root cfg = false → st = 0) ∧ n = JIT.relinkEvents cfg st h ∧
          (JIT.Lookup.relink cfg env polls 0 s).1
            = if h = 0 then Res.abort "[JIT] Error ./libmjit.so from libmjit.a"
              else Res.ret h) ∨
       ((∀ a, (JIT.Lookup.relink cfg env polls 0 s).1 ≠ Res.ret a) ∧
         (JIT.Lookup.relink cfg env polls 0 s).1
           ≠ Res.abort "[JIT] Error ./libmjit.so from libmjit.a" ∧
         opened n = [] ∧
         (commands n = [] ∨
          (MPI.Root cfg = true ∧ commands n = [JIT.relinkCommand cfg])))) := by
  have hbody := Prog.Emits.bind (emits_relink_status cfg env polls)
    (fun status => emits_sync_open cfg env status)
    (Q := fun r n =>
      (∃ st h, (MPI.Root cfg = false → st = 0) ∧ n = JIT.relinkEvents cfg st h ∧
          r = if h = 0 then Res.abort "[JIT] Error ./libmjit.so from libmjit.a"
              else Res.ret h) ∨
       ((∀ a, r ≠ Res.ret a) ∧
         r ≠ Res.abort "[JIT] Error ./libmjit.so from libmjit.a" ∧ opened n = [] ∧
         (commands n = [] ∨
          (MPI.Root cfg = true ∧ commands n = [JIT.relinkCommand cfg])))) ?_ ?_ ?_
  · have heq : JIT.Lookup.relink cfg env polls 0 s =
        (Prog.bind (if MPI.Root cfg = true then JIT.Call cfg env polls (JIT.relinkCommand cfg)
            else (Prog.pure EXIT_SUCCESS : Prog W Int)) fun status =>
          Prog.bind (MPI.Sync cfg env (intToBool status)) fun _ =>
          Prog.bind (JIT.DLopen env JIT.so) fun handle1 =>
          Prog.bind (MFEM_VERIFY (handle1 != 0) "[JIT] Error ./libmjit.so from libmjit.a")
            fun _ => (Prog.pure handle1 : Prog W Nat)) s := by
      simp [JIT.Lookup.relink, Prog.bind, fstream, har]
    rw [heq]
    exact hbody s
  · rintro st n1 r n2 (⟨st', hr, hst, rfl⟩ | ⟨hno, -⟩) q
    · cases hr
      rcases q with ⟨h, rfl, hr⟩ | ⟨hno, hab, hop, hcmd⟩
      · exact Or.inl ⟨st, h, hst, by simp [JIT.relinkEvents], hr⟩
      · refine Or.inr ⟨hno, hab, ?_, ?_⟩
        · rw [opened_append, hop]; split <;> rfl
        · rw [commands_append, hcmd]
          cases hroot : MPI.Root cfg with
          | false => exact Or.inl (by simp [commands])
          | true => exact Or.inr ⟨rfl, by simp [commands]⟩
    · exact absurd rfl (hno st)
  · rintro msg n1 (⟨st, h, -⟩ | h)
    · cases h
    · exact Or.inr ⟨(fun a ha => by cases ha),
        (fun hab => h.2.1 (by cases hab; rfl)), h.2.2⟩
  · rintro n1 (⟨st, h, -⟩ | h)
    · cases h
    · exact Or.inr ⟨(fun a ha => by cases ha), (fun hab => by cases hab), h.2.2⟩

theorem commands_bind_quiet {W α β : Type} (m : Prog W α) (f : α → Prog W β)
    (hf : ∀ a, (f a).Quiet) (s : State W) :
    commands (Prog.bind m f s).2.trace = commands (m s).2.trace := by
  unfold Prog.bind
  rcases hms : m s with ⟨res, s1⟩
  cases res with
  | ret a => exact hf a s1
  | abort msg => rfl
  | blocked => rfl

theorem Call_issues {W : Type} (cfg : Config) (env : Env W) (polls : Nat) (command : String)
    (s : State W) (hroot : MPI.Root cfg = true) (hready : JIT.Ready cfg s)
    (hfit : MPI.IsInitialized cfg = true → 1 + command.utf8ByteSize < cfg.size) :
    commands (JIT.Call cfg env polls command s).2.trace = commands s.trace ++ [command] := by
  cases hinit : MPI.IsInitialized cfg with
  | false =>
    rw [Call_serial _ _ _ _ _ hinit]
    simp [system, commands_append, commands]
  | true =>
    have hhelper : s.helper = true := by
      rcases hready with h | h
      · rw [hinit] at h; cases h
      · exact h
    by_cases hst : (env.system s.world command).2 = 0
    · rw [Call_job_success _ _ _ _ _ hinit hroot (hfit hinit) hhelper hst]
      simp [commands_append, commands]
    · rw [Call_job_failure _ _ _ _ _ hinit hroot (hfit hinit) hhelper hst]
      simp [commands_append, commands]

theorem relink_issues {W : Type} (cfg : Config) (env : Env W) (polls : Nat) (s : State W)
    (har : env.fstream s.world JIT.ar = true) (hroot : MPI.Root cfg = true)
    (hready : JIT.Ready cfg s)
    (hfit : MPI.IsInitialized cfg = true →
      1 + (JIT.relinkCommand cfg).utf8ByteSize < cfg.size) :
    commands (JIT.Lookup.relink cfg env polls 0 s).2.trace
      = commands s.trace ++ [JIT.relinkCommand cfg] := by
  have heq : JIT.Lookup.relink cfg env polls 0 s =
      (Prog.bind (JIT.Call cfg env polls (JIT.relinkCommand cfg)) fun status =>
        Prog.bind (MPI.Sync cfg env (intToBool status)) fun _ =>
        Prog.bind (JIT.DLopen env JIT.so) fun handle1 =>
        Prog.bind (MFEM_VERIFY (handle1 != 0) "[JIT] Error ./libmjit.so from libmjit.a")
          fun _ => (Prog.pure handle1 : Prog W Nat)) s := by
    simp [JIT.Lookup.relink, Prog.bind, fstream, har, hroot]
  rw [heq, commands_bind_quiet _ _ (fun status => quiet_bind (quiet_Sync _ _ _) fun _ =>
    quiet_bind (quiet_DLopen _ _) fun _ => quiet_bind (quiet_verify _ _) fun _ =>
    quiet_pure _)]
  exact Call_issues cfg env polls _ s hroot hready hfit

theorem commands_relinkEvents (cfg : Config) (st : Int) (h : Nat) :
    commands (JIT.relinkEvents cfg st h)
      = if MPI.Root cfg then [JIT.relinkCommand cfg] else [] := by
  cases hroot : MPI.Root cfg <;> cases hinit : MPI.IsInitialized cfg <;>
    simp [JIT.relinkEvents, hroot, hinit, commands]

theorem Lookup_after_relink {W : Type} (cfg : Config) (env : Env W) (polls : Nat)
    (hash : Nat) (source symbol : String) (s : State W)
    (hso : (JIT.Lookup.tryOpen env s).1 = Res.ret 0) (h : Nat) (hh : h ≠ 0)
    (hrel : (JIT.Lookup.relink cfg env polls 0 (JIT.Lookup.tryOpen env s).2).1 = Res.ret h)
    (hk : env.dlsym (JIT.Lookup.relink cfg env polls 0 (JIT.Lookup.tryOpen env s).2).2.world
      h symbol ≠ 0) :
    (JIT.Lookup cfg env polls hash source symbol s).1
      = Res.ret (env.dlsym
          (JIT.Lookup.relink cfg env polls 0 (JIT.Lookup.tryOpen env s).2).2.world h symbol) ∧
    (JIT.Lookup cfg env polls hash source symbol s).2.trace
      = (JIT.Lookup.relink cfg env polls 0 (JIT.Lookup.tryOpen env s).2).2.trace ++
        [Event.dlsym h symbol (env.dlsym
          (JIT.Lookup.relink cfg env polls 0 (JIT.Lookup.tryOpen env s).2).2.world h symbol),
         Event.remove symbol] := by
  rcases h0 : JIT.Lookup.tryOpen env s with ⟨r0, s0⟩
  rw [h0] at hso hrel hk
  simp only at hso hrel hk
  subst hso
  rcases h1 : JIT.Lookup.relink cfg env polls 0 s0 with ⟨r1, s1⟩
  rw [h1] at hrel hk
  simp only at hrel hk
  subst hrel
  simp [JIT.Lookup, Prog.bind, h0, h1, hh, Prog.pure, MFEM_VERIFY, dlsym, hk, remove]

/-- C23: a start from the archive alone.  When `./libmjit.so` could not be loaded and the
archive `libmjit.a` exists, in the block that follows a rank other than the root runs no
command and the root runs at most one, the link of the whole archive into
`./libmjit.so` (`CXX -shared -o ./libmjit.so`, the archive between `ARprefix()` and
`ARpostfix()`, and the run path); the root runs exactly that one when `Call` can hand it
over.  Whenever the block gets to load `./libmjit.so`, its events are that command on
the root, then in a job the status reduction, which gave success, then the load; it
aborts when the load gives no handle and returns the handle otherwise.  When the library
so loaded resolves `symbol`, `Lookup` returns the address and has run no command but
that of the block: no compile and no archive command. -/
theorem Lookup_archive_only_start {W : Type} (cfg : Config) (env : Env W) (polls : Nat)
    (hash : Nat) (source symbol : String) (s : State W)
    (hso : (JIT.Lookup.tryOpen env s).1 = Res.ret 0)
    (har : env.fstream (JIT.Lookup.tryOpen env s).2.world JIT.ar = true) :
    ∃ n, (JIT.Lookup.relink cfg env polls 0 (JIT.Lookup.tryOpen env s).2).2.trace
        = (JIT.Lookup.tryOpen env s).2.trace ++ n ∧
      (MPI.Root cfg = false → commands n = []) ∧
      (commands n = [] ∨ commands n = [JIT.relinkCommand cfg]) ∧
      (MPI.Root cfg = true → JIT.Ready cfg (JIT.Lookup.tryOpen env s).2 →
        (MPI.IsInitialized cfg = true →
          1 + (JIT.relinkCommand cfg).utf8ByteSize < cfg.size) →
        commands n = [JIT.relinkCommand cfg]) ∧
      ((∃ st h, n = JIT.relinkEvents cfg st h ∧
          (JIT.Lookup.relink cfg env polls 0 (JIT.Lookup.tryOpen env s).2).1
            = if h = 0 then Res.abort "[JIT] Error ./libmjit.so from libmjit.a"
              else Res.ret h) ∨
        ((∀ a, (JIT.Lookup.relink cfg env polls 0 (JIT.Lookup.tryOpen env s).2).1 ≠ Res.ret a) ∧
          opened n = [])) ∧
      (∀ h, (JIT.Lookup.relink cfg env polls 0 (JIT.Lookup.tryOpen env s).2).1 = Res.ret h →
        env.dlsym (JIT.Lookup.relink cfg env polls 0 (JIT.Lookup.tryOpen env s).2).2.world
          h symbol ≠ 0 →
        (JIT.Lookup cfg env polls hash source symbol s).1
          = Res.ret (env.dlsym
              (JIT.Lookup.relink cfg env polls 0 (JIT.Lookup.tryOpen env s).2).2.world
              h symbol) ∧
        commands (JIT.Lookup cfg env polls hash source symbol s).2.trace
          = commands s.trace ++ commands n) := by
  obtain ⟨n, hn, hq⟩ := relink_from_archive cfg env polls (JIT.Lookup.tryOpen env s).2 har
  have hquiet : commands (JIT.Lookup.tryOpen env s).2.trace = commands s.trace := by
    have hq : (JIT.Lookup.tryOpen env).Quiet := by
      unfold JIT.Lookup.tryOpen
      refine quiet_bind (quiet_fstream _ _) fun found => ?_
      split
      · exact quiet_DLopen _ _
      · exact quiet_pure _
    exact hq s
  have hcases : (MPI.Root cfg = false → commands n = []) ∧
      (commands n = [] ∨ commands n = [JIT.relinkCommand cfg]) := by
    rcases hq with ⟨st, h, -, rfl, -⟩ | ⟨-, -, -, hc⟩
    · rw [commands_relinkEvents]
      cases hroot : MPI.Root cfg <;> simp
    · rcases hc with hc | ⟨hroot, hc⟩
      · exact ⟨fun _ => hc, Or.inl hc⟩
      · exact ⟨(fun h => by rw [hroot] at h; cases h), Or.inr hc⟩
  refine ⟨n, hn, hcases.1, hcases.2, ?_, ?_, ?_⟩
  · intro hroot hready hfit
    have h := relink_issues cfg env polls _ har hroot hready hfit
    rw [hn, commands_append] at h
    exact List.append_cancel_left h
  · rcases hq with ⟨st, h, -, hshape, hr⟩ | ⟨hno, -, hop, -⟩
    · exact Or.inl ⟨st, h, hshape, hr⟩
    · exact Or.inr ⟨hno, hop⟩
  · intro h hret hk
    have hh : h ≠ 0 := by
      rcases hq with ⟨st, h', -, -, hr⟩ | ⟨hno, -⟩
      · rw [hret] at hr
        by_cases h0 : h' = 0
        · rw [if_pos h0] at hr; cases hr
        · rw [if_neg h0] at hr; cases hr; exact h0
      · exact absurd hret (hno h)
    obtain ⟨h1, h2⟩ := Lookup_after_relink cfg env polls hash source symbol s hso h hh hret hk
    refine ⟨h1, ?_⟩
    rw [h2, hn]
    simp [commands_append, commands, hquiet]

/-- C23 on the root of a job whose archive exists while `./libmjit.so` does not: the
only command of the call is the link of the archive, and `Lookup` returns the address 7
the relinked library gives for `ker`. -/
theorem Lookup_archive_only_start_witness :
    (JIT.Lookup (jobConfig 0) (Script.archiveOnly "ker" 7).env 0 1 "int f();" "ker" idle).1
      = Res.ret 7 ∧
    commands
      (JIT.Lookup (jobConfig 0) (Script.archiveOnly "ker" 7).env 0 1 "int f();" "ker" idle).2.trace
      = ["c++ -shared -o ./libmjit.so -Wl,--whole-archive libmjit.a -Wl,--no-whole-archive -Wl,-rpath,. "] := by
  obtain ⟨n, hn, -, -, hone, -, hlook⟩ := Lookup_archive_only_start (jobConfig 0)
    (Script.archiveOnly "ker" 7).env 0 1 "int f();" "ker" idle (by decide) (by decide)
  have hc := hone (by decide) (Or.inr (by decide)) (fun _ => by decide)
  have h := hlook 2 (by decide) (by decide)
  refine ⟨h.1, ?_⟩
  rw [h.2, hc]
  decide

/-! ## `struct JIT::Command` -/

theorem Command_shl_foldl_data (tokens : List String) : ∀ cmd : String,
    (tokens.foldl JIT.Command.shl cmd).data
      = cmd.data ++ (tokens.map fun t => (t ++ " ").data).flatten := by
  induction tokens with
  | nil => intro cmd; simp
  | cons t ts ih =>
    intro cmd
    rw [List.foldl_cons, ih]
    simp [JIT.Command.shl, String.data_append, List.append_assoc]

theorem Command_shl_foldl (tokens : List String) :
    tokens.foldl JIT.Command.shl "" = String.join (tokens.map fun t => t ++ " ") := by
  apply String.ext
  rw [Command_shl_foldl_data, String.join_eq]
  simp [List.map_map, Function.comp_def]

/-- C30: the command builder joins the tokens with single trailing spaces and resets
after use.  For every list of tokens streamed into an empty `Command`, the conversion to
`const char *` yields each token followed by one space, in order, and leaves the builder
empty; the text of the next command, streamed into the builder so left, is made of the
tokens of that command alone. -/
theorem Command_joins_tokens_and_resets (tokens next : List String) :
    (JIT.Command.cstr (tokens.foldl JIT.Command.shl "")).1
      = String.join (tokens.map fun t => t ++ " ") ∧
    (JIT.Command.cstr (tokens.foldl JIT.Command.shl "")).2 = "" ∧
    (JIT.Command.cstr
      (next.foldl JIT.Command.shl (JIT.Command.cstr (tokens.foldl JIT.Command.shl "")).2)).1
      = String.join (next.map fun t => t ++ " ") ∧
    JIT.commandText ["install", "-v", "", "ker", "./libmjit.so"]
      = "install -v  ker ./libmjit.so " := by
  refine ⟨?_, rfl, ?_, by decide⟩
  · exact Command_shl_foldl tokens
  · exact Command_shl_foldl next

end jit_internal

namespace mfem

/-! ## Determinants -/

/-- C28: the determinant formulas are the determinant.  Over every commutative ring, for
every matrix of size 3 × 3, 2 × 2 and 1 × 1, the overload of `Determinant` for the
static size and the overload for dynamic sizes both return the Leibniz determinant of
the matrix, and so they agree. -/
theorem Determinant_is_the_determinant {R : Type} [CommRing R] (e : Nat → Nat → R) :
    (Determinant3 (fun i j => e i j) = Matrix.det (Matrix.of fun i j : Fin 3 => e i j) ∧
      Determinant ⟨3, 3, e⟩ = Matrix.det (Matrix.of fun i j : Fin 3 => e i j) ∧
      Determinant3 (fun i j => e i j) = Determinant ⟨3, 3, e⟩) ∧
    (Determinant2 (fun i j => e i j) = Matrix.det (Matrix.of fun i j : Fin 2 => e i j) ∧
      Determinant ⟨2, 2, e⟩ = Matrix.det (Matrix.of fun i j : Fin 2 => e i j) ∧
      Determinant2 (fun i j => e i j) = Determinant ⟨2, 2, e⟩) ∧
    (Determinant1 (fun i j => e i j) = Matrix.det (Matrix.of fun i j : Fin 1 => e i j) ∧
      Determinant ⟨1, 1, e⟩ = Matrix.det (Matrix.of fun i j : Fin 1 => e i j) ∧
      Determinant1 (fun i j => e i j) = Determinant ⟨1, 1, e⟩) := by
  refine ⟨⟨?_, ?_, ?_⟩, ⟨?_, ?_, ?_⟩, ⟨?_, ?_, ?_⟩⟩
  · rw [Matrix.det_fin_three]; simp [Determinant3]; ring
  · rw [Matrix.det_fin_three]; simp [Determinant]; ring
  · simp [Determinant3, Determinant]
  · rw [Matrix.det_fin_two]; simp [Determinant2]
  · rw [Matrix.det_fin_two]; simp [Determinant]
  · simp [Determinant2, Determinant]
  · simp [Determinant1, Matrix.det_unique]
  · simp [Determinant, Matrix.det_unique]
  · simp [Determinant1, Determinant]

/-- C29: the overload of `Determinant` for dynamic sizes returns 0 outside its three
shapes.  For every matrix whose sizes are not 3 and 3, 2 and 2, or 1 and 1, whatever its
entries, the result is 0; the function has no other outcome. -/
theorem Determinant_is_zero_on_other_shapes {R : Type} [CommRing R] (J : DynamicMatrix R)
    (h3 : ¬ (J.Size0 = 3 ∧ J.Size1 = 3)) (h2 : ¬ (J.Size0 = 2 ∧ J.Size1 = 2))
    (h1 : ¬ (J.Size0 = 1 ∧ J.Size1 = 1)) : Determinant J = 0 := by
  simp [Determinant, h3, h2, h1]

/-- C29 on the identity matrix of size 4, whose determinant is 1: the result is 0. -/
theorem Determinant_is_zero_on_other_shapes_witness :
    Determinant identity4 = 0 ∧
    Matrix.det (Matrix.of fun i j : Fin 4 => identity4.entry i j) = 1 := by
  refine ⟨Determinant_is_zero_on_other_shapes identity4 (by decide) (by decide) (by decide), ?_⟩
  have h : (Matrix.of fun i j : Fin 4 => identity4.entry i j) = 1 := by
    ext i j
    simp [identity4, Matrix.one_apply, Fin.ext_iff]
  rw [h, Matrix.det_one]

/-! ## `FillEssTdofLists` -/

theorem FillEssTdofLists_block_spec (rtdof_offsets : List Int) (tdof : Int) :
    ∀ (left j : Nat), rtdof_offsets.getD j 0 ≤ tdof →
      tdof < rtdof_offsets.getD (j + left) 0 →
      j ≤ ComplexBlockStaticCondensation.FillEssTdofLists.block rtdof_offsets tdof left j ∧
      ComplexBlockStaticCondensation.FillEssTdofLists.block rtdof_offsets tdof left j
        < j + left ∧
      rtdof_offsets.getD
        (ComplexBlockStaticCondensation.FillEssTdofLists.block rtdof_offsets tdof left j) 0
        ≤ tdof ∧
      tdof < rtdof_offsets.getD
        (ComplexBlockStaticCondensation.FillEssTdofLists.block rtdof_offsets tdof left j + 1) 0 := by
  intro left
  induction left with
  | zero =>
    intro j hlo hhi
    simp only [Nat.add_zero] at hhi
    omega
  | succ k ih =>
    intro j hlo hhi
    unfold ComplexBlockStaticCondensation.FillEssTdofLists.block
    by_cases hbreak : rtdof_offsets.getD (j + 1) 0 > tdof
    · rw [if_pos hbreak]
      exact ⟨le_refl _, by omega, hlo, hbreak⟩
    · rw [if_neg hbreak]
      have h := ih (j + 1) (by omega) (by rw [Nat.add_assoc, Nat.add_comm 1 k]; exact hhi)
      exact ⟨by omega, by omega, h.2.2.1, h.2.2.2⟩

theorem FillEssTdofLists_some (rblocks : Nat) (rtdof_offsets : List Int) :
    ∀ (ess_tdof_list : List Int) (ess_tdofs : List (List Int)),
      ess_tdofs.length = rblocks →
      (∀ t ∈ ess_tdof_list,
        ComplexBlockStaticCondensation.FillEssTdofLists.block rtdof_offsets t rblocks 0
          < rblocks) →
      ∃ out, ComplexBlockStaticCondensation.FillEssTdofLists rblocks rtdof_offsets ess_tdofs
          ess_tdof_list = some out ∧ out.length = rblocks := by
  intro ess_tdof_list
  induction ess_tdof_list with
  | nil =>
    intro ess_tdofs hlen _
    exact ⟨ess_tdofs, rfl, hlen⟩
  | cons t rest ih =>
    intro ess_tdofs hlen hj
    have hjt := hj t (List.mem_cons_self _ _)
    have hlt : ComplexBlockStaticCondensation.FillEssTdofLists.block rtdof_offsets t rblocks 0
        < ess_tdofs.length := by rw [hlen]; exact hjt
    obtain ⟨out, hout, houtlen⟩ := ih
      (ess_tdofs.set
        (ComplexBlockStaticCondensation.FillEssTdofLists.block rtdof_offsets t rblocks 0)
        (ess_tdofs.getD
          (ComplexBlockStaticCondensation.FillEssTdofLists.block rtdof_offsets t rblocks 0) []
          ++ [t - rtdof_offsets.getD
            (ComplexBlockStaticCondensation.FillEssTdofLists.block rtdof_offsets t rblocks 0) 0]))
      (by rw [List.length_set]; exact hlen)
      (fun t' ht' => hj t' (List.mem_cons_of_mem _ ht'))
    refine ⟨out, ?_, houtlen⟩
    unfold ComplexBlockStaticCondensation.FillEssTdofLists at hout ⊢
    rw [List.foldlM_cons]
    simp only [hlt, if_true]
    exact hout

/-- C26: essential dofs land in an existing block with a valid local index.  With
`rblocks + 1` offsets of which the first is 0, for every true dof `t` of the list with
`0 ≤ t < rtdof_offsets[rblocks]` the block `j` the inner loop of `FillEssTdofLists`
stops at satisfies `j < rblocks` and `rtdof_offsets[j] ≤ t < rtdof_offsets[j+1]`, so
that the index appended, `t - rtdof_offsets[j]`, lies in `[0, size of block j)`, the
read `rtdof_offsets[j+1]` is inside the array and, with `rblocks` lists, so is the access
`ess_tdofs[j]`: the function runs to its end. -/
theorem FillEssTdofLists_stays_in_bounds (rblocks : Nat) (rtdof_offsets : List Int)
    (ess_tdof_list : List Int) (hlen : rtdof_offsets.length = rblocks + 1)
    (hzero : rtdof_offsets.getD 0 0 = 0)
    (hrange : ∀ t ∈ ess_tdof_list, 0 ≤ t ∧ t < rtdof_offsets.getD rblocks 0) :
    (∀ t ∈ ess_tdof_list,
      ComplexBlockStaticCondensation.FillEssTdofLists.block rtdof_offsets t rblocks 0
        < rblocks ∧
      ComplexBlockStaticCondensation.FillEssTdofLists.block rtdof_offsets t rblocks 0 + 1
        < rtdof_offsets.length ∧
      rtdof_offsets.getD
        (ComplexBlockStaticCondensation.FillEssTdofLists.block rtdof_offsets t rblocks 0) 0
        ≤ t ∧
      t < rtdof_offsets.getD
        (ComplexBlockStaticCondensation.FillEssTdofLists.block rtdof_offsets t rblocks 0 + 1) 0 ∧
      0 ≤ t - rtdof_offsets.getD
        (ComplexBlockStaticCondensation.FillEssTdofLists.block rtdof_offsets t rblocks 0) 0 ∧
      t - rtdof_offsets.getD
        (ComplexBlockStaticCondensation.FillEssTdofLists.block rtdof_offsets t rblocks 0) 0
        < rtdof_offsets.getD
            (ComplexBlockStaticCondensation.FillEssTdofLists.block rtdof_offsets t rblocks 0 + 1) 0
          - rtdof_offsets.getD
            (ComplexBlockStaticCondensation.FillEssTdofLists.block rtdof_offsets t rblocks 0) 0) ∧
    ∀ ess_tdofs : List (List Int), ess_tdofs.length = rblocks →
      ∃ out, ComplexBlockStaticCondensation.FillEssTdofLists rblocks rtdof_offsets ess_tdofs
          ess_tdof_list = some out ∧ out.length = rblocks := by
  have key : ∀ t ∈ ess_tdof_list,
      ComplexBlockStaticCondensation.FillEssTdofLists.block rtdof_offsets t rblocks 0
        < rblocks ∧
      rtdof_offsets.getD
        (ComplexBlockStaticCondensation.FillEssTdofLists.block rtdof_offsets t rblocks 0) 0
        ≤ t ∧
      t < rtdof_offsets.getD
        (ComplexBlockStaticCondensation.FillEssTdofLists.block rtdof_offsets t rblocks 0 + 1) 0 := by
    intro t ht
    obtain ⟨hlo, hhi⟩ := hrange t ht
    have h := FillEssTdofLists_block_spec rtdof_offsets t rblocks 0 (by rw [hzero]; exact hlo)
      (by rw [Nat.zero_add]; exact hhi)
    exact ⟨by omega, h.2.2.1, h.2.2.2⟩
  refine ⟨fun t ht => ?_, fun ess_tdofs hl =>
    FillEssTdofLists_some rblocks rtdof_offsets ess_tdof_list ess_tdofs hl
      (fun t ht => (key t ht).1)⟩
  obtain ⟨h1, h2, h3⟩ := key t ht
  exact ⟨h1, by omega, h2, h3, by omega, by omega⟩

/-- C26 on three blocks with the offsets 0, 4, 4, 9 and the true dofs 5, 0 and 3: the
dof 5 goes to the block 2 with the local index 1, the dofs 0 and 3 to the block 0. -/
theorem FillEssTdofLists_stays_in_bounds_witness :
    ComplexBlockStaticCondensation.FillEssTdofLists 3 [0, 4, 4, 9] [[], [], []] [5, 0, 3]
      = some [[0, 3], [], [1]] ∧
    ∃ out, ComplexBlockStaticCondensation.FillEssTdofLists 3 [0, 4, 4, 9] [[7], [], []] [5, 0, 3]
      = some out ∧ out.length = 3 :=
  ⟨by decide,
   (FillEssTdofLists_stays_in_bounds 3 [0, 4, 4, 9] [5, 0, 3] rfl rfl (by decide)).2
     [[7], [], []] rfl⟩

/-! ## The faces of an element -/

/-- C27 fails on the code: for a mesh of dimension 1 the statements that fill `faces`
make the vertex query and then the face query as well, since the test `dim == 2` has an
`else` branch that every other dimension takes; the array `faces` used afterwards is
what `GetElementFaces` assigned, not the vertex list. -/
theorem faces_in_dimension_one_are_queried_as_faces (mesh : Mesh) (el : Int) :
    ComplexBlockStaticCondensation.faces { mesh with Dimension := 1 } el
      = ([MeshQuery.GetElementVertices, MeshQuery.GetElementFaces],
         mesh.GetElementFaces el) ∧
    ComplexBlockStaticCondensation.faces segment 0
      = ([MeshQuery.GetElementVertices, MeshQuery.GetElementFaces], []) ∧
    segment.GetElementVertices 0 = [0, 1] := by
  refine ⟨?_, by decide, rfl⟩
  simp [ComplexBlockStaticCondensation.faces]

/-! ## `GetReduceElementIndicesAndOffsets` -/

theorem Split_step (skip td ndof : Nat) (tr int : List Nat) (h : Split skip tr int)
    (htd : td ≤ ndof) :
    Split (skip + ndof) (tr ++ (List.range td).map fun j => skip + j)
      (int ++ (List.range (ndof - td)).map fun j => skip + td + j) := by
  obtain ⟨h1, h2, h3, h4, h5⟩ := h
  refine ⟨?_, ?_, ?_, ?_, ?_⟩
  · rw [List.pairwise_append]
    refine ⟨h1, ?_, ?_⟩
    · exact (List.pairwise_lt_range td).map _ fun a b hab => by omega
    · intro a ha b hb
      obtain ⟨j, -, rfl⟩ := List.mem_map.mp hb
      have := h3 a ha
      omega
  · rw [List.pairwise_append]
    refine ⟨h2, ?_, ?_⟩
    · exact (List.pairwise_lt_range (ndof - td)).map _ fun a b hab => by omega
    · intro a ha b hb
      obtain ⟨j, -, rfl⟩ := List.mem_map.mp hb
      have := h4 a ha
      omega
  · intro x hx
    rcases List.mem_append.mp hx with hx | hx
    · have := h3 x hx; omega
    · obtain ⟨j, hj, rfl⟩ := List.mem_map.mp hx
      have := List.mem_range.mp hj
      omega
  · intro x hx
    rcases List.mem_append.mp hx with hx | hx
    · have := h4 x hx; omega
    · obtain ⟨j, hj, rfl⟩ := List.mem_map.mp hx
      have := List.mem_range.mp hj
      omega
  · have hsplit : List.range ndof = List.range td ++ (List.range (ndof - td)).map (td + ·) := by
      rw [← List.range_add]
      congr 1
      omega
    have hr : List.range (skip + ndof)
        = List.range skip ++ ((List.range td).map fun j => skip + j) ++
          ((List.range (ndof - td)).map fun j => skip + td + j) := by
      rw [List.range_add, hsplit, List.map_append, List.map_map, List.append_assoc]
      congr 2
      apply List.map_congr_left
      intro j _
      simp [Nat.add_assoc]
    rw [hr]
    have hp : List.Perm
        ((tr ++ (List.range td).map fun j => skip + j) ++
          (int ++ (List.range (ndof - td)).map fun j => skip + td + j))
        ((tr ++ int) ++ (((List.range td).map fun j => skip + j) ++
          ((List.range (ndof - td)).map fun j => skip + td + j))) := by
      simp only [List.append_assoc]
      exact List.Perm.append_left _ (List.perm_append_comm_assoc _ _ _)
    refine hp.trans ?_
    rw [List.append_assoc (List.range skip)]
    exact List.Perm.append_right _ h5

theorem GetReduceElementIndicesAndOffsets_loop_spec : ∀ (blocks : List ElementBlock)
    (skip : Nat) (tr int offs : List Nat), (∀ b ∈ blocks, b.td ≤ b.ndof) → Split skip tr int →
    Split (skip + (blocks.map ElementBlock.ndof).sum)
      (ComplexBlockStaticCondensation.GetReduceElementIndicesAndOffsets.loop blocks skip tr int
        offs).1
      (ComplexBlockStaticCondensation.GetReduceElementIndicesAndOffsets.loop blocks skip tr int
        offs).2.1 ∧
    (ComplexBlockStaticCondensation.GetReduceElementIndicesAndOffsets.loop blocks skip tr int
      offs).2.2 = offs ++ blocks.map ElementBlock.td ∧
    (ComplexBlockStaticCondensation.GetReduceElementIndicesAndOffsets.loop blocks skip tr int
      offs).1.length = tr.length + (blocks.map ElementBlock.td).sum := by
  intro blocks
  induction blocks with
  | nil =>
    intro skip tr int offs _ h
    simpa [ComplexBlockStaticCondensation.GetReduceElementIndicesAndOffsets.loop] using h
  | cons b rest ih =>
    intro skip tr int offs hb h
    have hstep := Split_step skip b.td b.ndof tr int h (hb b (List.mem_cons_self _ _))
    obtain ⟨h1, h2, h3⟩ := ih (skip + b.ndof) _ _ (offs ++ [b.td])
      (fun b' hb' => hb b' (List.mem_cons_of_mem _ hb')) hstep
    simp only [ComplexBlockStaticCondensation.GetReduceElementIndicesAndOffsets.loop,
      List.map_cons, List.sum_cons]
    refine ⟨?_, ?_, ?_⟩
    · rw [← Nat.add_assoc]; exact h1
    · rw [h2]; simp
    · rw [h3]; simp; omega

theorem PartialSum_go_length : ∀ (data : List Nat) (sum : Nat),
    (PartialSum.go sum data).length = data.length := by
  intro data
  induction data with
  | nil => intro sum; rfl
  | cons x rest ih => intro sum; simp [PartialSum.go, ih]

theorem PartialSum_go_getD : ∀ (data : List Nat) (sum i : Nat), i < data.length →
    (PartialSum.go sum data).getD i 0 = sum + (data.take (i + 1)).sum := by
  intro data
  induction data with
  | nil => intro sum i hi; simp at hi
  | cons x rest ih =>
    intro sum i hi
    cases i with
    | zero => simp [PartialSum.go]
    | succ k =>
      have hk : k < rest.length := by simpa using hi
      have h := ih (sum + x) k hk
      simp only [List.getD_eq_getElem?_getD] at h ⊢
      simp only [PartialSum.go, List.getElem?_cons_succ, List.take_succ_cons, List.sum_cons]
      rw [h]
      omega

/-- C25: trace and interior indices partition the element dofs.  For every list of
blocks with `td ≤ ndof` in each block, `GetReduceElementIndicesAndOffsets` returns
arrays `trace_ldofs` and `interior_ldofs` that are each strictly increasing, have no
index in common, and together hold every index below the sum of the `ndof` once;
`offsets` has one entry more than there are blocks, its entry `i` is the sum of the `td`
of the blocks before `i`, and the length of `trace_ldofs` is the last offset. -/
theorem GetReduceElementIndicesAndOffsets_partitions (blocks : List ElementBlock)
    (h : ∀ b ∈ blocks, b.td ≤ b.ndof) :
    (ComplexBlockStaticCondensation.GetReduceElementIndicesAndOffsets blocks).1.Pairwise (· < ·) ∧
    (ComplexBlockStaticCondensation.GetReduceElementIndicesAndOffsets blocks).2.1.Pairwise
      (· < ·) ∧
    List.Disjoint (ComplexBlockStaticCondensation.GetReduceElementIndicesAndOffsets blocks).1
      (ComplexBlockStaticCondensation.GetReduceElementIndicesAndOffsets blocks).2.1 ∧
    List.Perm
      ((ComplexBlockStaticCondensation.GetReduceElementIndicesAndOffsets blocks).1 ++
        (ComplexBlockStaticCondensation.GetReduceElementIndicesAndOffsets blocks).2.1)
      (List.range (blocks.map ElementBlock.ndof).sum) ∧
    (ComplexBlockStaticCondensation.GetReduceElementIndicesAndOffsets blocks).2.2.length
      = blocks.length + 1 ∧
    (∀ i, i ≤ blocks.length →
      (ComplexBlockStaticCondensation.GetReduceElementIndicesAndOffsets blocks).2.2.getD i 0
        = ((blocks.take i).map ElementBlock.td).sum) ∧
    (ComplexBlockStaticCondensation.GetReduceElementIndicesAndOffsets blocks).1.length
      = (ComplexBlockStaticCondensation.GetReduceElementIndicesAndOffsets blocks).2.2.getD
          blocks.length 0 := by
  have hstart : Split 0 [] [] := by
    refine ⟨List.Pairwise.nil, List.Pairwise.nil, ?_, ?_, ?_⟩
    · intro x hx; cases hx
    · intro x hx; cases hx
    · simp
  obtain ⟨⟨h1, h2, -, -, h5⟩, hoffs, hlen⟩ :=
    GetReduceElementIndicesAndOffsets_loop_spec blocks 0 [] [] [0] h hstart
  rw [Nat.zero_add] at h5
  have hentry : ∀ i, i ≤ blocks.length →
      (PartialSum (0 :: blocks.map ElementBlock.td)).getD i 0
        = ((blocks.take i).map ElementBlock.td).sum := by
    intro i hi
    unfold PartialSum
    rw [PartialSum_go_getD _ 0 i (by simp; omega)]
    simp [List.map_take]
  simp only [ComplexBlockStaticCondensation.GetReduceElementIndicesAndOffsets]
  rw [hoffs]
  refine ⟨h1, h2, ?_, h5, ?_, ?_, ?_⟩
  · exact List.disjoint_of_nodup_append (h5.nodup_iff.mpr (List.nodup_range _))
  · unfold PartialSum
    rw [PartialSum_go_length]
    simp
  · exact hentry
  · have hl := hentry blocks.length (le_refl _)
    rw [List.take_length] at hl
    simp only [List.singleton_append] at hl ⊢
    rw [hl, hlen]
    simp

/-- C25 on three blocks, a space with 5 dofs of which 2 are trace dofs, an L2 space with
6 dofs and a trace space with 4 dofs: the trace indices are 0, 1, 11, 12, 13, 14, the
interior indices are 2 to 10, and the offsets are 0, 2, 2, 6. -/
theorem GetReduceElementIndicesAndOffsets_partitions_witness :
    ComplexBlockStaticCondensation.GetReduceElementIndicesAndOffsets
      [ElementBlock.field 1 5 2, ElementBlock.bubble 2 3, ElementBlock.trace 1 [2, 2]]
      = ([0, 1, 11, 12, 13, 14], [2, 3, 4, 5, 6, 7, 8, 9, 10], [0, 2, 2, 6]) ∧
    List.Perm
      ((ComplexBlockStaticCondensation.GetReduceElementIndicesAndOffsets
          [ElementBlock.field 1 5 2, ElementBlock.bubble 2 3, ElementBlock.trace 1 [2, 2]]).1 ++
        (ComplexBlockStaticCondensation.GetReduceElementIndicesAndOffsets
          [ElementBlock.field 1 5 2, ElementBlock.bubble 2 3, ElementBlock.trace 1 [2, 2]]).2.1)
      (List.range 15) :=
  ⟨by decide,
   (GetReduceElementIndicesAndOffsets_partitions
      [ElementBlock.field 1 5 2, ElementBlock.bubble 2 3, ElementBlock.trace 1 [2, 2]]
      (by decide)).2.2.2.1⟩

/-! ## `GetLocalShurComplement` and `ComputeSolution` -/

/-- C24: block elimination is exact.  Over every commutative ring, hence over every
field, for blocks `A_tt`, `A_ti`, `A_it`, `A_ii` with at least one trace and one
interior dof and an interior block of which `ComputeInverse` returns the inverse,
`GetLocalShurComplement` succeeds and leaves `L = A_ii⁻¹ A_it`, `S = A_tt - A_ti L`,
`l = A_ii⁻¹ y_i` and `r = y_t - A_ti l`; and whenever `S x_t = r`, the vector `x_t`
together with the interior part `x_i = l - L x_t` that `ComputeSolution` recovers solves
the system: `A_tt x_t + A_ti x_i = y_t` and `A_it x_t + A_ii x_i = y_i`. -/
theorem block_elimination_is_exact {F : Type} [CommRing F] {rdofs idofs : Nat}
    (ComputeInverse : Matrix (Fin idofs) (Fin idofs) F → Matrix (Fin idofs) (Fin idofs) F)
    (A_tt : Matrix (Fin rdofs) (Fin rdofs) F) (A_ti : Matrix (Fin rdofs) (Fin idofs) F)
    (A_it : Matrix (Fin idofs) (Fin rdofs) F) (A_ii : Matrix (Fin idofs) (Fin idofs) F)
    (y_t : Fin rdofs → F) (y_i : Fin idofs → F) (x_t : Fin rdofs → F)
    (hidofs : idofs ≠ 0) (hrdofs : rdofs ≠ 0)
    (hinv : A_ii * ComputeInverse A_ii = 1) :
    ∃ sc, ComplexBlockStaticCondensation.GetLocalShurComplement ComputeInverse A_tt A_ti A_it
        A_ii y_t y_i = Except.ok sc ∧
      sc.lmat = ComputeInverse A_ii * A_it ∧
      sc.rmat = A_tt - A_ti * sc.lmat ∧
      sc.lvec = (ComputeInverse A_ii).mulVec y_i ∧
      sc.rvect = y_t - A_ti.mulVec sc.lvec ∧
      (sc.rmat.mulVec x_t = sc.rvect →
        A_tt.mulVec x_t + A_ti.mulVec
            (ComplexBlockStaticCondensation.ComputeSolution.interior sc.lmat sc.lvec x_t) = y_t ∧
        A_it.mulVec x_t + A_ii.mulVec
            (ComplexBlockStaticCondensation.ComputeSolution.interior sc.lmat sc.lvec x_t) = y_i) := by
  refine ⟨{ rmat := -(A_ti * (ComputeInverse A_ii * A_it)) + (1 : F) • A_tt,
             rvect := fun i => y_t i - A_ti.mulVec ((ComputeInverse A_ii).mulVec y_i) i,
             lmat := ComputeInverse A_ii * A_it,
             lvec := (ComputeInverse A_ii).mulVec y_i }, ?_, rfl, ?_, rfl, rfl, ?_⟩
  · simp only [ComplexBlockStaticCondensation.GetLocalShurComplement, hidofs, hrdofs, if_false]
  · simp only [one_smul]; abel
  · intro hS
    simp only [ComplexBlockStaticCondensation.ComputeSolution.interior] at *
    constructor
    · have hy : y_t = (-(A_ti * (ComputeInverse A_ii * A_it)) + (1 : F) • A_tt).mulVec x_t
          + A_ti.mulVec ((ComputeInverse A_ii).mulVec y_i) := by
        rw [hS]; ext i; simp
      rw [hy]
      simp only [Matrix.mulVec_add, Matrix.mulVec_neg, Matrix.add_mulVec, Matrix.neg_mulVec,
        one_smul, Matrix.mulVec_mulVec]
      abel
    · simp only [Matrix.mulVec_add, Matrix.mulVec_neg, Matrix.mulVec_mulVec, ← Matrix.mul_assoc,
        hinv, Matrix.one_mul, Matrix.one_mulVec]
      abel

/-- C24 on the system `2 x_t + x_i = 3`, `x_t + x_i = 2` over the integers: the Schur
complement is 1, the reduced right-hand side is 1, so `x_t = 1` solves the reduced
system, and with the interior part recovered both equations hold. -/
theorem block_elimination_is_exact_witness :
    (!![(2 : Int)]).mulVec ![1] + (!![(1 : Int)]).mulVec
        (ComplexBlockStaticCondensation.ComputeSolution.interior (!![(1 : Int)] * !![(1 : Int)])
          ((!![(1 : Int)]).mulVec ![2]) ![1]) = ![3] ∧
    (!![(1 : Int)]).mulVec ![1] + (!![(1 : Int)]).mulVec
        (ComplexBlockStaticCondensation.ComputeSolution.interior (!![(1 : Int)] * !![(1 : Int)])
          ((!![(1 : Int)]).mulVec ![2]) ![1]) = ![2] := by
  obtain ⟨sc, -, hl, hr, hv, hrv, hsol⟩ := block_elimination_is_exact (fun M => M)
    !![(2 : Int)] !![(1 : Int)] !![(1 : Int)] !![(1 : Int)] ![3] ![2] ![1]
    (by decide) (by decide)
    (by ext i j; fin_cases i; fin_cases j; simp [Matrix.mul_apply])
  have hS : sc.rmat.mulVec ![1] = sc.rvect := by
    rw [hr, hrv, hv, hl]
    ext i
    fin_cases i
    simp [Matrix.mulVec, Matrix.dotProduct, Matrix.mul_apply, Matrix.sub_apply]
  have h := hsol hS
  rw [hl, hv] at h
  exact h

end mfem
